import Mathlib

/-!
# ESP8266 AT-command driver: a shallow embedding of `src/ESP8266.cpp`

The driver talks to a WiFi co-processor over a serial link.  This file embeds
the response matcher (`searchResults`), the line assembler and message
classifier (`run`, `processWifiMessage`), the send path (`sendData`, `send`),
the address query and broadcast derivation (`getIP`, `getBroadcast`) and the
session functions (`initializeWifi`, `connectWifi`, `startServer`,
`startClient`, `closeConnection`, `enableBeacon`, `disableBeacon`), and proves
properties of them.

Conventions of the embedding
* A byte stored in a `char` buffer is a `Nat` below 256; the result of
  `wifi.read()` is an `Int` (`-1` when nothing is available).
* A C string argument such as `target` is the list of its `char` values
  without the terminating NUL; reading one position past the end yields the
  NUL (0), as `target[index]` does in the source.
* `unsigned long` arithmetic is taken modulo `2^32`.
* The debug serial port (`debugSer`) is a separate output device that no
  function reads back; its output is not modelled.
-/

namespace ESP8266

/-! ## Response matcher -/

/-- The expression `target[index]` on a NUL-terminated C string. -/
def charAt (target : List Int) (index : Nat) : Int :=
  target.getD index 0

/-- The value of `millis() - _startMillis` as an `unsigned long`. -/
def elapsedU32 (now start : Int) : Int :=
  (now - start) % 4294967296

/-- The conversion of a `long` to `unsigned long`. -/
def toU32 (x : Int) : Int :=
  x % 4294967296

/-- One pass through the body of the `do ... while` loop of `searchResults`
for a byte `c >= 0` (source lines 577-589): the new value of `index` and
whether the function returns `true` at this byte. -/
def searchStep (target : List Int) (index : Nat) (c : Int) : Nat × Bool :=
  let index1 := if c ≠ charAt target index then 0 else index
  if c = charAt target index1 then
    if index1 + 1 ≥ target.length then (index1 + 1, true) else (index1 + 1, false)
  else (index1, false)

/-- The loop of `searchResults` (source lines 563-591).  The transport and the
clock are given as a script: the `k`-th entry holds what the `k`-th
`wifi.read()` returns and what `millis()` returns in the loop test after it.
The result is `none` when the script ends before the loop does; otherwise it
is the returned boolean together with the part of the script not consumed. -/
def searchLoop (target : List Int) (timeout start : Int) :
    Nat → List (Int × Int) → Option (Bool × List (Int × Int))
  | _, [] => none
  | index, (c, now) :: rest =>
    let r := if c ≥ 0 then searchStep target index c else (index, false)
    if r.2 then some (true, rest)
    else if elapsedU32 now start < toU32 timeout then searchLoop target timeout start r.1 rest
    else some (false, rest)

/-- The function `searchResults(target, timeout, dbg)`; `start` is the value of
`millis()` on entry.  The debug level only selects what is printed on the
debug port, so it does not appear. -/
def searchResults (target : List Int) (timeout start : Int)
    (script : List (Int × Int)) : Option (Bool × List (Int × Int)) :=
  searchLoop target timeout start 0 script

/-- The bytes that a script delivers: the read results that are not "none". -/
def delivered (script : List (Int × Int)) : List Int :=
  (script.map Prod.fst).filter (fun c => c ≥ 0)

/-- A script describes exactly one waiting window: every loop test but the
last one finds the deadline not yet reached, and the last one finds it
reached. -/
def closesAtEnd (timeout start : Int) : List (Int × Int) → Prop
  | [] => False
  | [(_, now)] => ¬ elapsedU32 now start < toU32 timeout
  | (_, now) :: rest => elapsedU32 now start < toU32 timeout ∧ closesAtEnd timeout start rest

/-- The first byte of the target occurs at no later position of it. -/
def firstByteUnique : List Int → Prop
  | [] => True
  | a :: rest => a ∉ rest


/-! ## Text helpers -/

/-- The bytes of a string literal of the source. -/
def bytes (s : String) : List Nat :=
  s.toList.map Char.toNat

/-- The C string held in a `char` buffer: the bytes before the first NUL. -/
def cstr (buf : List Nat) : List Nat :=
  buf.takeWhile (fun c => c ≠ 0)

/-- The decimal digit characters `'0'..'9'`. -/
def isDigit (c : Nat) : Bool :=
  48 ≤ c && c ≤ 57

/-- The `isspace` class of the C library. -/
def isSpace (c : Nat) : Bool :=
  c = 32 || (9 ≤ c && c ≤ 13)

/-- Decimal digits of a number, most significant first, built from the least
significant end as `itoa` and `Print::print` do. -/
def decimalAux : Nat → Nat → List Nat → List Nat
  | 0, _, acc => acc
  | fuel + 1, n, acc =>
    if n < 10 then (48 + n) :: acc
    else decimalAux fuel (n / 10) ((48 + n % 10) :: acc)

/-- Decimal text of a natural number. -/
def decimal (n : Nat) : List Nat :=
  decimalAux (n + 1) n []

/-- Decimal text of a signed number (`itoa(x, p, 10)`, `wifi.print(int)`). -/
def decimalInt (x : Int) : List Nat :=
  if x < 0 then 45 :: decimal x.natAbs else decimal x.natAbs

/-- The value of a number stored into a 16-bit `int`. -/
def wrapInt16 (v : Int) : Int :=
  (v + 32768) % 65536 - 32768

/-- The value of an `unsigned long` stored into a `long`. -/
def toLong (v : Int) : Int :=
  (v + 2147483648) % 4294967296 - 2147483648

/-- The comparison `strncmp(a, b, n) == 0`, started at position `i`: the two
strings agree on the next `n` positions or up to and including a NUL.  A
position past the end of a list reads as NUL. -/
def strncmpEq (a b : List Nat) : Nat → Nat → Bool
  | 0, _ => true
  | n + 1, i =>
    if a.getD i 0 ≠ b.getD i 0 then false
    else if a.getD i 0 = 0 then true
    else strncmpEq a b n (i + 1)

/-- Leading white space is skipped by a `%d` conversion. -/
def skipSpace : List Nat → List Nat
  | [] => []
  | c :: r => if isSpace c then skipSpace r else c :: r

/-- The digits of a `%d` conversion: the accumulated value and the text left. -/
def scanDigits : Nat → List Nat → Nat × List Nat
  | acc, [] => (acc, [])
  | acc, d :: r => if isDigit d then scanDigits (acc * 10 + (d - 48)) r else (acc, d :: r)

/-- One `%d` conversion of `sscanf` into an `int`: optional white space, an
optional sign, at least one digit.  The 16-bit `int` of the AVR target keeps
the low 16 bits of the value.  The result is `none` on a matching failure. -/
def scanInt (s : List Nat) : Option (Int × List Nat) :=
  let s1 := skipSpace s
  let negative : Bool := decide (s1.head? = some 45)
  let s2 := if s1.head? = some 45 ∨ s1.head? = some 43 then s1.drop 1 else s1
  match s2 with
  | [] => none
  | d :: _ =>
    if isDigit d then
      let r := scanDigits 0 s2
      some (wrapInt16 (if negative then -(r.1 : Int) else (r.1 : Int)), r.2)
    else none

/-- The call `sscanf(s, "%d,%d", &channel, &packet_len)`: the values assigned
to `channel` and `packet_len`, `none` for a variable left unassigned. -/
def sscanf2 (s : List Nat) : Option Int × Option Int :=
  match scanInt s with
  | none => (none, none)
  | some (channel, r) =>
    match r with
    | 44 :: r1 =>
      match scanInt r1 with
      | none => (some channel, none)
      | some (packet_len, _) => (some channel, some packet_len)
    | _ => (some channel, none)

/-- The scan `while (*pb != x) pb++`: how far `pb` moves before it points at
`x`, `none` when it leaves the buffer first. -/
def scanTo (x : Nat) : List Nat → Option Nat
  | [] => none
  | c :: r => if c = x then some 0 else (scanTo x r).map (fun k => k + 1)

/-! ## Driver state -/

def BUFFER_SIZE : Nat := 255
def SVR_CHAN : Int := 1
def BCN_CHAN : Int := 2
def CLI_CHAN : Int := 3
def BEACON_INT : Int := 6733
def CONNECT_MODE_NONE : Int := 0
def CONNECT_MODE_SERVER : Int := 1
def CONNECT_MODE_CLIENT : Int := 2

/-- The text `Link`. -/
def textLink : List Nat := [76, 105, 110, 107]

/-- The text `+IPD,`. -/
def textIPD : List Nat := [43, 73, 80, 68, 44]

/-- The text `SEND OK` as `char` values. -/
def textSendOK : List Int := [83, 69, 78, 68, 32, 79, 75]

/-- A call of one of the two user callbacks. -/
inductive Event where
  | connected
  | data (payload : List Nat)
deriving DecidableEq, Repr

/-- The ways in which the source leaves defined behaviour. -/
inductive Fault where
  /-- A store to `_wb[index]` with `index` outside the array. -/
  | wbOverflow (index : Nat)
  /-- A read of `channel` or `packet_len` that `sscanf` did not assign. -/
  | unassigned
  /-- The colon scan of `processWifiMessage` ran past the end of `_wb`. -/
  | scanPastBuffer
  /-- A store outside a local or global `char` array other than `_wb`. -/
  | arrayOverflow
  /-- A `strlen` of an array that holds no NUL. -/
  | unterminated
deriving DecidableEq, Repr

/-- The global variables of the driver (source lines 22-42) together with the
devices it acts on.  A callback pointer is modelled by whether it is set; a
call of it is recorded in `events`. -/
structure State where
  _mode : Int
  _baudrate : Int
  _ipaddress : List Nat
  _broadcast : List Nat
  _port : Int
  _device : List Nat
  _ssid : List Nat
  _password : List Nat
  _beacon : Bool
  _beaconInterval : Int
  _previousMillis : Int
  _replyChan : Int
  _dcb : Bool
  _ccb : Bool
  _wb : List Nat
  _wctr : Nat
  _connected : Bool
  _forceReset : Bool
  _sendingData : Bool
  _connectMode : Int
  _debugLevel : Int
  /-- Bytes waiting in the receive queue of `wifi`. -/
  rx : List Nat
  /-- Bytes written to `wifi` so far. -/
  tx : List Nat
  /-- Callback invocations so far. -/
  events : List Event
  /-- Number of `wdt_reset()` calls so far. -/
  wdtResets : Nat
  /-- Calls `sendData(chan, data)` made by `run` so far. -/
  beaconSends : List (Int × List Nat)
deriving DecidableEq, Repr

/-- How a call of a driver function ends. -/
inductive Outcome where
  /-- The call returns in this state. -/
  | returned (w : State)
  /-- The call spins in `while(1);` for ever, in this state. -/
  | hung (w : State)
  /-- The call leaves defined behaviour, in this state. -/
  | undefined (f : Fault) (w : State)
  /-- The script of the transport ends while the call still waits. -/
  | blocked (w : State)
deriving DecidableEq, Repr

/-- The state in which a call ends. -/
def Outcome.state : Outcome → State
  | .returned w => w
  | .hung w => w
  | .undefined _ w => w
  | .blocked w => w

/-- The state set up by the constructor `ESP8266(mode, baudrate, debugLevel)`
(source lines 44-62); globals it does not assign start as zero. -/
def construct (mode baudrate debugLevel : Int) : State :=
  { _mode := mode, _baudrate := baudrate, _debugLevel := debugLevel, _port := 8000,
    _replyChan := 0,
    _ipaddress := List.replicate 16 0, _broadcast := List.replicate 16 0,
    _device := List.replicate 48 0, _ssid := List.replicate 48 0,
    _password := List.replicate 24 0,
    _beacon := false, _beaconInterval := BEACON_INT, _previousMillis := 0,
    _connected := false, _forceReset := false, _sendingData := false,
    _dcb := false, _ccb := false, _wb := List.replicate BUFFER_SIZE 0, _wctr := 0,
    _connectMode := CONNECT_MODE_NONE,
    rx := [], tx := [], events := [], wdtResets := 0, beaconSends := [] }

/-- The call `clearResults(minTimeMillis)` (source lines 607-628): every byte
in the receive queue is read and dropped.  Bytes that arrive while it waits
are dropped too and never enter the model. -/
def clearResults (w : State) : State :=
  { w with rx := [] }

/-- The function `processWifiMessage` (source lines 360-405), run on the line
held in `_wb`. -/
def processWifiMessage (w : State) : Outcome :=
  if strncmpEq w._wb textLink 5 0 then
    let w1 := { w with _connected := true }
    if w1._ccb then .returned { w1 with events := w1.events ++ [Event.connected] }
    else .returned w1
  else if strncmpEq w._wb textIPD 5 0 then
    match sscanf2 (cstr (w._wb.drop 5)) with
    | (none, _) => .undefined .unassigned w
    | (some channel, plen) =>
      let w1 := { w with _replyChan := channel }
      match plen with
      | none => .undefined .unassigned w1
      | some packet_len =>
        if packet_len > 0 then
          match scanTo 58 (w1._wb.drop 5) with
          | none => .undefined .scanPastBuffer w1
          | some k =>
            if w1._dcb then
              let w2 := clearResults w1
              .returned { w2 with events := w2.events ++ [Event.data (cstr (w2._wb.drop (5 + k + 1)))] }
            else .returned w1
        else .returned w1
  else .returned w

/-- The `while (wifi.available() > 0)` loop of `run` (source lines 191-204).
Every pass reads one byte, so a fuel equal to the number of waiting bytes
lets the loop run to its end. -/
def rxLoop : Nat → State → Outcome
  | 0, w => .returned w
  | fuel + 1, w =>
    match w.rx with
    | [] => .returned w
    | v :: rest =>
      let w0 := { w with rx := rest }
      if v = 10 then
        if w0._wctr < BUFFER_SIZE then
          match processWifiMessage { w0 with _wb := w0._wb.set w0._wctr 0, _wctr := 0 } with
          | .returned w1 => rxLoop fuel w1
          | other => other
        else .undefined (.wbOverflow w0._wctr) w0
      else if v = 13 then rxLoop fuel w0
      else if w0._wctr < BUFFER_SIZE then
        rxLoop fuel { w0 with _wb := w0._wb.set w0._wctr v, _wctr := w0._wctr + 1 }
      else .undefined (.wbOverflow w0._wctr) w0

/-- The function `sendData(chan, data)` (source lines 407-431).  The wait for
`SEND OK` reads the transport through a script as `searchResults` does;
`start` is the value of `millis()` when the wait begins.  The result is `none`
when the script ends during the wait, otherwise the returned boolean, the
new state and the unread part of the script. -/
def sendData (w : State) (chan : Int) (data : List Nat) (start : Int)
    (script : List (Int × Int)) : Option (Bool × State × List (Int × Int)) :=
  if w._sendingData = true then some (false, w, script)
  else
    let w1 := { w with _sendingData := true }
    let w2 := clearResults w1
    let w3 := { w2 with tx := w2.tx ++ bytes ("AT+CIPSEND=") ++ decimalInt chan ++ bytes (",")
                  ++ decimal (data.length % 65536) ++ [13, 10] ++ data ++ [13, 10] }
    match searchResults textSendOK 10000 start script with
    | none => none
    | some (result, rest) => some (result, { w3 with _sendingData := false }, rest)

/-- The function `send(data)` (source lines 170-180). -/
def send (w : State) (data : List Nat) (start : Int)
    (script : List (Int × Int)) : Option (Bool × State × List (Int × Int)) :=
  let chan := if w._connectMode = CONNECT_MODE_SERVER then w._replyChan else CLI_CHAN
  sendData w chan data start script

/-- The `strlen` of a `char` array: `none` when the array holds no NUL. -/
def strlen? (buf : List Nat) : Option Nat :=
  if (cstr buf).length < buf.length then some (cstr buf).length else none

/-- The beacon text assembled in `_data` by `run` (source lines 211-229).
The port is written by `itoa` into `p[6]` and the pieces are joined by
`strcat` in `_data[255]`; a piece that does not fit its array is a fault. -/
def beaconMessage (w : State) : Except Fault (List Nat) :=
  let line1 := bytes ("\x7b\"event\": \"beacon\", \"ip\": \"")
  let line3 := bytes ("\", \"port\": ")
  let line5 := bytes (", \"device\": \"")
  let line7 := bytes ("\"\x7d\r\n")
  let p := decimalInt w._port
  if p.length + 1 > 6 then .error .arrayOverflow
  else
    match strlen? w._ipaddress, strlen? w._device with
    | some _, some _ =>
      let data := line1 ++ cstr w._ipaddress ++ line3 ++ p ++ line5 ++ cstr w._device ++ line7
      if data.length + 1 > 255 then .error .arrayOverflow else .ok data
    | _, _ => .error .unterminated

/-- The watchdog part of `run` (source lines 237-251). -/
def watchdogCheck (w : State) (now : Int) : Outcome :=
  if w._forceReset = true then
    if elapsedU32 now w._previousMillis > toU32 (w._beaconInterval * 3) then .hung w
    else .returned { w with wdtResets := w.wdtResets + 1 }
  else .returned w

/-- The function `run` (source lines 182-252).  `now` is the value that
`millis()` returns on entry; `sendStart` and `script` describe the clock and
the transport during the wait of a beacon send, as for `sendData`. -/
def run (w : State) (now sendStart : Int) (script : List (Int × Int)) : Outcome :=
  if elapsedU32 now w._previousMillis < toU32 w._beaconInterval then
    match rxLoop w.rx.length w with
    | .returned w1 => watchdogCheck w1 now
    | other => other
  else if w._beacon = false then .returned w
  else
    match beaconMessage w with
    | .error f => .undefined f w
    | .ok data =>
      let w0 := { w with beaconSends := w.beaconSends ++ [(BCN_CHAN, data)] }
      match sendData w0 BCN_CHAN data sendStart script with
      | none => .blocked w0
      | some (true, w1, _) => watchdogCheck { w1 with _previousMillis := toLong now } now
      | some (false, w1, _) => watchdogCheck w1 now

/-- The copy loop of `getBroadcast` (source lines 514-519), run over the
characters of `_ipaddress` from position `i` on: the value of `i` when the
loop ends and the `_broadcast` array, or `none` for a store outside it. -/
def copyToThirdDot : List Nat → Nat → Nat → List Nat → Option (Nat × List Nat)
  | [], i, _, bc => some (i, bc)
  | c :: rest, i, dots, bc =>
    if i < 16 then
      let bc1 := bc.set i c
      let dots1 := if c = 46 then dots + 1 else dots
      if dots1 = 3 then some (i, bc1) else copyToThirdDot rest (i + 1) dots1 bc1
    else none

/-- A store `_broadcast[i] = v`. -/
def storeBroadcast (bc : List Nat) (i v : Nat) : Option (List Nat) :=
  if i < 16 then some (bc.set i v) else none

/-- The function `getBroadcast` (source lines 505-532): the returned boolean
and the new state. -/
def getBroadcast (w : State) : Except Fault (Bool × State) :=
  match strlen? w._ipaddress with
  | none => .error .unterminated
  | some n =>
    if n < 7 then .ok (false, w)
    else
      match copyToThirdDot (cstr w._ipaddress) 0 0 (List.replicate 16 0) with
      | none => .error .arrayOverflow
      | some (i, bc) =>
        match (storeBroadcast bc (i + 1) 50).bind (fun b1 =>
              (storeBroadcast b1 (i + 2) 53).bind (fun b2 =>
              (storeBroadcast b2 (i + 3) 53).bind (fun b3 =>
              storeBroadcast b3 (i + 4) 0))) with
        | none => .error .arrayOverflow
        | some b4 => .ok (true, { w with _broadcast := b4 })

/-- One octet of a dotted-quad address as text: one to three decimal digits. -/
def isOctet (l : List Nat) : Prop :=
  1 ≤ l.length ∧ l.length ≤ 3 ∧ ∀ d ∈ l, isDigit d = true

/-- The number of bytes of a stretch of input that the line assembler stores:
all of them but the carriage returns. -/
def stored (seg : List Nat) : Nat :=
  (seg.filter (fun v => decide (v ≠ 13))).length

/-- Every line of the input fits the line buffer together with its
terminating NUL: no stretch of the input without a line feed has more than
254 bytes to store. -/
def linesFit (rx : List Nat) : Prop :=
  ∀ seg, seg <:+: rx → 10 ∉ seg → stored seg ≤ 254

/-- The state of the line assembler is consistent with the buffer: the line
in progress and every later line fit. -/
def lineInvariant (w : State) : Prop :=
  w._wb.length = BUFFER_SIZE ∧
  (∀ seg, seg <+: w.rx → 10 ∉ seg → w._wctr + stored seg ≤ 254) ∧
  linesFit w.rx

/-! ## Reference substring search -/

/-- Reference search, written from the words of the specification: the number
of bytes of `s` up to the end of the first contiguous occurrence of `target`,
`none` when `target` does not occur in `s`. -/
def referenceSearch (target : List Int) : List Int → Option Nat
  | [] => if target = [] then some 0 else none
  | a :: s =>
    if target.isPrefixOf (a :: s) then some target.length
    else (referenceSearch target s).map (fun k => k + 1)

/-! ## Session control -/

/-- Modelled from the spec: the error sentinels that `ESP8266.h` declares
(the header is not among the sources); the specification says that each setup
failure has a distinct sentinel. -/
inductive WifiError where
  | WIFI_ERR_NONE
  | WIFI_ERR_AT
  | WIFI_ERR_RESET
  | WIFI_ERR_CONNECT
  | WIFI_ERR_LINK
deriving DecidableEq, Repr

/-- How a call of a driver function that returns a value ends. -/
inductive Result (α : Type) where
  /-- The call returns `value` in this state. -/
  | done (value : α) (w : State)
  /-- The call leaves defined behaviour, in this state. -/
  | undefined (f : Fault) (w : State)
  /-- The script of the transport ends while the call still waits. -/
  | blocked (w : State)
deriving Repr

/-- The state in which a call ends. -/
def Result.state {α : Type} : Result α → State
  | .done _ w => w
  | .undefined _ w => w
  | .blocked w => w

/-- The clock and the transport during one blocking wait: the value of
`millis()` when the wait begins and the script of its polls. -/
abbrev Wait := Int × List (Int × Int)

/-- The text `OK` as `char` values. -/
def textOK : List Int := [79, 75]

/-- The text `ready` as `char` values. -/
def textReady : List Int := [114, 101, 97, 100, 121]

/-- A `wifi.print` of some text. -/
def wifiPrint (w : State) (text : List Nat) : State :=
  { w with tx := w.tx ++ text }

/-- A call `searchResults(target, timeout, _debugLevel)` whose unread polls
are of no further use: the returned boolean, `none` when the script ends
during the wait. -/
def awaitReply (target : List Int) (timeout : Int) (wait : Wait) : Option Bool :=
  (searchResults target timeout wait.1 wait.2).map Prod.fst

/-- The call `strcpy(dest, src)` into a `char` array: `none` when the string
and its NUL do not fit. -/
def strcpy (dest src : List Nat) : Option (List Nat) :=
  if src.length + 1 ≤ dest.length then some (src ++ 0 :: dest.drop (src.length + 1)) else none

/-- The function `initializeWifi(dcb, ccb)` (source lines 64-102); `dcb` and
`ccb` tell whether a callback is passed. -/
def initializeWifi (w : State) (dcb ccb : Bool) (wait1 wait2 : Wait) : Result WifiError :=
  let w1 := if dcb then { w with _dcb := true } else w
  let w2 := if ccb then { w1 with _ccb := true } else w1
  let w3 := wifiPrint (clearResults w2) (bytes ("AT\r\n"))
  match awaitReply textOK 5000 wait1 with
  | none => .blocked w3
  | some false => .done .WIFI_ERR_AT w3
  | some true =>
    let w4 := wifiPrint (clearResults w3) (bytes ("AT+RST\r\n"))
    match awaitReply textReady 5000 wait2 with
    | none => .blocked w4
    | some false => .done .WIFI_ERR_RESET w4
    | some true =>
      let w5 := wifiPrint (clearResults w4) (bytes ("AT+CWMODE=") ++ decimalInt w4._mode ++ [13, 10])
      .done .WIFI_ERR_NONE (clearResults w5)

/-- The function `setLinkMode(mode)` (source lines 433-441). -/
def setLinkMode (w : State) (mode : Int) (wait : Wait) : Result Bool :=
  let w1 := wifiPrint (clearResults w) (bytes ("AT+CIPMUX=") ++ decimalInt mode ++ [13, 10])
  match awaitReply textOK 5000 wait with
  | none => .blocked w1
  | some b => .done b w1

/-- The function `startUDPChannel(chan, address, port)` (source lines
443-455); `address` is the C string passed. -/
def startUDPChannel (w : State) (chan : Int) (address : List Nat) (port : Int) (wait : Wait) :
    Result Bool :=
  let w1 := wifiPrint (clearResults w)
    (bytes ("AT+CIPSTART=") ++ decimalInt chan ++ bytes (",\"UDP\",\"") ++ address
      ++ bytes ("\",") ++ decimalInt port ++ [13, 10])
  match awaitReply textOK 5000 wait with
  | none => .blocked w1
  | some b => .done b w1

/-- The loop of `getIP` (source lines 469-494) over the bytes it reads.  The
arguments after the input are the locals `buf`, `dots`, `ptr`, `ret` and the
global `_ipaddress`; the result is the fault met, if any, with the final
`ret` and `_ipaddress`.  The increment of the 16-bit `dots` wraps. -/
def getIPLoop : List Nat → List Nat → Int → Nat → Bool → List Nat →
    Option Fault × Bool × List Nat
  | [], _, _, _, ret, ip => (none, ret, ip)
  | c :: rest, buf, dots, ptr, ret, ip =>
    let dots1 := if c = 46 then wrapInt16 (dots + 1) else dots
    if c = 10 then
      if dots1 = 3 ∧ ret = false then
        if ptr < 15 then
          match strcpy ip (cstr (buf.set ptr 0)) with
          | some ip1 => getIPLoop rest (buf.set ptr 0) dots1 ptr true ip1
          | none => (some .arrayOverflow, ret, ip)
        else (some .arrayOverflow, ret, ip)
      else getIPLoop rest (List.replicate 15 0) 0 0 ret ip
    else if c = 13 then getIPLoop rest buf dots1 ptr ret ip
    else if ptr < 15 then getIPLoop rest (buf.set ptr c) dots1 (ptr + 1) ret ip
    else (some .arrayOverflow, ret, ip)

/-- The function `getIP` (source lines 458-502).  `arrived` holds the bytes
that reach the receive queue during `delay(500)`.  The local `dots` is
declared without an initial value (`int dots, ptr = 0;`): `dots0` is the
value it happens to hold on entry. -/
def getIP (w : State) (arrived : List Nat) (dots0 : Int) : Result Bool :=
  let w1 := wifiPrint w (bytes ("AT+CIFSR\r\n"))
  match getIPLoop (w1.rx ++ arrived) (List.replicate 15 0) dots0 0 false w1._ipaddress with
  | (none, ret, ip) => .done ret { w1 with rx := [], _ipaddress := ip }
  | (some f, _, ip) => .undefined f { w1 with rx := [], _ipaddress := ip }

/-- The function `connectWifi(ssid, password)` (source lines 104-134). -/
def connectWifi (w : State) (ssid password : List Nat) (wait1 wait2 : Wait)
    (arrived : List Nat) (dots0 : Int) : Result WifiError :=
  match strcpy w._ssid ssid with
  | none => .undefined .arrayOverflow w
  | some s =>
    let w1 := { w with _ssid := s }
    match strcpy w1._password password with
    | none => .undefined .arrayOverflow w1
    | some p =>
      let w2 := { w1 with _password := p }
      let w3 := wifiPrint (clearResults w2)
        (bytes ("AT+CWJAP=\"") ++ ssid ++ bytes ("\",\"") ++ password ++ bytes ("\"\r\n"))
      match awaitReply textOK 5000 wait1 with
      | none => .blocked w3
      | some false => .done .WIFI_ERR_CONNECT w3
      | some true =>
        match setLinkMode w3 1 wait2 with
        | .blocked w4 => .blocked w4
        | .undefined f w4 => .undefined f w4
        | .done false w4 => .done .WIFI_ERR_LINK w4
        | .done true w4 =>
          match getIP w4 arrived dots0 with
          | .blocked w5 => .blocked w5
          | .undefined f w5 => .undefined f w5
          | .done _ w5 =>
            match getBroadcast w5 with
            | .error f => .undefined f w5
            | .ok (_, w6) => .done .WIFI_ERR_NONE w6

/-- The function `enableWatchDogTimer` (source lines 141-145). -/
def enableWatchDogTimer (w : State) : State :=
  { w with _forceReset := true }

/-- The function `enableBeacon(device)` (source lines 147-163); `device` is
`none` for a NULL pointer.  `BEACON_PORT` is passed as a 16-bit `int`. -/
def enableBeacon (w : State) (device : Option (List Nat)) (wait : Wait) : Result Bool :=
  match device with
  | none => .done true { w with _beacon := true }
  | some dev =>
    if w._connectMode ≠ CONNECT_MODE_SERVER then .done false w
    else
      match strcpy w._device dev with
      | none => .undefined .arrayOverflow w
      | some d =>
        let w1 := { w with _device := d }
        match startUDPChannel w1 BCN_CHAN (cstr w1._broadcast) (wrapInt16 34807) wait with
        | .blocked w2 => .blocked w2
        | .undefined f w2 => .undefined f w2
        | .done ret w2 => .done ret { w2 with _beacon := ret }

/-- The function `disableBeacon` (source lines 165-168); it has no `return`
statement, so only its effect on the state is modelled. -/
def disableBeacon (w : State) : State :=
  { w with _beacon := false }

/-- The function `startServer(port, timeout)` (source lines 254-278). -/
def startServer (w : State) (port timeout : Int) (wait1 wait2 : Wait) : Result Bool :=
  let w1 := { clearResults w with _port := port }
  let w2 := wifiPrint w1
    (bytes ("AT+CIPSERVER=") ++ decimalInt SVR_CHAN ++ bytes (",") ++ decimalInt w1._port ++ [13, 10])
  match awaitReply textOK 5000 wait1 with
  | none => .blocked w2
  | some false => .done false w2
  | some true =>
    let w3 := wifiPrint w2 (bytes ("AT+CIPSTO=") ++ decimalInt timeout ++ [13, 10])
    match awaitReply textOK 5000 wait2 with
    | none => .blocked w3
    | some false => .done false w3
    | some true => .done true { w3 with _connectMode := CONNECT_MODE_SERVER }

/-- The function `startClient(ip, port, timeout)` (source lines 280-301). -/
def startClient (w : State) (ip : List Nat) (port timeout : Int) (wait : Wait) : Result Bool :=
  let w1 := wifiPrint (clearResults w)
    (bytes ("AT+CIPSTART=") ++ decimalInt CLI_CHAN ++ bytes (",\"TCP\",\"") ++ ip
      ++ bytes ("\",") ++ decimalInt port ++ [13, 10])
  let timeout1 := if timeout < 1000 then 1000 else timeout
  match awaitReply textOK timeout1 wait with
  | none => .blocked w1
  | some false => .done false w1
  | some true => .done true { w1 with _connectMode := CONNECT_MODE_CLIENT }

/-- The function `closeConnection` (source lines 334-352). -/
def closeConnection (w : State) (wait : Wait) : Result Bool :=
  let chan := if w._connectMode = CONNECT_MODE_SERVER then w._replyChan else CLI_CHAN
  let w1 := wifiPrint (clearResults w) (bytes ("AT+CIPCLOSE=") ++ decimalInt chan ++ [13, 10])
  match awaitReply textOK 5000 wait with
  | none => .blocked w1
  | some b => .done b w1

/-- Two states agree on the link flag and on the send guard. -/
def sameLink (w w1 : State) : Prop :=
  w1._connected = w._connected ∧ w1._sendingData = w._sendingData

/-! ## The lines that `run` classifies -/

/-- The lines that the receive loop of `run` hands to `processWifiMessage`,
in the order of the calls: the recursion is the one of `rxLoop`, and at each
call the C string held in `_wb` is recorded. -/
def rxLines : Nat → State → List (List Nat)
  | 0, _ => []
  | fuel + 1, w =>
    match w.rx with
    | [] => []
    | v :: rest =>
      let w0 := { w with rx := rest }
      if v = 10 then
        if w0._wctr < BUFFER_SIZE then
          cstr (w0._wb.set w0._wctr 0) ::
            (match processWifiMessage { w0 with _wb := w0._wb.set w0._wctr 0, _wctr := 0 } with
             | .returned w1 => rxLines fuel w1
             | _ => [])
        else []
      else if v = 13 then rxLines fuel w0
      else if w0._wctr < BUFFER_SIZE then
        rxLines fuel { w0 with _wb := w0._wb.set w0._wctr v, _wctr := w0._wctr + 1 }
      else []

/-- The lines that one call of `run` classifies. -/
def runLines (w : State) (now : Int) : List (List Nat) :=
  if elapsedU32 now w._previousMillis < toU32 w._beaconInterval then rxLines w.rx.length w
  else []

/-- Reference line splitting, written from the words of the specification:
a line feed ends the line in progress, a carriage return is ignored, and any
other byte is appended to the line in progress.  The result lists the
terminated lines of the input in order; `cur` is the line in progress when
the input begins. -/
def linesOf (cur : List Nat) : List Nat → List (List Nat)
  | [] => []
  | v :: rest =>
    if v = 10 then cur :: linesOf [] rest
    else if v = 13 then linesOf cur rest
    else linesOf (cur ++ [v]) rest

/-- Reference line assembly, written from the words of the specification: the
line in progress once the input has been read.  A line feed empties it, a
carriage return is ignored, and any other byte is appended; `cur` is the line
in progress when the input begins. -/
def lineInProgress (cur : List Nat) : List Nat → List Nat
  | [] => cur
  | v :: rest =>
    if v = 10 then lineInProgress [] rest
    else if v = 13 then lineInProgress cur rest
    else lineInProgress (cur ++ [v]) rest

/-! ## Successive calls of `run` -/

/-- One call of `run` made by the loop of the caller: the bytes that have
arrived on the transport since the call before, the value of `millis()` on
entry, and the clock and the transport during the wait of a beacon send. -/
structure Poll where
  arrived : List Nat
  now : Int
  sendStart : Int
  script : List (Int × Int)
deriving DecidableEq, Repr

/-- Bytes arriving on the transport queue up behind the bytes that wait. -/
def arrive (w : State) (more : List Nat) : State :=
  { w with rx := w.rx ++ more }

/-- All the bytes that arrive during a sequence of calls, in order. -/
def arrivals : List Poll → List Nat
  | [] => []
  | p :: ps => p.arrived ++ arrivals ps

/-- Successive calls of `run`.  Each call finds the bytes that have arrived
since the call before behind those still waiting; a call that does not return
ends the sequence. -/
def runs : State → List Poll → Outcome
  | w, [] => .returned w
  | w, p :: ps =>
    match run (arrive w p.arrived) p.now p.sendStart p.script with
    | .returned w1 => runs w1 ps
    | other => other

/-! ## Line-by-line reference for the receive loop -/

/-- The bytes of the input in front of its first line feed. -/
def firstLine (rx : List Nat) : List Nat :=
  rx.takeWhile (fun v => decide (v ≠ 10))

/-- The line buffer with the bytes `s` stored from index `k` on. -/
def storeAt (wb : List Nat) (k : Nat) (s : List Nat) : List Nat :=
  wb.take k ++ s ++ wb.drop (k + s.length)

/-- Reference for the receive loop, written from the words of the
specification: the waiting input is handled one line at a time.  The bytes in
front of the next line feed, carriage returns left out, are stored behind the
line in progress; the line is terminated by a NUL, the index goes back to 0
and the line is classified once by `processWifiMessage`; the input behind the
line feed is handled next, as far as the classification has left it waiting.
Bytes behind the last line feed are stored as the new line in progress. -/
def classifyByLine : Nat → State → Outcome
  | 0, w => .returned w
  | fuel + 1, w =>
    match w.rx with
    | [] => .returned w
    | _ :: _ =>
      if (firstLine w.rx).length < w.rx.length then
        match processWifiMessage { w with
            rx := w.rx.drop ((firstLine w.rx).length + 1),
            _wb := storeAt w._wb w._wctr
              ((firstLine w.rx).filter (fun v => decide (v ≠ 13)) ++ [0]),
            _wctr := 0 } with
        | .returned w1 => classifyByLine fuel w1
        | other => other
      else .returned { w with
        rx := [],
        _wb := storeAt w._wb w._wctr ((firstLine w.rx).filter (fun v => decide (v ≠ 13))),
        _wctr := w._wctr + stored (firstLine w.rx) }

/-! # Theorems -/
/-! ## Facts about the response matcher -/

theorem charAt_of_lt (target : List Int) (i : Nat) (h : i < target.length) :
    charAt target i = target[i] := by
  unfold charAt
  exact List.getD_eq_getElem target 0 h

theorem take_succ_charAt (target : List Int) (i : Nat) (h : i < target.length) :
    target.take (i + 1) = target.take i ++ [charAt target i] := by
  rw [charAt_of_lt target i h, List.take_succ, List.getElem?_eq_getElem h]
  rfl

theorem delivered_cons (c now : Int) (script : List (Int × Int)) :
    delivered ((c, now) :: script) = if c ≥ 0 then c :: delivered script else delivered script := by
  unfold delivered
  by_cases h : c ≥ 0 <;> simp [List.filter_cons, h]

theorem delivered_append (s₁ s₂ : List (Int × Int)) :
    delivered (s₁ ++ s₂) = delivered s₁ ++ delivered s₂ := by
  unfold delivered
  simp [List.filter_append]

theorem searchStep_match (target : List Int) (index : Nat) (c : Int)
    (h : c = charAt target index) :
    searchStep target index c = (index + 1, decide (index + 1 ≥ target.length)) := by
  unfold searchStep
  by_cases h3 : index + 1 ≥ target.length <;> simp [h, h3]

theorem searchStep_restart (target : List Int) (index : Nat) (c : Int)
    (h : c ≠ charAt target index) (h0 : c = charAt target 0) :
    searchStep target index c = (1, decide (1 ≥ target.length)) := by
  unfold searchStep
  by_cases h3 : 1 ≥ target.length
  · simp [h, ← h0, h3]
  · simp [h, ← h0, h3]

theorem searchStep_reset (target : List Int) (index : Nat) (c : Int)
    (h : c ≠ charAt target index) (h0 : c ≠ charAt target 0) :
    searchStep target index c = (0, false) := by
  unfold searchStep
  simp [h, h0]

/-- A byte at which `searchStep` reports success ends an occurrence of the
target in the bytes read so far. -/
theorem searchStep_found (target pre : List Int) (index : Nat) (c : Int)
    (hle : index ≤ target.length) (hsuf : target.take index <:+ pre)
    (hfound : (searchStep target index c).2 = true) :
    target <:+: pre ++ [c] := by
  by_cases h1 : c = charAt target index
  · rw [searchStep_match target index c h1] at hfound
    have h3 : index + 1 ≥ target.length := by simpa using hfound
    rcases Nat.lt_or_ge index target.length with hlt | hge
    · have ht : target = target.take index ++ [c] := by
        rw [h1, ← take_succ_charAt target index hlt, List.take_of_length_le (by omega)]
      obtain ⟨s, hs⟩ := hsuf
      refine List.IsSuffix.isInfix ⟨s, ?_⟩
      rw [← hs, List.append_assoc, ← ht]
    · have hEq : index = target.length := by omega
      rw [hEq, List.take_length] at hsuf
      obtain ⟨s, hs⟩ := hsuf
      exact ⟨s, [c], by rw [hs]⟩
  · by_cases h2 : c = charAt target 0
    · rw [searchStep_restart target index c h1 h2] at hfound
      have h3 : 1 ≥ target.length := by simpa using hfound
      rcases Nat.eq_zero_or_pos target.length with h0 | hpos
      · rw [List.length_eq_zero.mp h0]; exact List.nil_infix
      · have ht : target = [c] := by
          have := take_succ_charAt target 0 hpos
          rw [List.take_of_length_le (by omega)] at this
          rw [this, h2]; simp
        rw [ht]
        exact List.IsSuffix.isInfix (List.suffix_append pre [c])
    · rw [searchStep_reset target index c h1 h2] at hfound
      simp at hfound

/-- When `searchStep` reports no success, the new index is again the length
of a prefix of the target that ends the bytes read so far. -/
theorem searchStep_next (target pre : List Int) (index : Nat) (c : Int)
    (hsuf : target.take index <:+ pre)
    (hnot : (searchStep target index c).2 = false) :
    (searchStep target index c).1 ≤ target.length ∧
      target.take (searchStep target index c).1 <:+ pre ++ [c] := by
  by_cases h1 : c = charAt target index
  · rw [searchStep_match target index c h1] at hnot ⊢
    have h3 : index + 1 < target.length := by simpa using hnot
    refine ⟨by simp; omega, ?_⟩
    simp only
    rw [take_succ_charAt target index (by omega), ← h1]
    obtain ⟨s, hs⟩ := hsuf
    exact ⟨s, by rw [← hs, List.append_assoc]⟩
  · by_cases h2 : c = charAt target 0
    · rw [searchStep_restart target index c h1 h2] at hnot ⊢
      have h3 : 1 < target.length := by simpa using hnot
      refine ⟨by simp; omega, ?_⟩
      simp only
      have := take_succ_charAt target 0 (by omega)
      rw [this, ← h2]
      simp
    · rw [searchStep_reset target index c h1 h2]
      simp

/-- Soundness of the matcher loop: a `true` result comes with an occurrence
of the target in the bytes read, and the unread part of the script is
returned untouched. -/
theorem searchLoop_true (target : List Int) (timeout start : Int) :
    ∀ (script : List (Int × Int)) (index : Nat) (pre : List Int) (rest : List (Int × Int)),
      index ≤ target.length → target.take index <:+ pre →
      searchLoop target timeout start index script = some (true, rest) →
      ∃ used, script = used ++ rest ∧ target <:+: pre ++ delivered used := by
  intro script
  induction script with
  | nil => intro index pre rest _ _ h; simp [searchLoop] at h
  | cons p tail ih =>
    obtain ⟨c, now⟩ := p
    intro index pre rest hle hsuf h
    unfold searchLoop at h
    by_cases hc : c ≥ 0
    · simp only [hc, if_true] at h
      by_cases hf : (searchStep target index c).2 = true
      · simp only [hf, if_true] at h
        have hrest : tail = rest := by simpa using h
        refine ⟨[(c, now)], by simp [hrest], ?_⟩
        rw [delivered_cons, if_pos hc]
        exact searchStep_found target pre index c hle hsuf hf
      · have hf' : (searchStep target index c).2 = false := by simpa using hf
        simp only [hf', Bool.false_eq_true, if_false] at h
        by_cases ht : elapsedU32 now start < toU32 timeout
        · simp only [ht, if_true] at h
          obtain ⟨hle', hsuf'⟩ := searchStep_next target pre index c hsuf hf'
          obtain ⟨used, hu, hin⟩ := ih _ (pre ++ [c]) rest hle' hsuf' h
          refine ⟨(c, now) :: used, by simp [hu], ?_⟩
          rw [delivered_cons, if_pos hc]
          simpa using hin
        · simp [ht] at h
    · simp only [hc, if_false] at h
      by_cases ht : elapsedU32 now start < toU32 timeout
      · simp only [ht, if_true, Bool.false_eq_true, if_false] at h
        obtain ⟨used, hu, hin⟩ := ih index pre rest hle hsuf h
        refine ⟨(c, now) :: used, by simp [hu], ?_⟩
        rw [delivered_cons, if_neg hc]
        exact hin
      · simp [ht] at h

/-- With a first byte that does not recur in the target, an occurrence of the
target cannot begin inside a partial match that the next byte breaks. -/
theorem infix_after_mismatch (a : Int) (t more : List Int) (i : Nat) (c : Int)
    (hu : a ∉ t) (hi : i < (a :: t).length) (hc : c ≠ charAt (a :: t) i) :
    ∀ (d k : Nat), k + d = i →
      a :: t <:+: ((a :: t).take i).drop k ++ c :: more → a :: t <:+: c :: more := by
  intro d
  induction d with
  | zero =>
    intro k hk h
    have hlen : ((a :: t).take i).length = i := by
      rw [List.length_take]; omega
    rw [List.drop_of_length_le (by omega)] at h
    simpa using h
  | succ d ih =>
    intro k hk h
    have hlen : ((a :: t).take i).length = i := by
      rw [List.length_take]; omega
    have hk' : k < ((a :: t).take i).length := by omega
    rw [List.drop_eq_getElem_cons hk', List.cons_append, List.infix_cons_iff] at h
    rcases h with hpre | hin
    · exfalso
      rcases Nat.eq_zero_or_pos k with h0 | hpos
      · subst h0
        have e : ((a :: t).take i)[0] :: ((a :: t).take i).drop (0 + 1) = (a :: t).take i := by
          rw [← List.drop_eq_getElem_cons hk']; rfl
        rw [← List.cons_append, e] at hpre
        obtain ⟨s, hs⟩ := hpre
        have h1 : ((a :: t) ++ s)[i]? = some (charAt (a :: t) i) := by
          rw [List.getElem?_append_left hi, charAt_of_lt _ _ hi, List.getElem?_eq_getElem hi]
        have h2 : ((a :: t).take i ++ c :: more)[i]? = some c := by
          rw [List.getElem?_append_right (by omega), hlen]
          simp
        rw [hs, h2] at h1
        exact hc (Option.some.inj h1)
      · have hhead : a = ((a :: t).take i)[k] := (List.cons_prefix_cons.mp hpre).1
        rw [List.getElem_take] at hhead
        obtain ⟨j, rfl⟩ : ∃ j, k = j + 1 := ⟨k - 1, by omega⟩
        rw [List.getElem_cons_succ] at hhead
        exact hu (hhead ▸ List.getElem_mem _)
    · exact ih (k + 1) (by omega) hin

/-- Completeness of one matcher step for a target whose first byte does not
recur: a step that reports no success loses no occurrence of the target. -/
theorem searchStep_keeps (target more : List Int) (index : Nat) (c : Int)
    (hu : firstByteUnique target) (hi : index < target.length)
    (hnot : (searchStep target index c).2 = false)
    (hocc : target <:+: target.take index ++ c :: more) :
    (searchStep target index c).1 < target.length ∧
      target <:+: target.take (searchStep target index c).1 ++ more := by
  obtain ⟨a, t, rfl⟩ : ∃ a t, target = a :: t := by
    cases target with
    | nil => simp at hi
    | cons a t => exact ⟨a, t, rfl⟩
  have hu' : a ∉ t := hu
  by_cases h1 : c = charAt (a :: t) index
  · rw [searchStep_match _ index c h1] at hnot ⊢
    have h3 : index + 1 < (a :: t).length := by simpa using hnot
    refine ⟨h3, ?_⟩
    simp only
    rw [take_succ_charAt _ index hi, ← h1, List.append_assoc]
    exact hocc
  · have hshift : a :: t <:+: c :: more := by
      apply infix_after_mismatch a t more index c hu' hi h1 index 0 (by omega)
      simpa using hocc
    by_cases h2 : c = charAt (a :: t) 0
    · rw [searchStep_restart _ index c h1 h2] at hnot ⊢
      have h3 : 1 < (a :: t).length := Nat.lt_of_not_ge (of_decide_eq_false hnot)
      refine ⟨h3, ?_⟩
      have hca : c = a := by simpa [charAt] using h2
      simpa [hca] using hshift
    · rw [searchStep_reset _ index c h1 h2]
      refine ⟨by simp, ?_⟩
      have hca : c ≠ a := by simpa [charAt] using h2
      rcases List.infix_cons_iff.mp hshift with hpre | hin
      · exact absurd (List.cons_prefix_cons.mp hpre).1.symm hca
      · simpa using hin

/-- Totality of the matcher loop on a script that covers the whole waiting
window. -/
theorem searchLoop_total (target : List Int) (timeout start : Int) :
    ∀ (script : List (Int × Int)) (index : Nat), closesAtEnd timeout start script →
      ∃ b rest, searchLoop target timeout start index script = some (b, rest) := by
  intro script
  induction script with
  | nil => intro index h; exact absurd h (by simp [closesAtEnd])
  | cons p tail ih =>
    obtain ⟨c, now⟩ := p
    intro index h
    unfold searchLoop
    simp only
    generalize (if c ≥ 0 then searchStep target index c else (index, false)) = r
    by_cases hr : r.2 = true
    · exact ⟨true, tail, by simp [hr]⟩
    · cases tail with
      | nil =>
        have h' : ¬ elapsedU32 now start < toU32 timeout := h
        exact ⟨false, [], by simp [hr, h']⟩
      | cons q tail' =>
        have h' : elapsedU32 now start < toU32 timeout ∧ closesAtEnd timeout start (q :: tail') := h
        simp only [hr, h'.1, if_true, if_false]
        exact ih _ h'.2

/-- Completeness of the matcher loop for a target whose first byte does not
recur, on a script that covers the whole waiting window. -/
theorem searchLoop_complete (target : List Int) (timeout start : Int)
    (hu : firstByteUnique target) :
    ∀ (script : List (Int × Int)) (index : Nat), closesAtEnd timeout start script →
      index < target.length → target <:+: target.take index ++ delivered script →
      ∃ rest, searchLoop target timeout start index script = some (true, rest) := by
  intro script
  induction script with
  | nil => intro index h; exact absurd h (by simp [closesAtEnd])
  | cons p tail ih =>
    obtain ⟨c, now⟩ := p
    intro index h hi hocc
    unfold searchLoop
    simp only
    by_cases hc : c ≥ 0
    · rw [delivered_cons, if_pos hc] at hocc
      simp only [hc, if_true]
      by_cases hf : (searchStep target index c).2 = true
      · simp [hf]
      · have hf' : (searchStep target index c).2 = false := by simpa using hf
        obtain ⟨hlt, hocc'⟩ := searchStep_keeps target _ index c hu hi hf' hocc
        simp only [hf', Bool.false_eq_true, if_false]
        cases tail with
        | nil =>
          exfalso
          have := hocc'.length_le
          simp [delivered] at this
          omega
        | cons q tail' =>
          have h' : elapsedU32 now start < toU32 timeout ∧ closesAtEnd timeout start (q :: tail') := h
          simp only [h'.1, if_true]
          exact ih _ h'.2 hlt hocc'
    · rw [delivered_cons, if_neg hc] at hocc
      simp only [hc, if_false, Bool.false_eq_true]
      cases tail with
      | nil =>
        exfalso
        have := hocc.length_le
        simp [delivered] at this
        omega
      | cons q tail' =>
        have h' : elapsedU32 now start < toU32 timeout ∧ closesAtEnd timeout start (q :: tail') := h
        simp only [h'.1, if_true]
        exact ih _ h'.2 hi hocc

/-! ## C1: what the matcher finds -/

/-- C1, counterexample.  The specification says that `searchResults` returns `true`
exactly when the delivered bytes contain the target.  For the target `aab`
and the stream `aaab`, delivered before the deadline, the stream contains the
target and `searchResults` returns `false`: the third `a` resets the index to
the start of the target and the match begun at the second `a` is lost. -/
theorem C1_overlap_missed :
    closesAtEnd 5000 0 [(97, 1), (97, 2), (97, 3), (98, 4), (-1, 5000)] ∧
    [97, 97, 98] <:+: delivered [(97, 1), (97, 2), (97, 3), (98, 4), (-1, 5000)] ∧
    searchResults [97, 97, 98] 5000 0 [(97, 1), (97, 2), (97, 3), (98, 4), (-1, 5000)]
      = some (false, []) := by
  refine ⟨by simp [closesAtEnd, elapsedU32, toU32], ⟨[97], [], by decide⟩, by decide⟩

/-- C1, amended.  On every script that covers the waiting window
`searchResults` returns.  If it returns `true`, the bytes it consumed contain
the target as a contiguous substring, so it returns `false` when the target
never appears.  If the target is not empty and its first byte occurs at no
later position of it, `searchResults` returns `true` whenever the delivered
bytes contain the target. -/
theorem C1_searchResults_finds (target : List Int) (timeout start : Int)
    (script : List (Int × Int)) (hwin : closesAtEnd timeout start script) :
    ∃ b rest, searchResults target timeout start script = some (b, rest) ∧
      (b = true → ∃ used, script = used ++ rest ∧ target <:+: delivered used) ∧
      (¬ target <:+: delivered script → b = false) ∧
      (target ≠ [] → firstByteUnique target → target <:+: delivered script → b = true) := by
  obtain ⟨b, rest, hres⟩ := searchLoop_total target timeout start script 0 hwin
  have hsound : b = true → ∃ used, script = used ++ rest ∧ target <:+: delivered used := by
    intro hb
    subst hb
    have := searchLoop_true target timeout start script 0 [] rest (Nat.zero_le _)
      (by simp) hres
    simpa using this
  refine ⟨b, rest, hres, hsound, ?_, ?_⟩
  · intro hno
    cases b with
    | false => rfl
    | true =>
      obtain ⟨used, hu, hin⟩ := hsound rfl
      exfalso
      apply hno
      rw [hu, delivered_append]
      exact hin.trans (List.infix_append' [] (delivered used) (delivered rest) |>.trans (by simp))
  · intro hne hu hocc
    have hlen : 0 < target.length := List.length_pos.mpr hne
    obtain ⟨rest', hres'⟩ := searchLoop_complete target timeout start hu script 0 hwin hlen
      (by simpa using hocc)
    have : some (b, rest) = some (true, rest') := by
      rw [← hres, ← hres']
    simpa using (Prod.mk.inj (Option.some.inj this)).1

/-- C1, an instance: the reply `\r\nOK\r\n` with target `OK`. -/
theorem C1_searchResults_finds_witness :
    closesAtEnd 5000 0 [(13, 1), (10, 2), (79, 3), (75, 4), (13, 5), (10, 5000)] ∧
    ∃ b rest, searchResults [79, 75] 5000 0
        [(13, 1), (10, 2), (79, 3), (75, 4), (13, 5), (10, 5000)] = some (b, rest) ∧
      (b = true → ∃ used, [(13, 1), (10, 2), (79, 3), (75, 4), (13, 5), (10, 5000)] = used ++ rest ∧
        [79, 75] <:+: delivered used) ∧
      (¬ [79, 75] <:+: delivered [(13, 1), (10, 2), (79, 3), (75, 4), (13, 5), (10, 5000)] →
        b = false) ∧
      (([79, 75] : List Int) ≠ [] → firstByteUnique [79, 75] →
        [79, 75] <:+: delivered [(13, 1), (10, 2), (79, 3), (75, 4), (13, 5), (10, 5000)] →
        b = true) :=
  ⟨by simp [closesAtEnd, elapsedU32, toU32],
   C1_searchResults_finds [79, 75] 5000 0 _ (by simp [closesAtEnd, elapsedU32, toU32])⟩

/-! ## C3, C5: the `Link` line and the send guard -/

/-- The five-byte comparison with `Link` succeeds exactly when the C string
in the buffer is `Link`. -/
theorem strncmpEq_Link (buf : List Nat) :
    strncmpEq buf textLink 5 0 = true ↔ cstr buf = textLink := by
  rcases buf with _ | ⟨a, _ | ⟨b, _ | ⟨c, _ | ⟨d, _ | ⟨e, r⟩⟩⟩⟩⟩ <;>
    simp [strncmpEq, cstr, textLink, List.takeWhile_cons] <;>
    split_ifs <;> simp_all

/-- No path of `processWifiMessage` other than the `Link` branch touches
`_connected` or calls the connection callback. -/
theorem processWifiMessage_not_Link (w : State) (h : strncmpEq w._wb textLink 5 0 = false) :
    (processWifiMessage w).state._connected = w._connected ∧
      (processWifiMessage w).state.events.count Event.connected
        = w.events.count Event.connected := by
  unfold processWifiMessage
  rw [h]
  simp only [Bool.false_eq_true, if_false]
  split
  · split
    · simp [Outcome.state]
    · split
      · simp [Outcome.state]
      · split
        · split
          · simp [Outcome.state]
          · split <;> simp [Outcome.state, clearResults, List.count_append]
        · simp [Outcome.state]
  · simp [Outcome.state]

/-- C3.  A line that is exactly `Link` sets `_connected` and calls the
connection callback, when one is registered, exactly once and does nothing
else; for every other line `processWifiMessage` leaves `_connected` as it was
and does not call the connection callback. -/
theorem C3_link_exact (w : State) :
    (cstr w._wb = textLink →
      processWifiMessage w = .returned { w with
        _connected := true,
        events := if w._ccb = true then w.events ++ [Event.connected] else w.events }) ∧
    (cstr w._wb ≠ textLink →
      (processWifiMessage w).state._connected = w._connected ∧
      (processWifiMessage w).state.events.count Event.connected
        = w.events.count Event.connected) := by
  constructor
  · intro h
    have h' := (strncmpEq_Link w._wb).mpr h
    unfold processWifiMessage
    rw [h']
    by_cases hc : w._ccb = true <;> simp [hc]
  · intro h
    apply processWifiMessage_not_Link
    cases hs : strncmpEq w._wb textLink 5 0 with
    | false => rfl
    | true => exact absurd ((strncmpEq_Link w._wb).mp hs) h

/-- C3, instances: the line `Link` with a callback registered, and the line
`Linky`. -/
theorem C3_link_exact_witness :
    processWifiMessage { construct 1 9600 0 with _ccb := true, _wb := [76, 105, 110, 107, 0] }
      = .returned { construct 1 9600 0 with
          _ccb := true, _wb := [76, 105, 110, 107, 0], _connected := true,
          events := [Event.connected] } ∧
    (processWifiMessage { construct 1 9600 0 with
        _ccb := true, _wb := [76, 105, 110, 107, 121, 0] }).state._connected = false :=
  ⟨(C3_link_exact { construct 1 9600 0 with _ccb := true, _wb := [76, 105, 110, 107, 0] }).1
      (by decide),
   ((C3_link_exact { construct 1 9600 0 with _ccb := true, _wb := [76, 105, 110, 107, 121, 0] }).2
      (by decide)).1⟩

/-- C5.  While a send is in flight, `sendData` and `send` return `false` at
once: the state, with the bytes written and the bytes waiting, is the one
they were called in, and the script of the transport is untouched. -/
theorem C5_send_guard (w : State) (chan : Int) (data : List Nat) (start : Int)
    (script : List (Int × Int)) (h : w._sendingData = true) :
    sendData w chan data start script = some (false, w, script) ∧
    send w data start script = some (false, w, script) := by
  simp [send, sendData, h]

/-- C5, an instance: a second `send` of `hi` while the guard is set. -/
theorem C5_send_guard_witness :
    sendData { construct 1 9600 0 with _sendingData := true } 3 [104, 105] 0 [(83, 1)]
      = some (false, { construct 1 9600 0 with _sendingData := true }, [(83, 1)]) ∧
    send { construct 1 9600 0 with _sendingData := true } [104, 105] 0 [(83, 1)]
      = some (false, { construct 1 9600 0 with _sendingData := true }, [(83, 1)]) :=
  C5_send_guard { construct 1 9600 0 with _sendingData := true } 3 [104, 105] 0 [(83, 1)] rfl

/-! ## C7, C8: the beacon branch and the watchdog -/

/-- The fields that `processWifiMessage` can change. -/
theorem processWifiMessage_state (w : State) :
    ∃ conn chan rx evs, (processWifiMessage w).state =
      { w with _connected := conn, _replyChan := chan, rx := rx, events := evs } := by
  unfold processWifiMessage
  split
  · dsimp only
    split
    · exact ⟨true, w._replyChan, w.rx, w.events ++ [Event.connected], rfl⟩
    · exact ⟨true, w._replyChan, w.rx, w.events, rfl⟩
  · split
    · split
      · exact ⟨w._connected, w._replyChan, w.rx, w.events, rfl⟩
      · rename_i channel plen _
        split
        · exact ⟨w._connected, channel, w.rx, w.events, rfl⟩
        · split
          · dsimp only
            split
            · exact ⟨w._connected, channel, w.rx, w.events, rfl⟩
            · split
              · exact ⟨w._connected, channel, [], _, rfl⟩
              · exact ⟨w._connected, channel, w.rx, w.events, rfl⟩
          · exact ⟨w._connected, channel, w.rx, w.events, rfl⟩
    · exact ⟨w._connected, w._replyChan, w.rx, w.events, rfl⟩

/-- The fields that the receive loop of `run` can change. -/
theorem rxLoop_state (fuel : Nat) :
    ∀ w : State, ∃ conn chan rx evs wb wctr, (rxLoop fuel w).state =
      { w with _connected := conn, _replyChan := chan, rx := rx, events := evs,
               _wb := wb, _wctr := wctr } := by
  induction fuel with
  | zero => intro w; exact ⟨_, _, _, _, _, _, rfl⟩
  | succ fuel ih =>
    intro w
    unfold rxLoop
    split
    · exact ⟨_, _, _, _, _, _, rfl⟩
    · rename_i v rest hrx
      simp only
      split
      · split
        · obtain ⟨conn, chan, rx, evs, hp⟩ := processWifiMessage_state
            { w with rx := rest, _wb := w._wb.set w._wctr 0, _wctr := 0 }
          split
          · rename_i w1 hw1
            rw [hw1] at hp
            simp only [Outcome.state] at hp
            obtain ⟨conn', chan', rx', evs', wb', wctr', hl⟩ := ih w1
            rw [hl, hp]
            exact ⟨_, _, _, _, _, _, rfl⟩
          · rw [hp]
            exact ⟨_, _, _, _, _, _, rfl⟩
        · exact ⟨_, _, _, _, _, _, rfl⟩
      · split
        · obtain ⟨conn', chan', rx', evs', wb', wctr', hl⟩ := ih { w with rx := rest }
          rw [hl]
          exact ⟨_, _, _, _, _, _, rfl⟩
        · split
          · obtain ⟨conn', chan', rx', evs', wb', wctr', hl⟩ :=
              ih { w with rx := rest, _wb := w._wb.set w._wctr v, _wctr := w._wctr + 1 }
            rw [hl]
            exact ⟨_, _, _, _, _, _, rfl⟩
          · exact ⟨_, _, _, _, _, _, rfl⟩

/-- The watchdog part changes nothing but the count of watchdog pulses. -/
theorem watchdogCheck_state (w : State) (now : Int) :
    ∃ n, (watchdogCheck w now).state = { w with wdtResets := n } := by
  unfold watchdogCheck
  split
  · split
    · exact ⟨w.wdtResets, rfl⟩
    · exact ⟨_, rfl⟩
  · exact ⟨w.wdtResets, rfl⟩

/-- The fields that `sendData` can change. -/
theorem sendData_state (w w1 : State) (chan : Int) (data : List Nat) (start : Int)
    (script rest : List (Int × Int)) (b : Bool)
    (h : sendData w chan data start script = some (b, w1, rest)) :
    ∃ sd rx tx, w1 = { w with _sendingData := sd, rx := rx, tx := tx } := by
  unfold sendData at h
  split at h
  · have hw : w = w1 := by
      have := Option.some.inj h
      exact (Prod.mk.inj (Prod.mk.inj this).2).1
    exact ⟨w._sendingData, w.rx, w.tx, hw ▸ rfl⟩
  · dsimp only at h
    split at h
    · exact absurd h (by simp)
    · have := Option.some.inj h
      have hw := (Prod.mk.inj (Prod.mk.inj this).2).1
      exact ⟨_, _, _, hw.symm⟩

/-- C7, counterexample.  The specification says that `run` never returns when the
watchdog feature is on and more than three intervals have passed since the
last successful beacon.  With beaconing disabled, the watchdog feature on and
30000 ms passed (the interval is 6733 ms), `run` returns at once, in an
unchanged state: the `return` of the beacon-disabled case comes before the
watchdog part. -/
theorem C7_disabled_beacon_returns :
    ({ construct 1 9600 0 with _forceReset := true } : State)._forceReset = true ∧
    elapsedU32 30000 ({ construct 1 9600 0 with _forceReset := true } : State)._previousMillis
      > toU32 (({ construct 1 9600 0 with _forceReset := true } : State)._beaconInterval * 3) ∧
    run { construct 1 9600 0 with _forceReset := true } 30000 30000 []
      = .returned { construct 1 9600 0 with _forceReset := true } := by
  refine ⟨rfl, by decide, rfl⟩

/-- C7, amended.  With the watchdog feature on and beaconing enabled, when
more than three intervals have passed since the last successful beacon and
the beacon send of this invocation does not succeed, `run` enters the forced
hang: it does not return and the watchdog is not pulsed. -/
theorem C7_forced_hang (w w1 : State) (now sendStart : Int) (script rest : List (Int × Int))
    (data : List Nat)
    (hforce : w._forceReset = true) (hbeacon : w._beacon = true)
    (hint : 0 ≤ w._beaconInterval) (hint3 : w._beaconInterval * 3 < 4294967296)
    (hlate : elapsedU32 now w._previousMillis > w._beaconInterval * 3)
    (hmsg : beaconMessage w = .ok data)
    (hsend : sendData { w with beaconSends := w.beaconSends ++ [(BCN_CHAN, data)] }
      BCN_CHAN data sendStart script = some (false, w1, rest)) :
    run w now sendStart script = .hung w1 ∧ w1.wdtResets = w.wdtResets := by
  have hiv : toU32 w._beaconInterval = w._beaconInterval := by
    unfold toU32
    exact Int.emod_eq_of_lt hint (by omega)
  have hiv3 : toU32 (w._beaconInterval * 3) = w._beaconInterval * 3 := by
    unfold toU32
    exact Int.emod_eq_of_lt (by omega) hint3
  obtain ⟨sd, rx, tx, hw1⟩ := sendData_state _ _ _ _ _ _ _ _ hsend
  have hnot : ¬ elapsedU32 now w._previousMillis < toU32 w._beaconInterval := by
    rw [hiv]; omega
  unfold run
  rw [if_neg hnot, if_neg (by simp [hbeacon]), hmsg]
  dsimp only
  rw [hsend]
  dsimp only
  unfold watchdogCheck
  have hf1 : w1._forceReset = true := by rw [hw1]; exact hforce
  have hp1 : w1._previousMillis = w._previousMillis := by rw [hw1]
  have hb1 : w1._beaconInterval = w._beaconInterval := by rw [hw1]
  rw [if_pos hf1, hp1, hb1, hiv3, if_pos hlate]
  exact ⟨rfl, by rw [hw1]⟩

/-- C7, an instance: the beacon enabled, the link silent for the whole wait of
the send, 30000 ms after the last successful beacon. -/
theorem C7_forced_hang_witness :
    run { construct 1 9600 0 with _forceReset := true, _beacon := true } 30000 30000
        [(-1, 40000)]
      = .hung { construct 1 9600 0 with
          _forceReset := true, _beacon := true,
          beaconSends := [(BCN_CHAN, bytes
            ("\x7b\"event\": \"beacon\", \"ip\": \"\", \"port\": 8000, \"device\": \"\"\x7d\r\n"))],
          tx := bytes ("AT+CIPSEND=2,59\r\n") ++ bytes
            ("\x7b\"event\": \"beacon\", \"ip\": \"\", \"port\": 8000, \"device\": \"\"\x7d\r\n")
            ++ [13, 10] } ∧
    (0 : Nat) = (construct 1 9600 0).wdtResets :=
  C7_forced_hang { construct 1 9600 0 with _forceReset := true, _beacon := true } _ 30000 30000
    [(-1, 40000)] [] _ rfl rfl (by decide) (by decide) (by decide) rfl rfl

/-- C8.  With beaconing disabled `run` makes no beacon send, whatever the
clock and the waiting input are: it calls `sendData` zero times and writes
nothing to the transport, so no `AT+CIPSEND` either.  This holds for the
state in which the call ends, however it ends. -/
theorem C8_disabled_beacon_never_sends (w : State) (now sendStart : Int)
    (script : List (Int × Int)) (h : w._beacon = false) :
    (run w now sendStart script).state.beaconSends = w.beaconSends ∧
    (run w now sendStart script).state.tx = w.tx := by
  unfold run
  split
  · obtain ⟨conn, chan, rx, evs, wb, wctr, hl⟩ := rxLoop_state w.rx.length w
    split
    · rename_i w1 hw1
      rw [hw1] at hl
      simp only [Outcome.state] at hl
      obtain ⟨n, hn⟩ := watchdogCheck_state w1 now
      rw [hn, hl]
      exact ⟨rfl, rfl⟩
    · rw [hl]
      exact ⟨rfl, rfl⟩
  · exact ⟨rfl, rfl⟩

/-- C8, an instance: beaconing disabled, a `Link` line waiting, well within
the interval. -/
theorem C8_disabled_beacon_never_sends_witness :
    (run { construct 1 9600 0 with rx := [76, 105, 110, 107, 13, 10] } 100 100
      []).state.beaconSends = [] ∧
    (run { construct 1 9600 0 with rx := [76, 105, 110, 107, 13, 10] } 100 100
      []).state.tx = [] :=
  C8_disabled_beacon_never_sends { construct 1 9600 0 with rx := [76, 105, 110, 107, 13, 10] }
    100 100 [] rfl

/-! ## C2, C4: the `+IPD` line -/

theorem decimalAux_eq (fuel : Nat) :
    ∀ (n : Nat) (acc : List Nat), n < fuel → decimalAux fuel n acc = decimal n ++ acc := by
  induction fuel using Nat.strong_induction_on with
  | _ fuel ih =>
    intro n acc hn
    cases fuel with
    | zero => omega
    | succ fuel =>
      unfold decimal
      by_cases h10 : n < 10
      · simp [decimalAux, h10]
      · simp only [decimalAux, h10, if_false]
        have hdiv : n / 10 < n := Nat.div_lt_self (by omega) (by omega)
        rw [ih fuel (by omega) (n / 10) _ (by omega)]
        cases n with
        | zero => omega
        | succ m =>
          rw [ih (m + 1) (by omega) ((m + 1) / 10) _ hdiv]
          simp

theorem decimal_lt_ten (n : Nat) (h : n < 10) : decimal n = [48 + n] := by
  simp [decimal, decimalAux, h]

theorem decimal_ge_ten (n : Nat) (h : 10 ≤ n) :
    decimal n = decimal (n / 10) ++ [48 + n % 10] := by
  have hdiv : n / 10 < n := Nat.div_lt_self (by omega) (by omega)
  have h10 : ¬ n < 10 := by omega
  conv_lhs => unfold decimal
  simp only [decimalAux, h10, if_false]
  exact decimalAux_eq n (n / 10) _ hdiv

/-- The decimal text of a number consists of digit characters. -/
theorem decimal_digits (n : Nat) : ∀ d ∈ decimal n, isDigit d = true := by
  induction n using Nat.strong_induction_on with
  | _ n ih =>
    intro d hd
    by_cases h10 : n < 10
    · rw [decimal_lt_ten n h10] at hd
      simp at hd
      subst hd
      simp [isDigit]
      omega
    · rw [decimal_ge_ten n (by omega)] at hd
      rcases List.mem_append.mp hd with h | h
      · exact ih (n / 10) (Nat.div_lt_self (by omega) (by omega)) d h
      · simp at h
        subst h
        simp [isDigit]
        omega

theorem decimal_ne_nil (n : Nat) : decimal n ≠ [] := by
  by_cases h10 : n < 10
  · rw [decimal_lt_ten n h10]; simp
  · rw [decimal_ge_ten n (by omega)]; simp

/-- Scanning the decimal text of `n` accumulates `n`. -/
theorem scanDigits_decimal (n : Nat) :
    ∀ (acc : Nat) (rest : List Nat),
      scanDigits acc (decimal n ++ rest) = scanDigits (acc * 10 ^ (decimal n).length + n) rest := by
  induction n using Nat.strong_induction_on with
  | _ n ih =>
    intro acc rest
    by_cases h10 : n < 10
    · rw [decimal_lt_ten n h10]
      have hd : isDigit (48 + n) = true := by simp [isDigit]; omega
      simp [scanDigits, hd]
    · rw [decimal_ge_ten n (by omega), List.append_assoc,
        ih (n / 10) (Nat.div_lt_self (by omega) (by omega))]
      have hd : isDigit (48 + n % 10) = true := by simp [isDigit]; omega
      simp only [List.singleton_append, scanDigits, hd, if_true, List.length_append,
        List.length_singleton]
      congr 1
      have := Nat.div_add_mod n 10
      rw [pow_succ]
      have e : 48 + n % 10 - 48 = n % 10 := by omega
      rw [e]
      nlinarith [this]

theorem scanDigits_stop (acc : Nat) (rest : List Nat)
    (h : ∀ d r, rest = d :: r → isDigit d = false) : scanDigits acc rest = (acc, rest) := by
  cases rest with
  | nil => rfl
  | cons d r => simp [scanDigits, h d r rfl]

/-- A `%d` conversion that starts on a digit reads the digits that follow. -/
theorem scanInt_digit (d : Nat) (s : List Nat) (hd : isDigit d = true) :
    scanInt (d :: s) = some (wrapInt16 ((scanDigits 0 (d :: s)).1 : Int), (scanDigits 0 (d :: s)).2) := by
  have hsp : isSpace d = false := by
    simp [isDigit] at hd
    simp [isSpace]
    omega
  have h45 : d ≠ 45 := by simp [isDigit] at hd; omega
  have h43 : d ≠ 43 := by simp [isDigit] at hd; omega
  unfold scanInt
  simp [skipSpace, hsp, h45, h43, hd]

/-- The `%d` conversion of the decimal text of `n`, followed by a character
that is not a digit. -/
theorem scanInt_decimal (n x : Nat) (rest : List Nat) (hx : isDigit x = false) :
    scanInt (decimal n ++ x :: rest) = some (wrapInt16 (n : Int), x :: rest) := by
  obtain ⟨d, ds, hds⟩ : ∃ d ds, decimal n = d :: ds := by
    cases h : decimal n with
    | nil => exact absurd h (decimal_ne_nil n)
    | cons d ds => exact ⟨d, ds, rfl⟩
  have hd : isDigit d = true := decimal_digits n d (by rw [hds]; simp)
  have hscan : scanDigits 0 (decimal n ++ x :: rest) = (n, x :: rest) := by
    rw [scanDigits_decimal n 0 (x :: rest)]
    simp only [Nat.zero_mul, Nat.zero_add]
    exact scanDigits_stop n (x :: rest) (by intro d r h; simp at h; rw [← h.1]; exact hx)
  have := scanInt_digit d (ds ++ x :: rest) hd
  rw [← List.cons_append, ← hds, hscan] at this
  exact this

theorem wrapInt16_small (n : Nat) (h : n ≤ 32767) : wrapInt16 (n : Int) = n := by
  unfold wrapInt16
  omega

theorem cstr_append_zero (a b : List Nat) (h : ∀ x ∈ a, x ≠ 0) : cstr (a ++ 0 :: b) = a := by
  unfold cstr
  induction a with
  | nil => simp
  | cons x a ih =>
    have hx : x ≠ 0 := h x (by simp)
    simp only [List.cons_append, List.takeWhile_cons, hx, ne_eq, not_false_eq_true,
      decide_True, if_true]
    rw [ih (fun y hy => h y (by simp [hy]))]

theorem scanTo_append (x : Nat) (a b : List Nat) (h : x ∉ a) :
    scanTo x (a ++ x :: b) = some a.length := by
  induction a with
  | nil => simp [scanTo]
  | cons y a ih =>
    have hy : y ≠ x := fun e => h (by simp [e])
    simp [scanTo, hy, ih (fun hm => h (by simp [hm]))]

theorem cstr_append_nonzero (a b : List Nat) (h : ∀ x ∈ a, x ≠ 0) :
    cstr (a ++ b) = a ++ cstr b := by
  unfold cstr
  induction a with
  | nil => simp
  | cons x a ih =>
    have hx : x ≠ 0 := h x (by simp)
    simp only [List.cons_append, List.takeWhile_cons, hx, ne_eq, not_false_eq_true,
      decide_True, if_true]
    rw [ih (fun y hy => h y (by simp [hy]))]

theorem decimal_nonzero (n : Nat) : ∀ x ∈ decimal n, x ≠ 0 := by
  intro x hx h0
  have := decimal_digits n x hx
  simp [isDigit, h0] at this

theorem decimal_no_colon (n : Nat) : 58 ∉ decimal n := by
  intro hx
  have := decimal_digits n 58 hx
  simp [isDigit] at this

/-- The header `<c>,<n>:` of a data line, read by `sscanf` with `%d,%d`. -/
theorem sscanf2_header (c n : Nat) (tail : List Nat) :
    sscanf2 (cstr (decimal c ++ 44 :: (decimal n ++ 58 :: tail)))
      = (some (wrapInt16 (c : Int)), some (wrapInt16 (n : Int))) := by
  have e : decimal c ++ 44 :: (decimal n ++ 58 :: tail)
      = (decimal c ++ 44 :: (decimal n ++ [58])) ++ tail := by simp
  rw [e, cstr_append_nonzero]
  · unfold sscanf2
    have e2 : decimal c ++ 44 :: (decimal n ++ [58]) ++ cstr tail
        = decimal c ++ 44 :: (decimal n ++ 58 :: cstr tail) := by simp
    rw [e2, scanInt_decimal c 44 _ (by decide)]
    simp only
    rw [scanInt_decimal n 58 _ (by decide)]
  · intro x hx
    simp only [List.mem_append, List.mem_cons, List.mem_singleton, List.not_mem_nil,
      or_false] at hx
    rcases hx with h | h | h | h
    · exact decimal_nonzero c x h
    · omega
    · exact decimal_nonzero n x h
    · omega

/-- The colon scan on a data line stops at the colon that ends the header. -/
theorem scanTo_header (c n : Nat) (tail : List Nat) :
    scanTo 58 (decimal c ++ 44 :: (decimal n ++ 58 :: tail))
      = some ((decimal c ++ 44 :: decimal n).length) := by
  have e : decimal c ++ 44 :: (decimal n ++ 58 :: tail)
      = (decimal c ++ 44 :: decimal n) ++ 58 :: tail := by simp
  rw [e]
  apply scanTo_append
  intro hx
  simp only [List.mem_append, List.mem_cons] at hx
  rcases hx with h | h | h
  · exact decimal_no_colon c h
  · omega
  · exact decimal_no_colon n h

theorem strncmpEq_IPD_Link (r : List Nat) : strncmpEq (textIPD ++ r) textLink 5 0 = false := by
  simp [strncmpEq, textIPD, textLink]

theorem strncmpEq_IPD (r : List Nat) : strncmpEq (textIPD ++ r) textIPD 5 0 = true := by
  simp [strncmpEq, textIPD]

theorem drop_IPD (r : List Nat) : (textIPD ++ r).drop 5 = r := by
  simp [textIPD]

/-- The `+IPD,` branch of `processWifiMessage` once `sscanf` has assigned both
variables. -/
theorem processWifiMessage_ipd (w : State) (channel packet_len : Int)
    (h1 : strncmpEq w._wb textLink 5 0 = false) (h2 : strncmpEq w._wb textIPD 5 0 = true)
    (h3 : sscanf2 (cstr (w._wb.drop 5)) = (some channel, some packet_len)) :
    processWifiMessage w =
      if packet_len > 0 then
        match scanTo 58 (w._wb.drop 5) with
        | none => .undefined .scanPastBuffer { w with _replyChan := channel }
        | some k =>
          if w._dcb = true then
            .returned ({ w with
              _replyChan := channel, rx := [],
              events := w.events ++ [Event.data (cstr (w._wb.drop (5 + k + 1)))] })
          else .returned { w with _replyChan := channel }
      else .returned { w with _replyChan := channel } := by
  unfold processWifiMessage
  rw [h1, h2, h3]
  rfl

set_option maxRecDepth 8000 in
/-- C2, counterexample.  The specification covers every length `n > 0`.  On the line
`+IPD,3,65536:x`, with a data callback registered, `sscanf` stores the length
in a 16-bit `int`, which reads 0: `_replyChan` becomes 3 and the data callback
is not called. -/
theorem C2_length_wraps :
    textIPD ++ decimal 3 ++ [44] ++ decimal 65536 ++ [58] ++ [120] ++ [0] ++ List.replicate 240 0
      = bytes ("+IPD,3,65536:x") ++ List.replicate 241 0 ∧
    processWifiMessage { construct 1 9600 0 with
        _dcb := true, _wb := bytes ("+IPD,3,65536:x") ++ List.replicate 241 0 }
      = .returned { construct 1 9600 0 with
          _dcb := true, _wb := bytes ("+IPD,3,65536:x") ++ List.replicate 241 0,
          _replyChan := 3, events := [] } := by
  refine ⟨by rfl, by rfl⟩

/-- C2, amended.  For every channel `c` from 0 to 32767, every length `n`
from 1 to 32767 and every payload `p` without NUL, the line
`+IPD,<c>,<n>:<p>` held in `_wb`, with a data callback registered, sets
`_replyChan` to `c` and calls the data callback exactly once, with `p`.  Before
the call the waiting input is dropped by `clearResults`. -/
theorem C2_ipd_payload (w : State) (c n : Nat) (p junk : List Nat)
    (hc : c ≤ 32767) (hn0 : 0 < n) (hn : n ≤ 32767) (hp : 0 ∉ p)
    (hdcb : w._dcb = true)
    (hwb : w._wb = textIPD ++ decimal c ++ [44] ++ decimal n ++ [58] ++ p ++ [0] ++ junk) :
    processWifiMessage w = .returned { w with
      _replyChan := c, rx := [], events := w.events ++ [Event.data p] } := by
  have hwb' : w._wb = textIPD ++ (decimal c ++ 44 :: (decimal n ++ 58 :: (p ++ 0 :: junk))) := by
    rw [hwb]; simp
  have h1 : strncmpEq w._wb textLink 5 0 = false := by rw [hwb']; exact strncmpEq_IPD_Link _
  have h2 : strncmpEq w._wb textIPD 5 0 = true := by rw [hwb']; exact strncmpEq_IPD _
  have h3 : sscanf2 (cstr (w._wb.drop 5)) = (some (c : Int), some (n : Int)) := by
    rw [hwb', drop_IPD, sscanf2_header, wrapInt16_small c hc, wrapInt16_small n hn]
  have h4 : scanTo 58 (w._wb.drop 5) = some ((decimal c ++ 44 :: decimal n).length) := by
    rw [hwb', drop_IPD, scanTo_header]
  have h5 : cstr (w._wb.drop (5 + (decimal c ++ 44 :: decimal n).length + 1)) = p := by
    have e : w._wb = (textIPD ++ (decimal c ++ 44 :: decimal n) ++ [58]) ++ (p ++ 0 :: junk) := by
      rw [hwb']; simp
    have hd : w._wb.drop (5 + (decimal c ++ 44 :: decimal n).length + 1) = p ++ 0 :: junk := by
      rw [e]
      apply List.drop_left'
      simp [textIPD]
      omega
    rw [hd]
    exact cstr_append_zero p junk (fun x hx h0 => hp (h0 ▸ hx))
  have hpos : ((n : Int) > 0) := by omega
  rw [processWifiMessage_ipd w c n h1 h2 h3, if_pos hpos, h4]
  simp only [hdcb, if_true, h5]

set_option maxRecDepth 8000 in
/-- C2, the instance of the specification: `+IPD,3,5:hello`. -/
theorem C2_ipd_payload_witness :
    processWifiMessage { construct 1 9600 0 with
        _dcb := true, _wb := bytes ("+IPD,3,5:hello") ++ List.replicate 241 0 }
      = .returned { construct 1 9600 0 with
          _dcb := true, _wb := bytes ("+IPD,3,5:hello") ++ List.replicate 241 0,
          _replyChan := 3, rx := [], events := [Event.data (bytes ("hello"))] } :=
  C2_ipd_payload { construct 1 9600 0 with
      _dcb := true, _wb := bytes ("+IPD,3,5:hello") ++ List.replicate 241 0 }
    3 5 (bytes ("hello")) (List.replicate 240 0) (by decide) (by decide) (by decide) (by decide)
    rfl (by decide)

set_option maxRecDepth 8000 in
/-- C4, counterexample.  The specification covers every channel number `c >= 0`.  On
the line `+IPD,65538,0:` the channel is stored in a 16-bit `int`, which reads
2: the data callback is not called and `_replyChan` becomes 2, not 65538. -/
theorem C4_channel_wraps :
    textIPD ++ decimal 65538 ++ [44] ++ decimal 0 ++ [58] ++ List.replicate 242 0
      = bytes ("+IPD,65538,0:") ++ List.replicate 242 0 ∧
    processWifiMessage { construct 1 9600 0 with
        _dcb := true, _wb := bytes ("+IPD,65538,0:") ++ List.replicate 242 0 }
      = .returned { construct 1 9600 0 with
          _dcb := true, _wb := bytes ("+IPD,65538,0:") ++ List.replicate 242 0,
          _replyChan := 2 } := by
  refine ⟨by rfl, by rfl⟩

/-- C4, amended.  For every channel `c` from 0 to 32767 and every remainder
`r`, the line `+IPD,<c>,0:<r>` held in `_wb` sets `_replyChan` to `c` and
changes nothing else: the data callback is not called. -/
theorem C4_zero_length (w : State) (c : Nat) (r : List Nat) (hc : c ≤ 32767)
    (hwb : w._wb = textIPD ++ decimal c ++ [44] ++ decimal 0 ++ [58] ++ r) :
    processWifiMessage w = .returned { w with _replyChan := c } := by
  have hwb' : w._wb = textIPD ++ (decimal c ++ 44 :: (decimal 0 ++ 58 :: r)) := by
    rw [hwb]; simp
  have h1 : strncmpEq w._wb textLink 5 0 = false := by rw [hwb']; exact strncmpEq_IPD_Link _
  have h2 : strncmpEq w._wb textIPD 5 0 = true := by rw [hwb']; exact strncmpEq_IPD _
  have h3 : sscanf2 (cstr (w._wb.drop 5)) = (some (c : Int), some ((0 : Nat) : Int)) := by
    rw [hwb', drop_IPD, sscanf2_header, wrapInt16_small c hc, wrapInt16_small 0 (by omega)]
  rw [processWifiMessage_ipd w c _ h1 h2 h3]
  simp

set_option maxRecDepth 8000 in
/-- C4, the instance of the specification: `+IPD,2,0:`. -/
theorem C4_zero_length_witness :
    processWifiMessage { construct 1 9600 0 with
        _dcb := true, _wb := bytes ("+IPD,2,0:") ++ List.replicate 246 0 }
      = .returned { construct 1 9600 0 with
          _dcb := true, _wb := bytes ("+IPD,2,0:") ++ List.replicate 246 0,
          _replyChan := 2 } :=
  C4_zero_length { construct 1 9600 0 with
      _dcb := true, _wb := bytes ("+IPD,2,0:") ++ List.replicate 246 0 }
    2 (List.replicate 246 0) (by decide) (by decide)

/-! ## C6: the broadcast address -/

theorem set_at_length (pre post : List Nat) (x v : Nat) :
    (pre ++ x :: post).set pre.length v = pre ++ v :: post := by
  induction pre with
  | nil => rfl
  | cons y pre ih => simp [ih]

/-- The copy loop moves a stretch without dots into `_broadcast` unchanged. -/
theorem copyToThirdDot_stretch (p : List Nat) :
    ∀ (rest pre : List Nat) (k dots : Nat), 46 ∉ p → dots ≠ 3 → pre.length + p.length ≤ 16 →
      copyToThirdDot (p ++ rest) pre.length dots (pre ++ List.replicate (p.length + k) 0)
        = copyToThirdDot rest (pre.length + p.length) dots ((pre ++ p) ++ List.replicate k 0) := by
  induction p with
  | nil => intro rest pre k dots _ _ _; simp
  | cons x p ih =>
    intro rest pre k dots hp hd hlen
    have hx : x ≠ 46 := fun e => hp (by simp [e])
    have hp' : 46 ∉ p := fun hm => hp (by simp [hm])
    simp only [List.length_cons] at hlen
    have hi : pre.length < 16 := by omega
    have hrep : List.replicate ((x :: p).length + k) 0 = 0 :: List.replicate (p.length + k) 0 := by
      simp only [List.length_cons]
      rw [show p.length + 1 + k = (p.length + k) + 1 by omega, List.replicate_succ]
    rw [List.cons_append, copyToThirdDot, if_pos hi, hrep, set_at_length]
    simp only [hx, if_false, hd]
    have := ih rest (pre ++ [x]) k dots hp' hd (by simp; omega)
    simp only [List.length_append, List.length_singleton, List.append_assoc,
      List.singleton_append] at this
    simp only [List.length_cons, List.append_assoc, List.cons_append]
    rw [this]
    congr 1
    omega

/-- The copy loop at a dot that is not the third one. -/
theorem copyToThirdDot_dot (rest pre : List Nat) (k dots : Nat) (hd : dots + 1 ≠ 3)
    (hlen : pre.length < 16) :
    copyToThirdDot (46 :: rest) pre.length dots (pre ++ List.replicate (k + 1) 0)
      = copyToThirdDot rest (pre.length + 1) (dots + 1) ((pre ++ [46]) ++ List.replicate k 0) := by
  rw [copyToThirdDot, if_pos hlen, List.replicate_succ, set_at_length]
  simp [hd]

/-- The copy loop at the third dot. -/
theorem copyToThirdDot_third (rest pre : List Nat) (k : Nat) (hlen : pre.length < 16) :
    copyToThirdDot (46 :: rest) pre.length 2 (pre ++ List.replicate (k + 1) 0)
      = some (pre.length, (pre ++ [46]) ++ List.replicate k 0) := by
  rw [copyToThirdDot, if_pos hlen, List.replicate_succ, set_at_length]
  simp

theorem storeBroadcast_at_length (pre : List Nat) (k v : Nat) (hlen : pre.length < 16) :
    storeBroadcast (pre ++ List.replicate (k + 1) 0) pre.length v
      = some ((pre ++ [v]) ++ List.replicate k 0) := by
  rw [storeBroadcast, if_pos hlen, List.replicate_succ, set_at_length]
  simp

/-- The copy loop over one octet and the dot after it, when that dot is not
the third one. -/
theorem copyToThirdDot_octet (p rest pre : List Nat) (k dots : Nat) (hp : 46 ∉ p)
    (hd : dots ≠ 3) (hd1 : dots + 1 ≠ 3) (hlen : pre.length + p.length < 16) :
    copyToThirdDot (p ++ 46 :: rest) pre.length dots
        (pre ++ List.replicate (p.length + (k + 1)) 0)
      = copyToThirdDot rest (pre ++ p ++ [46]).length (dots + 1)
          ((pre ++ p ++ [46]) ++ List.replicate k 0) := by
  rw [copyToThirdDot_stretch p (46 :: rest) pre (k + 1) dots hp hd (by omega)]
  have h := copyToThirdDot_dot rest (pre ++ p) k dots hd1 (by simp; omega)
  simp only [List.length_append] at h
  rw [h]
  simp [Nat.add_assoc]

/-- The copy loop over the octet that ends at the third dot. -/
theorem copyToThirdDot_last (p rest pre : List Nat) (k : Nat) (hp : 46 ∉ p)
    (hlen : pre.length + p.length < 16) :
    copyToThirdDot (p ++ 46 :: rest) pre.length 2
        (pre ++ List.replicate (p.length + (k + 1)) 0)
      = some ((pre ++ p).length, (pre ++ p ++ [46]) ++ List.replicate k 0) := by
  rw [copyToThirdDot_stretch p (46 :: rest) pre (k + 1) 2 hp (by omega) (by omega)]
  have h := copyToThirdDot_third rest (pre ++ p) k (by simp; omega)
  simp only [List.length_append] at h
  rw [h]
  simp

theorem octet_no_dot (l : List Nat) (h : isOctet l) : 46 ∉ l := by
  intro hm
  have := h.2.2 46 hm
  simp [isDigit] at this

theorem octet_nonzero (l : List Nat) (h : isOctet l) : ∀ x ∈ l, x ≠ 0 := by
  intro x hx h0
  have := h.2.2 x hx
  simp [isDigit, h0] at this

/-- C6.  For every dotted-quad address `a.b.c.d` held in `_ipaddress`, each
octet one to three decimal digits, `getBroadcast` returns `true` and leaves in
`_broadcast` exactly the text `a.b.c.255`: the address up to its third dot,
followed by `255`.  Nothing else changes. -/
theorem C6_broadcast (w : State) (a b c d junk : List Nat)
    (ha : isOctet a) (hb : isOctet b) (hc : isOctet c) (hd : isOctet d)
    (hip : w._ipaddress = a ++ [46] ++ b ++ [46] ++ c ++ [46] ++ d ++ [0] ++ junk) :
    ∃ bc, getBroadcast w = .ok (true, { w with _broadcast := bc }) ∧
      bc.length = 16 ∧ cstr bc = a ++ [46] ++ b ++ [46] ++ c ++ [46] ++ [50, 53, 53] := by
  have hstr : cstr w._ipaddress = a ++ 46 :: (b ++ 46 :: (c ++ 46 :: d)) := by
    have e : w._ipaddress = (a ++ 46 :: (b ++ 46 :: (c ++ 46 :: d))) ++ 0 :: junk := by
      rw [hip]; simp
    rw [e]
    apply cstr_append_zero
    intro x hx
    simp only [List.mem_append, List.mem_cons] at hx
    rcases hx with h | h | h | h | h | h | h
    · exact octet_nonzero a ha x h
    · omega
    · exact octet_nonzero b hb x h
    · omega
    · exact octet_nonzero c hc x h
    · omega
    · exact octet_nonzero d hd x h
  have hlenip : w._ipaddress.length
      = a.length + b.length + c.length + d.length + 4 + junk.length := by
    rw [hip]; simp; omega
  have hstrlen : strlen? w._ipaddress = some (a.length + b.length + c.length + d.length + 3) := by
    unfold strlen?
    rw [hstr, hlenip]
    simp
    omega
  have hna := octet_no_dot a ha
  have hnb := octet_no_dot b hb
  have hnc := octet_no_dot c hc
  have hza := octet_nonzero a ha
  have hzb := octet_nonzero b hb
  have hzc := octet_nonzero c hc
  obtain ⟨ha1, ha3, -⟩ := ha
  obtain ⟨hb1, hb3, -⟩ := hb
  obtain ⟨hc1, hc3, -⟩ := hc
  obtain ⟨hd1, hd3, -⟩ := hd
  obtain ⟨m, hm⟩ : ∃ m, 16 = a.length + (b.length + (c.length + (m + 1 + 1 + 1 + 1 + 1) + 1) + 1) :=
    ⟨16 - (a.length + b.length + c.length + 7), by omega⟩
  have hcopy : copyToThirdDot (cstr w._ipaddress) 0 0 (List.replicate 16 0)
      = some ((a ++ [46] ++ b ++ [46] ++ c).length,
          (a ++ [46] ++ b ++ [46] ++ c ++ [46]) ++ List.replicate (m + 1 + 1 + 1 + 1) 0) := by
    rw [hstr]
    have s1 := copyToThirdDot_octet a (b ++ 46 :: (c ++ 46 :: d)) []
      (b.length + (c.length + (m + 1 + 1 + 1 + 1 + 1) + 1)) 0 hna (by omega) (by omega)
      (by simp; omega)
    have s2 := copyToThirdDot_octet b (c ++ 46 :: d) ([] ++ a ++ [46])
      (c.length + (m + 1 + 1 + 1 + 1 + 1)) 1 hnb (by omega) (by omega) (by simp; omega)
    have s3 := copyToThirdDot_last c d ([] ++ a ++ [46] ++ b ++ [46]) (m + 1 + 1 + 1 + 1) hnc
      (by simp; omega)
    simp only [List.nil_append, List.length_nil, Nat.zero_add, Nat.reduceAdd] at s1 s2 s3
    rw [hm, s1, s2, s3]
  have hP : (a ++ [46] ++ b ++ [46] ++ c ++ [46]).length < 13 := by simp; omega
  have hi : (a ++ [46] ++ b ++ [46] ++ c).length + 1 = (a ++ [46] ++ b ++ [46] ++ c ++ [46]).length := by
    simp; omega
  refine ⟨(a ++ [46] ++ b ++ [46] ++ c ++ [46] ++ [50] ++ [53] ++ [53] ++ [0]) ++ List.replicate m 0,
    ?_, ?_, ?_⟩
  · unfold getBroadcast
    rw [hstrlen]
    simp only
    rw [if_neg (by omega), hcopy]
    simp only
    have t1 := storeBroadcast_at_length (a ++ [46] ++ b ++ [46] ++ c ++ [46]) (m + 1 + 1 + 1) 50
      (by omega)
    have t2 := storeBroadcast_at_length (a ++ [46] ++ b ++ [46] ++ c ++ [46] ++ [50]) (m + 1 + 1) 53
      (by simp; simp at hP; omega)
    have t3 := storeBroadcast_at_length (a ++ [46] ++ b ++ [46] ++ c ++ [46] ++ [50] ++ [53])
      (m + 1) 53 (by simp; simp at hP; omega)
    have t4 := storeBroadcast_at_length
      (a ++ [46] ++ b ++ [46] ++ c ++ [46] ++ [50] ++ [53] ++ [53]) m 0
      (by simp; simp at hP; omega)
    have i2 : (a ++ [46] ++ b ++ [46] ++ c).length + 2
        = (a ++ [46] ++ b ++ [46] ++ c ++ [46] ++ [50]).length := by simp; omega
    have i3 : (a ++ [46] ++ b ++ [46] ++ c).length + 3
        = (a ++ [46] ++ b ++ [46] ++ c ++ [46] ++ [50] ++ [53]).length := by simp; omega
    have i4 : (a ++ [46] ++ b ++ [46] ++ c).length + 4
        = (a ++ [46] ++ b ++ [46] ++ c ++ [46] ++ [50] ++ [53] ++ [53]).length := by simp; omega
    rw [hi, i2, i3, i4, t1]
    simp only [Option.bind_some, Option.some_bind]
    rw [t2]
    simp only [Option.bind_some, Option.some_bind]
    rw [t3]
    simp only [Option.bind_some, Option.some_bind]
    rw [t4]
  · simp
    omega
  · have e : a ++ [46] ++ b ++ [46] ++ c ++ [46] ++ [50] ++ [53] ++ [53] ++ [0] ++ List.replicate m 0
        = (a ++ [46] ++ b ++ [46] ++ c ++ [46] ++ [50, 53, 53]) ++ 0 :: List.replicate m 0 := by
      simp
    rw [e]
    apply cstr_append_zero
    intro x hx
    simp only [List.mem_append, List.mem_cons, List.mem_singleton, List.not_mem_nil,
      or_false] at hx
    rcases hx with ((((((h | h) | h) | h) | h) | h) | h | h | h)
    · exact hza x h
    · omega
    · exact hzb x h
    · omega
    · exact hzc x h
    · omega
    · omega
    · omega
    · omega

/-- C6, the instance of the specification: `192.168.1.42` gives
`192.168.1.255`. -/
theorem C6_broadcast_witness :
    ∃ bc, getBroadcast { construct 1 9600 0 with
          _ipaddress := bytes ("192.168.1.42") ++ [0, 0, 0, 0] }
        = .ok (true, { construct 1 9600 0 with
            _ipaddress := bytes ("192.168.1.42") ++ [0, 0, 0, 0], _broadcast := bc }) ∧
      bc.length = 16 ∧ cstr bc = bytes ("192.168.1.255") :=
  C6_broadcast { construct 1 9600 0 with _ipaddress := bytes ("192.168.1.42") ++ [0, 0, 0, 0] }
    [49, 57, 50] [49, 54, 56] [49] [52, 50] [0, 0, 0]
    ⟨by decide, by decide, by decide⟩ ⟨by decide, by decide, by decide⟩
    ⟨by decide, by decide, by decide⟩ ⟨by decide, by decide, by decide⟩ (by decide)

/-! ## C9, C10: the line buffer -/

/-- One pass of the receive loop on a byte other than LF and CR. -/
theorem rxLoop_store (fuel : Nat) (w : State) (v : Nat) (r : List Nat) (hrx : w.rx = v :: r)
    (h10 : v ≠ 10) (h13 : v ≠ 13) (hk : w._wctr < BUFFER_SIZE) :
    rxLoop (fuel + 1) w
      = rxLoop fuel { w with rx := r, _wb := w._wb.set w._wctr v, _wctr := w._wctr + 1 } := by
  rw [rxLoop, hrx]
  simp only [h10, h13, if_false, hk, if_true]

/-- One pass of the receive loop on a CR. -/
theorem rxLoop_cr (fuel : Nat) (w : State) (r : List Nat) (hrx : w.rx = 13 :: r) :
    rxLoop (fuel + 1) w = rxLoop fuel { w with rx := r } := by
  rw [rxLoop, hrx]
  simp

/-- The receive loop on a stretch of input without LF that fits the buffer:
the bytes other than CR are stored in order from `_wctr` on. -/
theorem rxLoop_stretch (bs : List Nat) :
    ∀ (rest : List Nat) (fuel : Nat) (w : State), 10 ∉ bs → w.rx = bs ++ rest →
      w._wb.length = BUFFER_SIZE →
      w._wctr + (bs.filter (fun v => decide (v ≠ 13))).length ≤ BUFFER_SIZE →
      rxLoop (bs.length + fuel) w = rxLoop fuel { w with
        rx := rest,
        _wb := w._wb.take w._wctr ++ bs.filter (fun v => decide (v ≠ 13))
                ++ w._wb.drop (w._wctr + (bs.filter (fun v => decide (v ≠ 13))).length),
        _wctr := w._wctr + (bs.filter (fun v => decide (v ≠ 13))).length } := by
  induction bs with
  | nil =>
    intro rest fuel w _ hrx _ _
    simp only [List.nil_append] at hrx
    simp only [List.filter_nil, List.length_nil, Nat.zero_add, Nat.add_zero, List.append_nil,
      List.take_append_drop]
    rw [← hrx]
  | cons v bs ih =>
    intro rest fuel w hno hrx hlen hfit
    have h10 : v ≠ 10 := fun e => hno (by simp [e])
    have hno' : 10 ∉ bs := fun hm => hno (by simp [hm])
    have hfuel : (v :: bs).length + fuel = (bs.length + fuel) + 1 := by simp; omega
    rw [hfuel]
    by_cases h13 : v = 13
    · subst h13
      rw [rxLoop_cr _ w (bs ++ rest) hrx]
      have := ih rest fuel { w with rx := bs ++ rest } hno' rfl hlen (by simpa using hfit)
      rw [this]
      simp
    · have hcount : ((v :: bs).filter (fun v => decide (v ≠ 13))).length
          = (bs.filter (fun v => decide (v ≠ 13))).length + 1 := by simp [List.filter_cons, h13]
      rw [hcount] at hfit
      have hk : w._wctr < BUFFER_SIZE := by omega
      rw [rxLoop_store _ w v (bs ++ rest) hrx h10 h13 hk]
      have hk' : w._wctr < w._wb.length := by rw [hlen]; exact hk
      have := ih rest fuel
        { w with rx := bs ++ rest, _wb := w._wb.set w._wctr v, _wctr := w._wctr + 1 } hno' rfl
        (by simp [hlen]) (by simp only; omega)
      rw [this]
      have htake : (w._wb.set w._wctr v).take (w._wctr + 1) = w._wb.take w._wctr ++ [v] := by
        rw [List.set_eq_take_append_cons_drop, if_pos hk', List.take_append_eq_append_take]
        simp [List.length_take, Nat.min_eq_left (Nat.le_of_lt hk')]
      have hdrop : (w._wb.set w._wctr v).drop
            (w._wctr + 1 + (bs.filter (fun v => decide (v ≠ 13))).length)
          = w._wb.drop (w._wctr + ((bs.filter (fun v => decide (v ≠ 13))).length + 1)) := by
        rw [List.drop_set_of_lt _ _ (by omega)]
        congr 1
        omega
      have hf : (v :: bs).filter (fun v => decide (v ≠ 13))
          = v :: bs.filter (fun v => decide (v ≠ 13)) := by simp [List.filter_cons, h13]
      rw [hf]
      simp only [htake, hdrop, List.length_cons, List.append_assoc, List.singleton_append]
      have e : w._wctr + 1 + (bs.filter (fun v => decide (v ≠ 13))).length
          = w._wctr + ((bs.filter (fun v => decide (v ≠ 13))).length + 1) := by omega
      rw [e]

/-- Within the interval the watchdog part of `run` pulses the watchdog when
the feature is on, and returns. -/
theorem watchdogCheck_within (w : State) (now : Int)
    (hwin : elapsedU32 now w._previousMillis < toU32 w._beaconInterval)
    (hint : 0 ≤ w._beaconInterval) (hint3 : w._beaconInterval * 3 < 4294967296) :
    watchdogCheck w now = .returned { w with
      wdtResets := if w._forceReset = true then w.wdtResets + 1 else w.wdtResets } := by
  have hiv : toU32 w._beaconInterval = w._beaconInterval := by
    unfold toU32
    exact Int.emod_eq_of_lt hint (by omega)
  have hiv3 : toU32 (w._beaconInterval * 3) = w._beaconInterval * 3 := by
    unfold toU32
    exact Int.emod_eq_of_lt (by omega) hint3
  rw [hiv] at hwin
  unfold watchdogCheck
  by_cases hf : w._forceReset = true
  · rw [if_pos hf, hiv3, if_neg (by omega), if_pos hf]
  · rw [if_neg hf, if_neg hf]

/-- C9, counterexample.  The specification says that input without a line feed is
stored verbatim and that `_wctr` advances by its length.  The three bytes
`A`, CR, `B` contain no line feed; `run` stores `A` and `B` only and `_wctr`
advances by 2: a carriage return is skipped, not stored. -/
theorem C9_carriage_return_dropped :
    10 ∉ [65, 13, 66] ∧
    elapsedU32 100 (construct 1 9600 0)._previousMillis < toU32 (construct 1 9600 0)._beaconInterval ∧
    run { construct 1 9600 0 with rx := [65, 13, 66] } 100 100 []
      = .returned { construct 1 9600 0 with
          _wb := [65, 66] ++ List.replicate 253 0, _wctr := 2, rx := [] } := by
  refine ⟨by decide, by decide, by rfl⟩

/-- C9, amended.  Within the interval, for waiting input without a line feed
whose bytes other than CR fit the line buffer from `_wctr` on, `run` stores
those bytes verbatim and in order from index `_wctr`, skips every CR,
advances `_wctr` by the number of bytes stored and returns.  No callback is
called and `_connected` and `_replyChan` keep their values; the watchdog is
pulsed when the feature is on. -/
theorem C9_accumulates (w : State) (now sendStart : Int) (script : List (Int × Int))
    (hno : 10 ∉ w.rx)
    (hwin : elapsedU32 now w._previousMillis < toU32 w._beaconInterval)
    (hint : 0 ≤ w._beaconInterval) (hint3 : w._beaconInterval * 3 < 4294967296)
    (hlen : w._wb.length = BUFFER_SIZE)
    (hfit : w._wctr + (w.rx.filter (fun v => decide (v ≠ 13))).length ≤ BUFFER_SIZE) :
    run w now sendStart script = .returned { w with
      rx := [],
      _wb := w._wb.take w._wctr ++ w.rx.filter (fun v => decide (v ≠ 13))
              ++ w._wb.drop (w._wctr + (w.rx.filter (fun v => decide (v ≠ 13))).length),
      _wctr := w._wctr + (w.rx.filter (fun v => decide (v ≠ 13))).length,
      wdtResets := if w._forceReset = true then w.wdtResets + 1 else w.wdtResets } := by
  have hloop := rxLoop_stretch w.rx [] 0 w hno (by simp) hlen hfit
  rw [Nat.add_zero] at hloop
  unfold run
  rw [if_pos hwin, hloop, rxLoop]
  exact watchdogCheck_within _ now hwin hint hint3

set_option maxRecDepth 8000 in
/-- C9, an instance: the bytes `A`, CR, `B` from an empty buffer. -/
theorem C9_accumulates_witness :
    run { construct 1 9600 0 with rx := [65, 13, 66] } 100 100 []
      = .returned { construct 1 9600 0 with
          _wb := [65, 66] ++ List.replicate 253 0, _wctr := 2, rx := [] } :=
  C9_accumulates { construct 1 9600 0 with rx := [65, 13, 66] } 100 100 []
    (by decide) (by decide) (by decide) (by decide) (by rfl) (by decide)

/-- The ways in which `processWifiMessage` can end, with the fields it can
change; the waiting input is kept or dropped as a whole. -/
theorem processWifiMessage_cases (w : State) :
    ∃ conn chan evs rx, (rx = w.rx ∨ rx = []) ∧
      (processWifiMessage w = .returned
          { w with _connected := conn, _replyChan := chan, rx := rx, events := evs } ∨
       processWifiMessage w = .undefined .unassigned
          { w with _connected := conn, _replyChan := chan, rx := rx, events := evs } ∨
       processWifiMessage w = .undefined .scanPastBuffer
          { w with _connected := conn, _replyChan := chan, rx := rx, events := evs }) := by
  unfold processWifiMessage
  split
  · dsimp only
    split
    · exact ⟨true, w._replyChan, w.events ++ [Event.connected], w.rx, Or.inl rfl, Or.inl rfl⟩
    · exact ⟨true, w._replyChan, w.events, w.rx, Or.inl rfl, Or.inl rfl⟩
  · split
    · split
      · exact ⟨w._connected, w._replyChan, w.events, w.rx, Or.inl rfl, Or.inr (Or.inl rfl)⟩
      · rename_i channel plen _
        split
        · exact ⟨w._connected, channel, w.events, w.rx, Or.inl rfl, Or.inr (Or.inl rfl)⟩
        · split
          · dsimp only
            split
            · exact ⟨w._connected, channel, w.events, w.rx, Or.inl rfl, Or.inr (Or.inr rfl)⟩
            · split
              · exact ⟨w._connected, channel, _, [], Or.inr rfl, Or.inl rfl⟩
              · exact ⟨w._connected, channel, w.events, w.rx, Or.inl rfl, Or.inl rfl⟩
          · exact ⟨w._connected, channel, w.events, w.rx, Or.inl rfl, Or.inl rfl⟩
    · exact ⟨w._connected, w._replyChan, w.events, w.rx, Or.inl rfl, Or.inl rfl⟩

theorem linesFit_nil : linesFit [] := by
  intro seg hseg _
  have : seg = [] := List.eq_nil_of_infix_nil hseg
  subst this
  simp [stored]

theorem linesFit_tail (v : Nat) (rest : List Nat) (h : linesFit (v :: rest)) : linesFit rest :=
  fun seg hseg hno => h seg (List.infix_cons hseg) hno

/-- Input shorter than the buffer always fits. -/
theorem linesFit_of_short (rx : List Nat) (h : rx.length ≤ 254) : linesFit rx := by
  intro seg hseg _
  have h1 : stored seg ≤ seg.length := List.length_filter_le _ _
  have h2 := hseg.length_le
  omega

theorem stored_cons_cr (seg : List Nat) : stored (13 :: seg) = stored seg := by
  simp [stored]

theorem stored_cons (v : Nat) (seg : List Nat) (h : v ≠ 13) :
    stored (v :: seg) = stored seg + 1 := by
  simp [stored, List.filter_cons, h]

/-- The receive loop keeps the line buffer within bounds when every line
fits, and it leaves `_wctr` at 0 when the input ends in a line feed. -/
theorem rxLoop_invariant (fuel : Nat) :
    ∀ w : State, lineInvariant w →
      (∀ i w', rxLoop fuel w ≠ .undefined (.wbOverflow i) w') ∧
      (rxLoop fuel w).state._wb.length = BUFFER_SIZE ∧
      (rxLoop fuel w).state._wctr ≤ 254 ∧
      (w.rx.length ≤ fuel → (w.rx = [] → w._wctr = 0) →
        (∀ x, w.rx.getLast? = some x → x = 10) → (rxLoop fuel w).state._wctr = 0) := by
  induction fuel with
  | zero =>
    intro w ⟨hlen, hpre, _⟩
    have hk := hpre [] List.nil_prefix (by simp)
    simp only [stored, List.filter_nil, List.length_nil, Nat.add_zero] at hk
    refine ⟨by intro i w' h; simp [rxLoop] at h, hlen, hk, ?_⟩
    intro hl h0 _
    exact h0 (List.length_eq_zero.mp (Nat.le_zero.mp hl))
  | succ fuel ih =>
    intro w ⟨hlen, hpre, hfit⟩
    have hk := hpre [] List.nil_prefix (by simp)
    simp only [stored, List.filter_nil, List.length_nil, Nat.add_zero] at hk
    cases hrx : w.rx with
    | nil =>
      have hr : rxLoop (fuel + 1) w = .returned w := by rw [rxLoop, hrx]
      rw [hr]
      exact ⟨by intro i w' h; simp at h, hlen, hk, fun _ h0 _ => h0 rfl⟩
    | cons v rest =>
      rw [hrx] at hpre hfit
      have hfit' : linesFit rest := linesFit_tail v rest hfit
      by_cases h10 : v = 10
      · subst h10
        have hkb : w._wctr < BUFFER_SIZE := by unfold BUFFER_SIZE; omega
        obtain ⟨conn, chan, evs, rx', hrx', hcase⟩ := processWifiMessage_cases
          { w with rx := rest, _wb := w._wb.set w._wctr 0, _wctr := 0 }
        have hstep : rxLoop (fuel + 1) w =
            match processWifiMessage { w with rx := rest, _wb := w._wb.set w._wctr 0, _wctr := 0 } with
            | .returned w1 => rxLoop fuel w1
            | other => other := by
          rw [rxLoop, hrx]
          simp only [if_true, hkb]
        rw [hstep]
        rcases hcase with hc | hc | hc
        · rw [hc]
          simp only
          have hinv : lineInvariant { w with
              rx := rx', _wb := w._wb.set w._wctr 0, _wctr := 0,
              _connected := conn, _replyChan := chan, events := evs } := by
            refine ⟨by simp [hlen], ?_, ?_⟩
            · intro seg hseg hno
              simp only [Nat.zero_add]
              rcases hrx' with h | h
              · rw [h] at hseg
                exact hfit' seg hseg.isInfix hno
              · rw [h] at hseg
                exact linesFit_nil seg hseg.isInfix hno
            · rcases hrx' with h | h
              · rw [h]; exact hfit'
              · rw [h]; exact linesFit_nil
          obtain ⟨i1, i2, i3, i4⟩ := ih _ hinv
          refine ⟨i1, i2, i3, ?_⟩
          intro hl _ hlast
          apply i4
          · rcases hrx' with h | h
            · rw [h]; simp only [List.length_cons] at hl; exact Nat.le_of_succ_le_succ hl
            · rw [h]; simp
          · intro _; rfl
          · intro x hx
            rcases hrx' with h | h
            · simp only [h] at hx
              cases rest with
              | nil => simp at hx
              | cons y r =>
                apply hlast x
                rw [List.getLast?_cons_cons]
                exact hx
            · simp only [h] at hx
              simp at hx
        · rw [hc]
          exact ⟨by intro i w' h; simp at h, by simp [Outcome.state, hlen],
            by simp [Outcome.state], fun _ _ _ => rfl⟩
        · rw [hc]
          exact ⟨by intro i w' h; simp at h, by simp [Outcome.state, hlen],
            by simp [Outcome.state], fun _ _ _ => rfl⟩
      · by_cases h13 : v = 13
        · subst h13
          rw [rxLoop_cr fuel w rest hrx]
          have hinv : lineInvariant { w with rx := rest } := by
            refine ⟨hlen, ?_, hfit'⟩
            intro seg hseg hno
            have := hpre (13 :: seg) ((List.prefix_cons_inj 13).mpr hseg) (by simp [hno])
            rwa [stored_cons_cr] at this
          obtain ⟨i1, i2, i3, i4⟩ := ih _ hinv
          refine ⟨i1, i2, i3, ?_⟩
          intro hl _ hlast
          have hne : rest ≠ [] := by
            intro he
            have := hlast 13 (by rw [he]; rfl)
            omega
          apply i4
          · simp only [List.length_cons] at hl; exact Nat.le_of_succ_le_succ hl
          · intro he; exact absurd he hne
          · intro x hx
            apply hlast x
            cases rest with
            | nil => exact absurd rfl hne
            | cons y r => rw [List.getLast?_cons_cons]; exact hx
        · have hk1 := hpre [v] (by simp) (by simp; exact fun e => h10 e.symm)
          rw [stored_cons v [] h13] at hk1
          have hkb : w._wctr < BUFFER_SIZE := by unfold BUFFER_SIZE; omega
          rw [rxLoop_store fuel w v rest hrx h10 h13 hkb]
          have hinv : lineInvariant { w with
              rx := rest, _wb := w._wb.set w._wctr v, _wctr := w._wctr + 1 } := by
            refine ⟨by simp [hlen], ?_, hfit'⟩
            intro seg hseg hno
            have := hpre (v :: seg) ((List.prefix_cons_inj v).mpr hseg)
              (by simp [hno]; exact fun e => h10 e.symm)
            rw [stored_cons v seg h13] at this
            simp only
            omega
          obtain ⟨i1, i2, i3, i4⟩ := ih _ hinv
          refine ⟨i1, i2, i3, ?_⟩
          intro hl _ hlast
          have hne : rest ≠ [] := by
            intro he
            have := hlast v (by rw [he]; rfl)
            exact h10 this
          apply i4
          · simp only [List.length_cons] at hl; exact Nat.le_of_succ_le_succ hl
          · intro he; exact absurd he hne
          · intro x hx
            apply hlast x
            cases rest with
            | nil => exact absurd rfl hne
            | cons y r => rw [List.getLast?_cons_cons]; exact hx

/-- The watchdog part either hangs in the state it was entered in or returns
with at most the count of watchdog pulses changed. -/
theorem watchdogCheck_cases (w : State) (now : Int) :
    watchdogCheck w now = .hung w ∨
      ∃ n, watchdogCheck w now = .returned { w with wdtResets := n } := by
  unfold watchdogCheck
  split
  · split
    · exact Or.inl rfl
    · exact Or.inr ⟨_, rfl⟩
  · exact Or.inr ⟨w.wdtResets, rfl⟩

/-- The beacon text is never the cause of a store outside `_wb`. -/
theorem beaconMessage_fault (w : State) (f : Fault) (h : beaconMessage w = .error f) :
    ∀ i, f ≠ .wbOverflow i := by
  intro i hf
  subst hf
  unfold beaconMessage at h
  dsimp only at h
  split at h
  · simp at h
  · split at h
    · split at h <;> simp at h
    · simp at h

/-- The part of `run` taken once the interval has elapsed leaves the line
buffer and its index alone. -/
theorem run_elapsed_buffer (w : State) (now sendStart : Int) (script : List (Int × Int))
    (hwin : ¬ elapsedU32 now w._previousMillis < toU32 w._beaconInterval) :
    (∀ i w', run w now sendStart script ≠ .undefined (.wbOverflow i) w') ∧
    (run w now sendStart script).state._wb = w._wb ∧
    (run w now sendStart script).state._wctr = w._wctr := by
  unfold run
  rw [if_neg hwin]
  split
  · exact ⟨by intro i w' h; simp at h, rfl, rfl⟩
  · split
    · rename_i f hf
      refine ⟨?_, rfl, rfl⟩
      intro i w' h
      have h' := (Outcome.undefined.inj h).1
      exact beaconMessage_fault w f hf i h'
    · rename_i data hdata
      dsimp only
      split
      · exact ⟨by intro i w' h; simp at h, rfl, rfl⟩
      · rename_i w1 r hs
        obtain ⟨sd, rx, tx, hw1⟩ := sendData_state _ _ _ _ _ _ _ _ hs
        rcases watchdogCheck_cases { w1 with _previousMillis := toLong now } now with h | ⟨n, h⟩
        · rw [h, hw1]
          exact ⟨by intro i w' h; simp at h, rfl, rfl⟩
        · rw [h, hw1]
          exact ⟨by intro i w' h; simp at h, rfl, rfl⟩
      · rename_i w1 r hs
        obtain ⟨sd, rx, tx, hw1⟩ := sendData_state _ _ _ _ _ _ _ _ hs
        rcases watchdogCheck_cases w1 now with h | ⟨n, h⟩
        · rw [h, hw1]
          exact ⟨by intro i w' h; simp at h, rfl, rfl⟩
        · rw [h, hw1]
          exact ⟨by intro i w' h; simp at h, rfl, rfl⟩

/-! ## C11, C19: where the matcher stops -/

/-- For a target that is not used up, a byte at which `searchStep` reports
success ends an occurrence of the target exactly there. -/
theorem searchStep_found_suffix (target pre : List Int) (index : Nat) (c : Int)
    (hlt : index < target.length) (hsuf : target.take index <:+ pre)
    (hfound : (searchStep target index c).2 = true) :
    target <:+ pre ++ [c] := by
  by_cases h1 : c = charAt target index
  · rw [searchStep_match target index c h1] at hfound
    have h3 : index + 1 ≥ target.length := by simpa using hfound
    have ht : target = target.take index ++ [c] := by
      rw [h1, ← take_succ_charAt target index hlt, List.take_of_length_le (by omega)]
    obtain ⟨s, hs⟩ := hsuf
    exact ⟨s, by rw [← hs, List.append_assoc, ← ht]⟩
  · by_cases h2 : c = charAt target 0
    · rw [searchStep_restart target index c h1 h2] at hfound
      have h3 : 1 ≥ target.length := by simpa using hfound
      have hpos : 0 < target.length := by omega
      have ht : target = [c] := by
        have := take_succ_charAt target 0 hpos
        rw [List.take_of_length_le (by omega)] at this
        rw [this, h2]; simp
      rw [ht]
      exact List.suffix_append pre [c]
    · rw [searchStep_reset target index c h1 h2] at hfound
      simp at hfound

/-- A step that reports no success leaves an index below the target length. -/
theorem searchStep_next_lt (target : List Int) (index : Nat) (c : Int)
    (hpos : 0 < target.length)
    (hnot : (searchStep target index c).2 = false) :
    (searchStep target index c).1 < target.length := by
  by_cases h1 : c = charAt target index
  · rw [searchStep_match target index c h1] at hnot ⊢
    have h3 : index + 1 < target.length := by simpa using hnot
    exact h3
  · by_cases h2 : c = charAt target 0
    · rw [searchStep_restart target index c h1 h2] at hnot ⊢
      exact Nat.lt_of_not_ge (of_decide_eq_false hnot)
    · rw [searchStep_reset target index c h1 h2]
      exact hpos

/-- Where the matcher loop stops: a `true` result is returned at a byte that
ends an occurrence of the target, the polls after it are returned unread, and
for a target whose first byte does not recur no occurrence ends earlier. -/
theorem searchLoop_stops (target : List Int) (timeout start : Int) :
    ∀ (script : List (Int × Int)) (index : Nat) (pre : List Int) (rest : List (Int × Int)),
      index < target.length → target.take index <:+ pre →
      searchLoop target timeout start index script = some (true, rest) →
      ∃ init c now, script = init ++ (c, now) :: rest ∧ c ≥ 0 ∧
        target <:+ pre ++ delivered init ++ [c] ∧
        (firstByteUnique target → ¬ target <:+: target.take index ++ delivered init) := by
  intro script
  induction script with
  | nil => intro index pre rest _ _ h; simp [searchLoop] at h
  | cons p tail ih =>
    obtain ⟨c, now⟩ := p
    intro index pre rest hlt hsuf h
    unfold searchLoop at h
    by_cases hc : c ≥ 0
    · simp only [hc, if_true] at h
      by_cases hf : (searchStep target index c).2 = true
      · simp only [hf, if_true] at h
        have hrest : tail = rest := by simpa using h
        refine ⟨[], c, now, by simp [hrest], hc, ?_, ?_⟩
        · simpa [delivered] using searchStep_found_suffix target pre index c hlt hsuf hf
        · intro _ hin
          have := hin.length_le
          simp [delivered] at this
          omega
      · have hf' : (searchStep target index c).2 = false := by simpa using hf
        simp only [hf', Bool.false_eq_true, if_false] at h
        by_cases ht : elapsedU32 now start < toU32 timeout
        · simp only [ht, if_true] at h
          obtain ⟨-, hsuf'⟩ := searchStep_next target pre index c hsuf hf'
          have hlt' := searchStep_next_lt target index c (by omega) hf'
          obtain ⟨init, c', now', hs, hc', hin, hfirst⟩ := ih _ (pre ++ [c]) rest hlt' hsuf' h
          refine ⟨(c, now) :: init, c', now', by simp [hs], hc', ?_, ?_⟩
          · rw [delivered_cons, if_pos hc]
            simpa using hin
          · intro hu hocc
            rw [delivered_cons, if_pos hc] at hocc
            exact hfirst hu (searchStep_keeps target _ index c hu hlt hf' hocc).2
        · simp [ht] at h
    · simp only [hc, if_false] at h
      by_cases ht : elapsedU32 now start < toU32 timeout
      · simp only [ht, if_true, Bool.false_eq_true, if_false] at h
        obtain ⟨init, c', now', hs, hc', hin, hfirst⟩ := ih index pre rest hlt hsuf h
        refine ⟨(c, now) :: init, c', now', by simp [hs], hc', ?_, ?_⟩
        · rw [delivered_cons, if_neg hc]
          exact hin
        · intro hu hocc
          rw [delivered_cons, if_neg hc] at hocc
          exact hfirst hu hocc
      · simp [ht] at h

/-- A position found by the reference search is the end of an occurrence. -/
theorem referenceSearch_sound (target : List Int) :
    ∀ (s : List Int) (k : Nat), referenceSearch target s = some k → target <:+: s := by
  intro s
  induction s with
  | nil =>
    intro k h
    by_cases ht : target = []
    · rw [ht]
    · simp [referenceSearch, ht] at h
  | cons a s ih =>
    intro k h
    unfold referenceSearch at h
    by_cases hp : target.isPrefixOf (a :: s) = true
    · exact (List.isPrefixOf_iff_prefix.mp hp).isInfix
    · rw [if_neg hp] at h
      cases hr : referenceSearch target s with
      | none => rw [hr] at h; simp at h
      | some j => exact List.infix_cons (ih j hr)

/-- The reference search returns the length of the shortest prefix of the
stream that ends with the target. -/
theorem referenceSearch_first (target : List Int) (hne : target ≠ []) :
    ∀ (s c : List Int), c <+: s → target <:+ c → ¬ target <:+: c.dropLast →
      referenceSearch target s = some c.length := by
  intro s
  induction s with
  | nil =>
    intro c hc hsuf _
    rw [List.prefix_nil.mp hc] at hsuf
    exact absurd (List.suffix_nil.mp hsuf) hne
  | cons a s ih =>
    intro c hc hsuf hfirst
    cases c with
    | nil => exact absurd (List.suffix_nil.mp hsuf) hne
    | cons a' c' =>
      obtain ⟨haa, hc'⟩ := List.cons_prefix_cons.mp hc
      subst haa
      unfold referenceSearch
      by_cases hp : target.isPrefixOf (a' :: s) = true
      · rw [if_pos hp]
        have hpre := List.isPrefixOf_iff_prefix.mp hp
        have hle := hsuf.length_le
        by_cases hlt : target.length < (a' :: c').length
        · exfalso
          apply hfirst
          have h1 : (a' :: c').dropLast <+: a' :: s :=
            (List.dropLast_prefix _).trans hc
          have h2 : target <+: (a' :: c').dropLast :=
            List.prefix_of_prefix_length_le hpre h1 (by rw [List.length_dropLast]; omega)
          exact h2.isInfix
        · congr 1
          omega
      · rw [if_neg hp]
        have hsuf' : target <:+ c' := by
          rcases List.suffix_cons_iff.mp hsuf with h | h
          · exfalso
            apply hp
            rw [List.isPrefixOf_iff_prefix, h]
            exact hc
          · exact h
        have hc'ne : c' ≠ [] := by
          intro h
          rw [h] at hsuf'
          exact hne (List.suffix_nil.mp hsuf')
        have hfirst' : ¬ target <:+: c'.dropLast := by
          intro h
          apply hfirst
          rw [List.dropLast_cons_of_ne_nil hc'ne]
          exact List.infix_cons h
        rw [ih c' hc' hsuf' hfirst']
        simp

/-- C11.  When `searchResults` returns `true` for a target that is not empty,
it does so at a byte that it has just read: the bytes consumed end with the
target, and the polls after that byte come back unread, so the rest of the
stream stays in the transport. -/
theorem C11_returns_at_match (target : List Int) (timeout start : Int)
    (script rest : List (Int × Int)) (hne : target ≠ [])
    (h : searchResults target timeout start script = some (true, rest)) :
    ∃ init c now, script = init ++ (c, now) :: rest ∧ c ≥ 0 ∧
      target <:+ delivered (init ++ [(c, now)]) := by
  have hpos : 0 < target.length := List.length_pos.mpr hne
  obtain ⟨init, c, now, hs, hc, hsuf, -⟩ :=
    searchLoop_stops target timeout start script 0 [] rest hpos (by simp) h
  refine ⟨init, c, now, hs, hc, ?_⟩
  rw [delivered_append, delivered_cons, if_pos hc]
  simpa [delivered] using hsuf

/-- C11, the instance of the specification: on the reply `\r\nOK\r\n` the
target `OK` is found after 4 bytes and the final `\r\n` is left unread. -/
theorem C11_returns_at_match_witness :
    searchResults [79, 75] 5000 0 [(13, 1), (10, 2), (79, 3), (75, 4), (13, 5), (10, 6)]
      = some (true, [(13, 5), (10, 6)]) ∧
    (delivered [(13, 1), (10, 2), (79, 3), (75, 4)]).length = 4 ∧
    ∃ init c now,
      [(13, 1), (10, 2), (79, 3), (75, 4), (13, 5), (10, 6)] = init ++ (c, now) :: [(13, 5), (10, 6)] ∧
      c ≥ 0 ∧ [79, 75] <:+ delivered (init ++ [(c, now)]) :=
  ⟨by decide, by decide,
   C11_returns_at_match [79, 75] 5000 0 [(13, 1), (10, 2), (79, 3), (75, 4), (13, 5), (10, 6)]
     [(13, 5), (10, 6)] (by decide) (by decide)⟩

/-- C19.  For a target that is not empty and whose first byte occurs at no
later position of it, on every script that covers the waiting window, the
index-reset matcher of `searchResults` agrees with the reference substring
search: it returns `true` exactly when the target occurs in the delivered
bytes, and then the number of bytes it has consumed is the end of the first
occurrence, as the reference search computes it. -/
theorem C19_agrees_with_reference (target : List Int) (timeout start : Int)
    (script : List (Int × Int)) (hne : target ≠ []) (hu : firstByteUnique target)
    (hwin : closesAtEnd timeout start script) :
    ∃ b rest, searchResults target timeout start script = some (b, rest) ∧
      (b = true ↔ target <:+: delivered script) ∧
      (b = true ↔ (referenceSearch target (delivered script)).isSome = true) ∧
      (b = true → ∃ used, script = used ++ rest ∧
        referenceSearch target (delivered script) = some (delivered used).length) := by
  have hpos : 0 < target.length := List.length_pos.mpr hne
  obtain ⟨b, rest, hres⟩ := searchLoop_total target timeout start script 0 hwin
  have hpos' : b = true → ∃ used, script = used ++ rest ∧
      referenceSearch target (delivered script) = some (delivered used).length := by
    intro hb
    subst hb
    obtain ⟨init, c, now, hs, hc, hsuf, hfirst⟩ :=
      searchLoop_stops target timeout start script 0 [] rest hpos (by simp) hres
    refine ⟨init ++ [(c, now)], by simp [hs], ?_⟩
    have hd : delivered (init ++ [(c, now)]) = delivered init ++ [c] := by
      rw [delivered_append, delivered_cons, if_pos hc]
      simp [delivered]
    rw [hd]
    apply referenceSearch_first target hne
    · rw [hs, delivered_append, delivered_cons, if_pos hc]
      exact ⟨delivered rest, by simp⟩
    · simpa using hsuf
    · rw [List.dropLast_concat]
      simpa using hfirst hu
  have hcomplete : target <:+: delivered script → b = true := by
    intro hocc
    obtain ⟨rest', hres'⟩ := searchLoop_complete target timeout start hu script 0 hwin hpos
      (by simpa using hocc)
    have : some (b, rest) = some (true, rest') := by rw [← hres, ← hres']
    simpa using (Prod.mk.inj (Option.some.inj this)).1
  refine ⟨b, rest, hres, ⟨?_, hcomplete⟩, ⟨?_, ?_⟩, hpos'⟩
  · intro hb
    obtain ⟨used, -, hr⟩ := hpos' hb
    exact referenceSearch_sound target _ _ hr
  · intro hb
    obtain ⟨used, -, hr⟩ := hpos' hb
    rw [hr]
    rfl
  · intro hsome
    cases hr : referenceSearch target (delivered script) with
    | none => rw [hr] at hsome; simp at hsome
    | some k => exact hcomplete (referenceSearch_sound target _ k hr)

/-- C19, an instance: the target `SEND OK` in a reply that first shows a
broken start `SE`. -/
theorem C19_agrees_with_reference_witness :
    ∃ b rest, searchResults textSendOK 10000 0
        [(83, 1), (69, 2), (83, 3), (69, 4), (78, 5), (68, 6), (32, 7), (79, 8), (75, 9),
         (13, 10), (10, 10000)] = some (b, rest) ∧
      (b = true ↔ textSendOK <:+: delivered
        [(83, 1), (69, 2), (83, 3), (69, 4), (78, 5), (68, 6), (32, 7), (79, 8), (75, 9),
         (13, 10), (10, 10000)]) ∧
      (b = true ↔ (referenceSearch textSendOK (delivered
        [(83, 1), (69, 2), (83, 3), (69, 4), (78, 5), (68, 6), (32, 7), (79, 8), (75, 9),
         (13, 10), (10, 10000)])).isSome = true) ∧
      (b = true → ∃ used,
        [(83, 1), (69, 2), (83, 3), (69, 4), (78, 5), (68, 6), (32, 7), (79, 8), (75, 9),
         (13, 10), (10, 10000)] = used ++ rest ∧
        referenceSearch textSendOK (delivered
          [(83, 1), (69, 2), (83, 3), (69, 4), (78, 5), (68, 6), (32, 7), (79, 8), (75, 9),
           (13, 10), (10, 10000)]) = some (delivered used).length) :=
  C19_agrees_with_reference textSendOK 10000 0 _ (by decide)
    (by simp [firstByteUnique, textSendOK]) (by simp [closesAtEnd, elapsedU32, toU32])

/-! ## C20, C18, C12: the silent return and the send path -/

/-- C20.  With beaconing disabled, once `now - _previousMillis` (modulo
`2^32`) has reached `_beaconInterval`, `run` returns at once in the state it
was called in: no input is read, no line is classified, nothing is written,
the watchdog is not pulsed and the forced hang is not entered, whatever
`_forceReset` is.  As the state is unchanged, `_previousMillis` included, the
same holds at every later clock value that is still past the interval. -/
theorem C20_disabled_beacon_noop (w : State) (now sendStart : Int) (script : List (Int × Int))
    (hb : w._beacon = false)
    (hel : ¬ elapsedU32 now w._previousMillis < toU32 w._beaconInterval) :
    run w now sendStart script = .returned w ∧
    ∀ (later laterStart : Int) (laterScript : List (Int × Int)),
      ¬ elapsedU32 later w._previousMillis < toU32 w._beaconInterval →
      run w later laterStart laterScript = .returned w := by
  have key : ∀ (t s : Int) (sc : List (Int × Int)),
      ¬ elapsedU32 t w._previousMillis < toU32 w._beaconInterval →
      run w t s sc = .returned w := by
    intro t s sc ht
    unfold run
    rw [if_neg ht, if_pos hb]
  exact ⟨key now sendStart script hel, key⟩

set_option maxRecDepth 8000 in
/-- C20, an instance: the watchdog feature on, a `Link` line waiting, 7000 ms
after the start. -/
theorem C20_disabled_beacon_noop_witness :
    run { construct 1 9600 0 with _forceReset := true, rx := [76, 105, 110, 107, 10] } 7000 7000 []
      = .returned { construct 1 9600 0 with _forceReset := true, rx := [76, 105, 110, 107, 10] } ∧
    ∀ (later laterStart : Int) (laterScript : List (Int × Int)),
      ¬ elapsedU32 later
          ({ construct 1 9600 0 with _forceReset := true, rx := [76, 105, 110, 107, 10] } : State)._previousMillis
        < toU32 ({ construct 1 9600 0 with
            _forceReset := true, rx := [76, 105, 110, 107, 10] } : State)._beaconInterval →
      run { construct 1 9600 0 with _forceReset := true, rx := [76, 105, 110, 107, 10] }
          later laterStart laterScript
        = .returned { construct 1 9600 0 with _forceReset := true, rx := [76, 105, 110, 107, 10] } :=
  C20_disabled_beacon_noop
    { construct 1 9600 0 with _forceReset := true, rx := [76, 105, 110, 107, 10] } 7000 7000 []
    rfl (by decide)

/-- The function `sendData` with no send in flight, once the wait for
`SEND OK` has ended with result `b`. -/
theorem sendData_free (w : State) (chan : Int) (data : List Nat) (start : Int)
    (script rest : List (Int × Int)) (b : Bool) (h : w._sendingData = false)
    (hs : searchResults textSendOK 10000 start script = some (b, rest)) :
    sendData w chan data start script = some (b, { w with
      _sendingData := false, rx := [],
      tx := w.tx ++ bytes ("AT+CIPSEND=") ++ decimalInt chan ++ bytes (",")
              ++ decimal (data.length % 65536) ++ [13, 10] ++ data ++ [13, 10] }, rest) := by
  unfold sendData
  rw [if_neg (by simp [h])]
  simp only [clearResults, hs]

/-- C12.  With no send in flight, `send(d)` returns once the wait has ended;
it has then written exactly `AT+CIPSEND=<chan>,<strlen(d)>` CR LF `d` CR LF,
where `chan` is `_replyChan` for a server and 3 for a client and `strlen(d)`
is the 16-bit length (the length itself below 65536), and its result is the
one of the `searchResults` call for `SEND OK`. -/
theorem C12_send_writes (w : State) (d : List Nat) (start : Int) (script : List (Int × Int))
    (h : w._sendingData = false) (hwin : closesAtEnd 10000 start script) :
    ∃ b rest, searchResults textSendOK 10000 start script = some (b, rest) ∧
      send w d start script = some (b, { w with
        _sendingData := false, rx := [],
        tx := w.tx ++ bytes ("AT+CIPSEND=")
                ++ decimalInt (if w._connectMode = CONNECT_MODE_SERVER then w._replyChan else 3)
                ++ bytes (",") ++ decimal (d.length % 65536) ++ [13, 10] ++ d ++ [13, 10] }, rest) ∧
      (d.length < 65536 → decimal (d.length % 65536) = decimal d.length) ∧
      (w._connectMode = CONNECT_MODE_SERVER →
        (if w._connectMode = CONNECT_MODE_SERVER then w._replyChan else 3) = w._replyChan) ∧
      (w._connectMode = CONNECT_MODE_CLIENT →
        (if w._connectMode = CONNECT_MODE_SERVER then w._replyChan else 3) = 3) := by
  obtain ⟨b, rest, hs⟩ := searchLoop_total textSendOK 10000 start script 0 hwin
  refine ⟨b, rest, hs, ?_, ?_, ?_, ?_⟩
  · unfold send
    exact sendData_free w _ d start script rest b h hs
  · intro hl
    rw [Nat.mod_eq_of_lt hl]
  · intro hm
    rw [if_pos hm]
  · intro hm
    rw [if_neg (by rw [hm]; decide)]

set_option maxRecDepth 8000 in
/-- C12, an instance: a server replies `hi` on channel 0 and the module
answers `SEND OK`. -/
theorem C12_send_writes_witness :
    send { construct 1 9600 0 with _connectMode := CONNECT_MODE_SERVER } [104, 105] 0
        [(83, 1), (69, 2), (78, 3), (68, 4), (32, 5), (79, 6), (75, 7), (13, 8), (10, 10000)]
      = some (true, { construct 1 9600 0 with
          _connectMode := CONNECT_MODE_SERVER,
          tx := bytes ("AT+CIPSEND=0,2\r\nhi\r\n") }, [(13, 8), (10, 10000)]) := by
  obtain ⟨b, rest, hs, hsend, -, -, -⟩ := C12_send_writes
    { construct 1 9600 0 with _connectMode := CONNECT_MODE_SERVER } [104, 105] 0
    [(83, 1), (69, 2), (78, 3), (68, 4), (32, 5), (79, 6), (75, 7), (13, 8), (10, 10000)]
    rfl (by simp [closesAtEnd, elapsedU32, toU32])
  have hb : some (b, rest) = some (true, [(13, 8), (10, 10000)]) := by
    rw [← hs]; decide
  obtain ⟨rfl, rfl⟩ := Prod.mk.inj (Option.some.inj hb)
  rw [hsend]
  rfl


/-! ## C14: the link flag is sticky -/

theorem sameLink_refl (w : State) : sameLink w w := ⟨rfl, rfl⟩

theorem sameLink_trans (a b c : State) (h1 : sameLink a b) (h2 : sameLink b c) : sameLink a c :=
  ⟨h2.1.trans h1.1, h2.2.trans h1.2⟩

theorem initializeWifi_sameLink (w : State) (dcb ccb : Bool) (wait1 wait2 : Wait) :
    sameLink w (initializeWifi w dcb ccb wait1 wait2).state := by
  unfold initializeWifi sameLink
  dsimp only
  cases dcb <;> cases ccb <;> (repeat' split) <;> simp [Result.state, wifiPrint, clearResults]

theorem setLinkMode_sameLink (w : State) (mode : Int) (wait : Wait) :
    sameLink w (setLinkMode w mode wait).state := by
  unfold setLinkMode sameLink
  dsimp only
  split <;> simp [Result.state, wifiPrint, clearResults]

theorem startUDPChannel_sameLink (w : State) (chan : Int) (address : List Nat) (port : Int)
    (wait : Wait) : sameLink w (startUDPChannel w chan address port wait).state := by
  unfold startUDPChannel sameLink
  dsimp only
  split <;> simp [Result.state, wifiPrint, clearResults]

theorem getIP_sameLink (w : State) (arrived : List Nat) (dots0 : Int) :
    sameLink w (getIP w arrived dots0).state := by
  unfold getIP sameLink
  dsimp only
  split <;> simp [Result.state, wifiPrint]

theorem getBroadcast_sameLink (w w1 : State) (b : Bool) (h : getBroadcast w = .ok (b, w1)) :
    sameLink w w1 := by
  unfold getBroadcast at h
  split at h
  · simp at h
  · split at h
    · simp only [Except.ok.injEq, Prod.mk.injEq] at h
      rw [← h.2]
      exact sameLink_refl w
    · split at h
      · simp at h
      · split at h
        · simp at h
        · simp only [Except.ok.injEq, Prod.mk.injEq] at h
          rw [← h.2]
          exact ⟨rfl, rfl⟩

theorem connectWifi_sameLink (w : State) (ssid password : List Nat) (wait1 wait2 : Wait)
    (arrived : List Nat) (dots0 : Int) :
    sameLink w (connectWifi w ssid password wait1 wait2 arrived dots0).state := by
  unfold connectWifi
  cases hs : strcpy w._ssid ssid with
  | none => exact sameLink_refl w
  | some s =>
    dsimp only
    cases hp : strcpy w._password password with
    | none => exact ⟨rfl, rfl⟩
    | some p =>
      dsimp only
      generalize hw3 : wifiPrint (clearResults { w with _ssid := s, _password := p })
        (bytes ("AT+CWJAP=\"") ++ ssid ++ bytes ("\",\"") ++ password ++ bytes ("\"\r\n")) = w3
      have h0 : sameLink w w3 := by rw [← hw3]; exact ⟨rfl, rfl⟩
      cases ha : awaitReply textOK 5000 wait1 with
      | none => exact h0
      | some b =>
        cases b with
        | false => exact h0
        | true =>
          dsimp only
          have h1 := setLinkMode_sameLink w3 1 wait2
          cases hl : setLinkMode w3 1 wait2 with
          | blocked w4 => rw [hl] at h1; exact sameLink_trans _ _ _ h0 h1
          | undefined f w4 => rw [hl] at h1; exact sameLink_trans _ _ _ h0 h1
          | done v w4 =>
            rw [hl] at h1
            have h01 : sameLink w w4 := sameLink_trans _ _ _ h0 h1
            cases v with
            | false => exact h01
            | true =>
              dsimp only
              have h2 := getIP_sameLink w4 arrived dots0
              cases hg : getIP w4 arrived dots0 with
              | blocked w5 => rw [hg] at h2; exact sameLink_trans _ _ _ h01 h2
              | undefined f w5 => rw [hg] at h2; exact sameLink_trans _ _ _ h01 h2
              | done v5 w5 =>
                rw [hg] at h2
                have h012 : sameLink w w5 := sameLink_trans _ _ _ h01 h2
                dsimp only
                cases hb : getBroadcast w5 with
                | error f => exact h012
                | ok r =>
                  obtain ⟨v6, w6⟩ := r
                  exact sameLink_trans _ _ _ h012 (getBroadcast_sameLink w5 w6 v6 hb)

theorem enableBeacon_sameLink (w : State) (device : Option (List Nat)) (wait : Wait) :
    sameLink w (enableBeacon w device wait).state := by
  unfold enableBeacon
  cases device with
  | none => exact ⟨rfl, rfl⟩
  | some dev =>
    dsimp only
    split
    · exact sameLink_refl w
    · cases hd : strcpy w._device dev with
      | none => exact sameLink_refl w
      | some d =>
        dsimp only
        have h1 := startUDPChannel_sameLink { w with _device := d } BCN_CHAN (cstr w._broadcast)
          (wrapInt16 34807) wait
        cases hu : startUDPChannel { w with _device := d } BCN_CHAN (cstr w._broadcast)
            (wrapInt16 34807) wait with
        | blocked w2 => rw [hu] at h1; exact h1
        | undefined f w2 => rw [hu] at h1; exact h1
        | done v w2 => rw [hu] at h1; exact ⟨h1.1, h1.2⟩

theorem startServer_sameLink (w : State) (port timeout : Int) (wait1 wait2 : Wait) :
    sameLink w (startServer w port timeout wait1 wait2).state := by
  unfold startServer sameLink
  dsimp only
  (repeat' split) <;> simp [Result.state, wifiPrint, clearResults]

theorem startClient_sameLink (w : State) (ip : List Nat) (port timeout : Int) (wait : Wait) :
    sameLink w (startClient w ip port timeout wait).state := by
  unfold startClient sameLink
  dsimp only
  (repeat' split) <;> simp [Result.state, wifiPrint, clearResults]

theorem closeConnection_sameLink (w : State) (wait : Wait) :
    sameLink w (closeConnection w wait).state := by
  unfold closeConnection sameLink
  dsimp only
  (repeat' split) <;> simp [Result.state, wifiPrint, clearResults]

/-- A call of `sendData` that returns leaves the link flag and the send guard
as it found them. -/
theorem sendData_sameLink (w w1 : State) (chan : Int) (data : List Nat) (start : Int)
    (script rest : List (Int × Int)) (b : Bool)
    (h : sendData w chan data start script = some (b, w1, rest)) : sameLink w w1 := by
  unfold sendData at h
  split at h
  · rename_i hs
    have hw : w = w1 := (Prod.mk.inj (Prod.mk.inj (Option.some.inj h)).2).1
    rw [← hw]
    exact sameLink_refl w
  · rename_i hs
    dsimp only at h
    split at h
    · exact absurd h (by simp)
    · have hw := (Prod.mk.inj (Prod.mk.inj (Option.some.inj h)).2).1
      rw [← hw]
      refine ⟨rfl, ?_⟩
      cases hsd : w._sendingData with
      | false => rfl
      | true => exact absurd hsd hs

/-- The link flag after `processWifiMessage`: set by a line `Link`, otherwise
as before. -/
theorem processWifiMessage_connected (w : State) :
    (processWifiMessage w).state._connected
      = (w._connected || decide (cstr w._wb = textLink)) := by
  by_cases h : cstr w._wb = textLink
  · have h1 := (strncmpEq_Link w._wb).mpr h
    unfold processWifiMessage
    rw [h1]
    by_cases hc : w._ccb = true <;> simp [hc, h, Outcome.state]
  · have h1 : strncmpEq w._wb textLink 5 0 = false := by
      cases hs : strncmpEq w._wb textLink 5 0 with
      | false => rfl
      | true => exact absurd ((strncmpEq_Link w._wb).mp hs) h
    rw [(processWifiMessage_not_Link w h1).1]
    simp [h]

/-- The send guard is not touched by the receive loop. -/
theorem rxLoop_sendingData (fuel : Nat) (w : State) :
    (rxLoop fuel w).state._sendingData = w._sendingData := by
  obtain ⟨conn, chan, rx, evs, wb, wctr, h⟩ := rxLoop_state fuel w
  rw [h]

/-- The link flag after the receive loop: set when one of the lines
classified is `Link`, otherwise as before. -/
theorem rxLoop_connected (fuel : Nat) :
    ∀ w : State, (rxLoop fuel w).state._connected
      = (w._connected || decide (textLink ∈ rxLines fuel w)) := by
  induction fuel with
  | zero => intro w; simp [rxLoop, rxLines, Outcome.state]
  | succ fuel ih =>
    intro w
    unfold rxLoop rxLines
    cases hrx : w.rx with
    | nil => simp [Outcome.state]
    | cons v rest =>
      dsimp only
      by_cases h10 : v = 10
      · rw [if_pos h10, if_pos h10]
        by_cases hk : w._wctr < BUFFER_SIZE
        · rw [if_pos hk, if_pos hk]
          have hp := processWifiMessage_connected
            { w with rx := rest, _wb := w._wb.set w._wctr 0, _wctr := 0 }
          dsimp only at hp
          cases hr : processWifiMessage
              { w with rx := rest, _wb := w._wb.set w._wctr 0, _wctr := 0 } with
          | returned w1 =>
            rw [hr] at hp
            simp only [Outcome.state] at hp
            dsimp only
            rw [ih w1, hp]
            simp only [List.mem_cons, Bool.decide_or, Bool.or_assoc]
            congr 2
            exact decide_eq_decide.mpr ⟨fun h => h.symm, fun h => h.symm⟩
          | hung w1 =>
            rw [hr] at hp
            dsimp only
            rw [hp]
            simp [eq_comm]
          | undefined f w1 =>
            rw [hr] at hp
            dsimp only
            rw [hp]
            simp [eq_comm]
          | blocked w1 =>
            rw [hr] at hp
            dsimp only
            rw [hp]
            simp [eq_comm]
        · rw [if_neg hk, if_neg hk]
          simp [Outcome.state]
      · rw [if_neg h10, if_neg h10]
        by_cases h13 : v = 13
        · rw [if_pos h13, if_pos h13]
          exact ih _
        · rw [if_neg h13, if_neg h13]
          by_cases hk : w._wctr < BUFFER_SIZE
          · rw [if_pos hk, if_pos hk]
            exact ih _
          · rw [if_neg hk, if_neg hk]
            simp [Outcome.state]

/-- The watchdog part leaves the link flag and the send guard alone. -/
theorem watchdogCheck_sameLink (w : State) (now : Int) :
    sameLink w (watchdogCheck w now).state := by
  obtain ⟨n, h⟩ := watchdogCheck_state w now
  rw [h]
  exact ⟨rfl, rfl⟩

/-- The part of `run` taken once the interval has elapsed leaves the link
flag and the send guard alone. -/
theorem run_elapsed_sameLink (w : State) (now sendStart : Int) (script : List (Int × Int))
    (hwin : ¬ elapsedU32 now w._previousMillis < toU32 w._beaconInterval) :
    sameLink w (run w now sendStart script).state := by
  unfold run
  rw [if_neg hwin]
  split
  · exact sameLink_refl w
  · split
    · exact sameLink_refl w
    · rename_i data hdata
      dsimp only
      split
      · exact ⟨rfl, rfl⟩
      · rename_i w1 r hs
        have h1 := sendData_sameLink _ _ _ _ _ _ _ _ hs
        have h2 := watchdogCheck_sameLink { w1 with _previousMillis := toLong now } now
        exact ⟨h2.1.trans h1.1, h2.2.trans h1.2⟩
      · rename_i w1 r hs
        have h1 := sendData_sameLink _ _ _ _ _ _ _ _ hs
        have h2 := watchdogCheck_sameLink w1 now
        exact ⟨h2.1.trans h1.1, h2.2.trans h1.2⟩

/-- The part of `run` taken within the interval ends in the state in which
the receive loop ends, up to the count of watchdog pulses. -/
theorem run_within_state (w : State) (now sendStart : Int) (script : List (Int × Int))
    (hwin : elapsedU32 now w._previousMillis < toU32 w._beaconInterval) :
    ∃ n, (run w now sendStart script).state
      = { (rxLoop w.rx.length w).state with wdtResets := n } := by
  unfold run
  rw [if_pos hwin]
  cases hr : rxLoop w.rx.length w with
  | returned w1 =>
    dsimp only
    obtain ⟨n, h⟩ := watchdogCheck_state w1 now
    exact ⟨n, by rw [h]; rfl⟩
  | hung w1 => exact ⟨w1.wdtResets, rfl⟩
  | undefined f w1 => exact ⟨w1.wdtResets, rfl⟩
  | blocked w1 => exact ⟨w1.wdtResets, rfl⟩

/-- The link flag after `run`: set when one of the lines classified is
`Link`, otherwise as before. -/
theorem run_connected (w : State) (now sendStart : Int) (script : List (Int × Int)) :
    (run w now sendStart script).state._connected
      = (w._connected || decide (textLink ∈ runLines w now)) := by
  unfold runLines
  by_cases hwin : elapsedU32 now w._previousMillis < toU32 w._beaconInterval
  · obtain ⟨n, h⟩ := run_within_state w now sendStart script hwin
    rw [h, if_pos hwin]
    exact rxLoop_connected w.rx.length w
  · rw [(run_elapsed_sameLink w now sendStart script hwin).1, if_neg hwin]
    simp

/-- The send guard after `run` is as before. -/
theorem run_sendingData (w : State) (now sendStart : Int) (script : List (Int × Int)) :
    (run w now sendStart script).state._sendingData = w._sendingData := by
  by_cases hwin : elapsedU32 now w._previousMillis < toU32 w._beaconInterval
  · obtain ⟨n, h⟩ := run_within_state w now sendStart script hwin
    rw [h]
    exact rxLoop_sendingData w.rx.length w
  · exact (run_elapsed_sameLink w now sendStart script hwin).2

/-- C14.  The link flag is sticky.  The session functions `initializeWifi`,
`connectWifi`, `startServer`, `startClient`, `closeConnection`,
`enableBeacon`, `disableBeacon`, `sendData` and `send` end with `_connected`
as they found it.  `processWifiMessage` and `run` end with `_connected` set
when it was set before or when a line classified is exactly `Link`, and
unchanged otherwise.  So a flag that is `true` stays `true`, and it turns from
`false` to `true` only at a line `Link`. -/
theorem C14_link_sticky :
    (∀ (w : State) (dcb ccb : Bool) (wait1 wait2 : Wait),
      (initializeWifi w dcb ccb wait1 wait2).state._connected = w._connected) ∧
    (∀ (w : State) (ssid password : List Nat) (wait1 wait2 : Wait) (arrived : List Nat)
        (dots0 : Int),
      (connectWifi w ssid password wait1 wait2 arrived dots0).state._connected = w._connected) ∧
    (∀ (w : State) (port timeout : Int) (wait1 wait2 : Wait),
      (startServer w port timeout wait1 wait2).state._connected = w._connected) ∧
    (∀ (w : State) (ip : List Nat) (port timeout : Int) (wait : Wait),
      (startClient w ip port timeout wait).state._connected = w._connected) ∧
    (∀ (w : State) (wait : Wait), (closeConnection w wait).state._connected = w._connected) ∧
    (∀ (w : State) (device : Option (List Nat)) (wait : Wait),
      (enableBeacon w device wait).state._connected = w._connected) ∧
    (∀ w : State, (disableBeacon w)._connected = w._connected) ∧
    (∀ (w w1 : State) (chan : Int) (data : List Nat) (start : Int)
        (script rest : List (Int × Int)) (b : Bool),
      sendData w chan data start script = some (b, w1, rest) → w1._connected = w._connected) ∧
    (∀ (w w1 : State) (data : List Nat) (start : Int) (script rest : List (Int × Int)) (b : Bool),
      send w data start script = some (b, w1, rest) → w1._connected = w._connected) ∧
    (∀ w : State, (processWifiMessage w).state._connected
      = (w._connected || decide (cstr w._wb = textLink))) ∧
    (∀ (w : State) (now sendStart : Int) (script : List (Int × Int)),
      (run w now sendStart script).state._connected
        = (w._connected || decide (textLink ∈ runLines w now))) :=
  ⟨fun w dcb ccb wait1 wait2 => (initializeWifi_sameLink w dcb ccb wait1 wait2).1,
   fun w ssid password wait1 wait2 arrived dots0 =>
     (connectWifi_sameLink w ssid password wait1 wait2 arrived dots0).1,
   fun w port timeout wait1 wait2 => (startServer_sameLink w port timeout wait1 wait2).1,
   fun w ip port timeout wait => (startClient_sameLink w ip port timeout wait).1,
   fun w wait => (closeConnection_sameLink w wait).1,
   fun w device wait => (enableBeacon_sameLink w device wait).1,
   fun _ => rfl,
   fun w w1 chan data start script rest b h =>
     (sendData_sameLink w w1 chan data start script rest b h).1,
   fun w w1 data start script rest b h => (sendData_sameLink w w1 _ data start script rest b h).1,
   processWifiMessage_connected,
   run_connected⟩

set_option maxRecDepth 8000 in
/-- C14, instances: a `Link` line sets the flag in `run`, and a server start
that fails leaves it alone. -/
theorem C14_link_sticky_witness :
    (run { construct 1 9600 0 with rx := [76, 105, 110, 107, 13, 10] } 100 100 []).state._connected
      = true ∧
    (startServer (construct 1 9600 0) 8000 180 (0, [(-1, 5000)]) (0, [])).state._connected
      = false :=
  ⟨C14_link_sticky.2.2.2.2.2.2.2.2.2.2
      { construct 1 9600 0 with rx := [76, 105, 110, 107, 13, 10] } 100 100 [],
   C14_link_sticky.2.2.1 (construct 1 9600 0) 8000 180 (0, [(-1, 5000)]) (0, [])⟩

/-! ## C18: the send guard -/

/-- C18.  With no send in flight, `sendData` returns once the wait for
`SEND OK` has ended, whether the reply was matched or the wait timed out,
and on return `_sendingData` is `false` again; the same holds for `send`.
No other driver function touches the guard, so it is `false` in the state in
which each of them ends: `_sendingData = false` holds between top-level
calls. -/
theorem C18_guard_released (w : State) (chan : Int) (data : List Nat) (start : Int)
    (script : List (Int × Int)) (h : w._sendingData = false)
    (hwin : closesAtEnd 10000 start script) :
    (∃ b w1 rest, sendData w chan data start script = some (b, w1, rest) ∧
      w1._sendingData = false) ∧
    (∃ b w1 rest, send w data start script = some (b, w1, rest) ∧ w1._sendingData = false) ∧
    (∀ (now sendStart : Int) (sc : List (Int × Int)),
      (run w now sendStart sc).state._sendingData = false) ∧
    (processWifiMessage w).state._sendingData = false ∧
    (∀ (dcb ccb : Bool) (wait1 wait2 : Wait),
      (initializeWifi w dcb ccb wait1 wait2).state._sendingData = false) ∧
    (∀ (ssid password : List Nat) (wait1 wait2 : Wait) (arrived : List Nat) (dots0 : Int),
      (connectWifi w ssid password wait1 wait2 arrived dots0).state._sendingData = false) ∧
    (∀ (port timeout : Int) (wait1 wait2 : Wait),
      (startServer w port timeout wait1 wait2).state._sendingData = false) ∧
    (∀ (ip : List Nat) (port timeout : Int) (wait : Wait),
      (startClient w ip port timeout wait).state._sendingData = false) ∧
    (∀ wait : Wait, (closeConnection w wait).state._sendingData = false) ∧
    (∀ (device : Option (List Nat)) (wait : Wait),
      (enableBeacon w device wait).state._sendingData = false) ∧
    (disableBeacon w)._sendingData = false := by
  obtain ⟨b, rest, hs⟩ := searchLoop_total textSendOK 10000 start script 0 hwin
  refine ⟨⟨b, _, rest, sendData_free w chan data start script rest b h hs, rfl⟩,
    ⟨b, _, rest, sendData_free w _ data start script rest b h hs, rfl⟩, ?_, ?_, ?_, ?_, ?_, ?_,
    ?_, ?_, h⟩
  · intro now sendStart sc
    rw [run_sendingData, h]
  · obtain ⟨conn, chan', rx, evs, hp⟩ := processWifiMessage_state w
    rw [hp]
    exact h
  · intro dcb ccb wait1 wait2
    rw [(initializeWifi_sameLink w dcb ccb wait1 wait2).2, h]
  · intro ssid password wait1 wait2 arrived dots0
    rw [(connectWifi_sameLink w ssid password wait1 wait2 arrived dots0).2, h]
  · intro port timeout wait1 wait2
    rw [(startServer_sameLink w port timeout wait1 wait2).2, h]
  · intro ip port timeout wait
    rw [(startClient_sameLink w ip port timeout wait).2, h]
  · intro wait
    rw [(closeConnection_sameLink w wait).2, h]
  · intro device wait
    rw [(enableBeacon_sameLink w device wait).2, h]

/-- C18, an instance: a send whose wait times out on a silent link. -/
theorem C18_guard_released_witness :
    ∃ b w1 rest, sendData (construct 1 9600 0) 3 [104, 105] 0 [(-1, 10000)] = some (b, w1, rest) ∧
      w1._sendingData = false :=
  (C18_guard_released (construct 1 9600 0) 3 [104, 105] 0 [(-1, 10000)] rfl
    (by simp [closesAtEnd, elapsedU32, toU32])).1

/-! ## C13, C17: the beacon -/

/-- The beacon branch of `run`, once the beacon text is built. -/
theorem run_beacon (w : State) (now sendStart : Int) (script : List (Int × Int))
    (data : List Nat) (hb : w._beacon = true)
    (hel : ¬ elapsedU32 now w._previousMillis < toU32 w._beaconInterval)
    (hmsg : beaconMessage w = .ok data) :
    run w now sendStart script =
      match sendData { w with beaconSends := w.beaconSends ++ [(BCN_CHAN, data)] }
          BCN_CHAN data sendStart script with
      | none => .blocked { w with beaconSends := w.beaconSends ++ [(BCN_CHAN, data)] }
      | some (true, w1, _) => watchdogCheck { w1 with _previousMillis := toLong now } now
      | some (false, w1, _) => watchdogCheck w1 now := by
  unfold run
  rw [if_neg hel, if_neg (by simp [hb]), hmsg]

/-- The function `sendData` returns on every script that covers its wait. -/
theorem sendData_total (w : State) (chan : Int) (data : List Nat) (start : Int)
    (script : List (Int × Int)) (hwin : closesAtEnd 10000 start script) :
    ∃ b w1 rest, sendData w chan data start script = some (b, w1, rest) := by
  cases hsd : w._sendingData with
  | true => exact ⟨false, w, script, by simp [sendData, hsd]⟩
  | false =>
    obtain ⟨b, rest, hs⟩ := searchLoop_total textSendOK 10000 start script 0 hwin
    exact ⟨b, _, rest, sendData_free w chan data start script rest b hsd hs⟩

/-- C17.  In a call of `run` at time `now` with beaconing enabled and the
interval elapsed, the beacon `sendData` returns; if it succeeds,
`_previousMillis` becomes `now` (stored in a `long`: the same 32 bits, and
`now` itself below `2^31`); if it fails, `_previousMillis` is unchanged; in
both cases `_beacon`, `_beaconInterval`, `_device`, `_ipaddress` and `_port`
keep their values. -/
theorem C17_timestamp_on_success (w : State) (now sendStart : Int) (script : List (Int × Int))
    (data : List Nat) (hb : w._beacon = true)
    (hel : ¬ elapsedU32 now w._previousMillis < toU32 w._beaconInterval)
    (hmsg : beaconMessage w = .ok data) (hwin : closesAtEnd 10000 sendStart script) :
    ∃ b w1 rest,
      sendData { w with beaconSends := w.beaconSends ++ [(BCN_CHAN, data)] }
        BCN_CHAN data sendStart script = some (b, w1, rest) ∧
      (run w now sendStart script).state._previousMillis
        = (if b = true then toLong now else w._previousMillis) ∧
      toU32 (toLong now) = toU32 now ∧
      (0 ≤ now → now < 2147483648 → toLong now = now) ∧
      (run w now sendStart script).state._beacon = w._beacon ∧
      (run w now sendStart script).state._beaconInterval = w._beaconInterval ∧
      (run w now sendStart script).state._device = w._device ∧
      (run w now sendStart script).state._ipaddress = w._ipaddress ∧
      (run w now sendStart script).state._port = w._port := by
  obtain ⟨b, w1, rest, hs⟩ := sendData_total
    { w with beaconSends := w.beaconSends ++ [(BCN_CHAN, data)] } BCN_CHAN data sendStart script hwin
  obtain ⟨sd, rx, tx, hw1⟩ := sendData_state _ _ _ _ _ _ _ _ hs
  have hrun := run_beacon w now sendStart script data hb hel hmsg
  rw [hs] at hrun
  refine ⟨b, w1, rest, hs, ?_, ?_, ?_, ?_⟩
  · cases b with
    | true =>
      dsimp only at hrun
      obtain ⟨n, hn⟩ := watchdogCheck_state { w1 with _previousMillis := toLong now } now
      rw [hrun, hn]
      rfl
    | false =>
      dsimp only at hrun
      obtain ⟨n, hn⟩ := watchdogCheck_state w1 now
      rw [hrun, hn, hw1]
      rfl
  · unfold toU32 toLong
    omega
  · intro h0 h1
    unfold toLong
    omega
  · cases b with
    | true =>
      dsimp only at hrun
      obtain ⟨n, hn⟩ := watchdogCheck_state { w1 with _previousMillis := toLong now } now
      rw [hrun, hn, hw1]
      exact ⟨rfl, rfl, rfl, rfl, rfl⟩
    | false =>
      dsimp only at hrun
      obtain ⟨n, hn⟩ := watchdogCheck_state w1 now
      rw [hrun, hn, hw1]
      exact ⟨rfl, rfl, rfl, rfl, rfl⟩

set_option maxRecDepth 8000 in
/-- C17, an instance: a beacon at 7000 ms that the module confirms with
`SEND OK`. -/
theorem C17_timestamp_on_success_witness :
    ∃ b : Bool,
      (run { construct 1 9600 0 with _beacon := true } 7000 7000
        [(83, 7001), (69, 7002), (78, 7003), (68, 7004), (32, 7005), (79, 7006), (75, 7007),
         (10, 20000)]).state._previousMillis = (if b = true then toLong 7000 else 0) ∧
      (run { construct 1 9600 0 with _beacon := true } 7000 7000
        [(83, 7001), (69, 7002), (78, 7003), (68, 7004), (32, 7005), (79, 7006), (75, 7007),
         (10, 20000)]).state._port = 8000 := by
  obtain ⟨b, w1, rest, -, hp, -, -, -, -, -, -, hport⟩ := C17_timestamp_on_success
    { construct 1 9600 0 with _beacon := true } 7000 7000
    [(83, 7001), (69, 7002), (78, 7003), (68, 7004), (32, 7005), (79, 7006), (75, 7007), (10, 20000)]
    (bytes ("\x7b\"event\": \"beacon\", \"ip\": \"\", \"port\": 8000, \"device\": \"\"\x7d\r\n"))
    rfl (by decide) (by rfl) (by simp [closesAtEnd, elapsedU32, toU32])
  exact ⟨b, hp, hport⟩

theorem decimal_length_le (k : Nat) :
    ∀ n : Nat, n < 10 ^ (k + 1) → (decimal n).length ≤ k + 1 := by
  induction k with
  | zero =>
    intro n hn
    rw [decimal_lt_ten n (by simpa using hn)]
    simp
  | succ k ih =>
    intro n hn
    by_cases h10 : n < 10
    · rw [decimal_lt_ten n h10]
      simp
    · rw [decimal_ge_ten n (by omega)]
      have hdiv : n / 10 < 10 ^ (k + 1) := by
        rw [Nat.div_lt_iff_lt_mul (by decide)]
        rw [pow_succ] at hn
        exact hn
      have := ih (n / 10) hdiv
      simp
      omega

/-- The strings `_ipaddress` and `_device` as C strings, when each array
holds its text followed by a NUL. -/
theorem strlen_of_terminated (s junk : List Nat) (h : 0 ∉ s) :
    cstr (s ++ [0] ++ junk) = s ∧ strlen? (s ++ [0] ++ junk) = some s.length := by
  have hc : cstr (s ++ [0] ++ junk) = s := by
    rw [List.append_assoc]
    exact cstr_append_zero s junk (fun x hx h0 => h (h0 ▸ hx))
  refine ⟨hc, ?_⟩
  unfold strlen?
  rw [hc]
  simp

/-- C13.  With beaconing enabled and the interval elapsed, for every IP text
`ip`, every port from 0 to 32767 and every device name `dev` whose message
fits the 255-byte buffer, the payload that `run` builds and passes to
`sendData` on the beacon channel 2 is exactly
`{"event": "beacon", "ip": "<ip>", "port": <port>, "device": "<dev>"}`
followed by CR LF, with the port in decimal. -/
theorem C13_beacon_payload (w : State) (now sendStart : Int) (script : List (Int × Int))
    (ip dev junk1 junk2 : List Nat) (port : Nat)
    (hb : w._beacon = true)
    (hel : ¬ elapsedU32 now w._previousMillis < toU32 w._beaconInterval)
    (hip : w._ipaddress = ip ++ [0] ++ junk1) (hip0 : 0 ∉ ip)
    (hdev : w._device = dev ++ [0] ++ junk2) (hdev0 : 0 ∉ dev)
    (hport : w._port = port) (hrange : port ≤ 32767)
    (hfit : (bytes ("\x7b\"event\": \"beacon\", \"ip\": \"") ++ ip ++ bytes ("\", \"port\": ")
        ++ decimal port ++ bytes (", \"device\": \"") ++ dev ++ bytes ("\"\x7d\r\n")).length + 1
      ≤ 255) :
    (run w now sendStart script).state.beaconSends = w.beaconSends ++
      [(2, bytes ("\x7b\"event\": \"beacon\", \"ip\": \"") ++ ip ++ bytes ("\", \"port\": ")
        ++ decimal port ++ bytes (", \"device\": \"") ++ dev ++ bytes ("\"\x7d\r\n"))] := by
  have hmsg : beaconMessage w = .ok
      (bytes ("\x7b\"event\": \"beacon\", \"ip\": \"") ++ ip ++ bytes ("\", \"port\": ")
        ++ decimal port ++ bytes (", \"device\": \"") ++ dev ++ bytes ("\"\x7d\r\n")) := by
    have hp : decimalInt w._port = decimal port := by
      rw [hport]
      unfold decimalInt
      rw [if_neg (by omega)]
      simp
    have hpl : (decimal port).length ≤ 5 := decimal_length_le 4 port (by norm_num; omega)
    obtain ⟨hc1, hs1⟩ := strlen_of_terminated ip junk1 hip0
    obtain ⟨hc2, hs2⟩ := strlen_of_terminated dev junk2 hdev0
    unfold beaconMessage
    dsimp only
    rw [hp, if_neg (by omega), hip, hdev, hs1, hs2]
    dsimp only
    rw [hc1, hc2, if_neg (by omega)]
  have hrun := run_beacon w now sendStart script _ hb hel hmsg
  rw [hrun]
  cases hs : sendData { w with beaconSends := w.beaconSends ++ [(BCN_CHAN,
      bytes ("\x7b\"event\": \"beacon\", \"ip\": \"") ++ ip ++ bytes ("\", \"port\": ")
        ++ decimal port ++ bytes (", \"device\": \"") ++ dev ++ bytes ("\"\x7d\r\n"))] }
      BCN_CHAN
      (bytes ("\x7b\"event\": \"beacon\", \"ip\": \"") ++ ip ++ bytes ("\", \"port\": ")
        ++ decimal port ++ bytes (", \"device\": \"") ++ dev ++ bytes ("\"\x7d\r\n"))
      sendStart script with
  | none => rfl
  | some r =>
    obtain ⟨b, w1, rest⟩ := r
    obtain ⟨sd, rx, tx, hw1⟩ := sendData_state _ _ _ _ _ _ _ _ hs
    cases b with
    | true =>
      dsimp only
      obtain ⟨n, hn⟩ := watchdogCheck_state { w1 with _previousMillis := toLong now } now
      rw [hn, hw1]
      rfl
    | false =>
      dsimp only
      obtain ⟨n, hn⟩ := watchdogCheck_state w1 now
      rw [hn, hw1]
      rfl

set_option maxRecDepth 8000 in
/-- C13, an instance: address `192.168.1.42`, port 8000, device `lamp`. -/
theorem C13_beacon_payload_witness :
    (run { construct 1 9600 0 with
        _beacon := true, _ipaddress := bytes ("192.168.1.42") ++ [0] ++ [0, 0, 0],
        _device := bytes ("lamp") ++ [0] ++ List.replicate 43 0 } 7000 7000 []).state.beaconSends
      = [(2, bytes
          ("\x7b\"event\": \"beacon\", \"ip\": \"192.168.1.42\", \"port\": 8000, \"device\": \"lamp\"\x7d\r\n"))] :=
  C13_beacon_payload { construct 1 9600 0 with
      _beacon := true, _ipaddress := bytes ("192.168.1.42") ++ [0] ++ [0, 0, 0],
      _device := bytes ("lamp") ++ [0] ++ List.replicate 43 0 } 7000 7000 []
    (bytes ("192.168.1.42")) (bytes ("lamp")) [0, 0, 0] (List.replicate 43 0) 8000
    rfl (by decide) rfl (by decide) rfl (by decide) rfl (by decide) (by decide)

/-! ## C15: the address query -/

set_option maxRecDepth 8000 in
/-- C15, evaluation at the failing input.  The reply `192.168.1.42` CR LF is
one line with exactly three dots.  When the local `dots`, which `getIP` never
initialises, holds 0 on entry, the line is stored in `_ipaddress` and `getIP`
returns `true`; when it holds 1, the count at the line feed is 4, `getIP`
returns `false` and `_ipaddress` keeps its old content.  When the reply begins
with the echo line `AT+CIFSR` and `dots` holds 3 on entry, that line, which
has no dot, is stored as the address, and the address line that follows is
then written past the end of `buf`. -/
theorem C15_uninitialised_dots :
    getIP (construct 1 9600 0) (bytes ("192.168.1.42\r\n")) 0
      = .done true { construct 1 9600 0 with
          tx := bytes ("AT+CIFSR\r\n"), _ipaddress := bytes ("192.168.1.42") ++ [0, 0, 0, 0] } ∧
    getIP (construct 1 9600 0) (bytes ("192.168.1.42\r\n")) 1
      = .done false { construct 1 9600 0 with tx := bytes ("AT+CIFSR\r\n") } ∧
    getIP (construct 1 9600 0) (bytes ("AT+CIFSR\r\n192.168.1.42\r\n")) 3
      = .undefined .arrayOverflow { construct 1 9600 0 with
          tx := bytes ("AT+CIFSR\r\n"),
          _ipaddress := bytes ("AT+CIFSR") ++ [0, 0, 0, 0, 0, 0, 0, 0] } := by
  refine ⟨?_, ?_, ?_⟩ <;> rfl

/-! ## C16: which lines are classified -/

/-- A call of `processWifiMessage` that returns leaves the line buffer, its
index and the data callback alone; the waiting input is kept, or dropped
right before a payload is handed to the registered data callback. -/
theorem processWifiMessage_returned (w w1 : State) (h : processWifiMessage w = .returned w1) :
    w1._wb = w._wb ∧ w1._wctr = w._wctr ∧ w1._dcb = w._dcb ∧
    (w1.rx = w.rx ∨
      (w._dcb = true ∧ w1.rx = [] ∧ ∃ p, w1.events = w.events ++ [Event.data p])) := by
  unfold processWifiMessage at h
  split at h
  · dsimp only at h
    split at h
    · rw [← Outcome.returned.inj h]
      exact ⟨rfl, rfl, rfl, Or.inl rfl⟩
    · rw [← Outcome.returned.inj h]
      exact ⟨rfl, rfl, rfl, Or.inl rfl⟩
  · split at h
    · split at h
      · simp at h
      · split at h
        · simp at h
        · split at h
          · dsimp only at h
            split at h
            · simp at h
            · split at h
              · rename_i hd
                rw [← Outcome.returned.inj h]
                exact ⟨rfl, rfl, rfl, Or.inr ⟨hd, rfl, _, rfl⟩⟩
              · rw [← Outcome.returned.inj h]
                exact ⟨rfl, rfl, rfl, Or.inl rfl⟩
          · rw [← Outcome.returned.inj h]
            exact ⟨rfl, rfl, rfl, Or.inl rfl⟩
    · rw [← Outcome.returned.inj h]
      exact ⟨rfl, rfl, rfl, Or.inl rfl⟩

/-- The C string in a buffer that holds a NUL right after the bytes `a`. -/
theorem cstr_append_cut (a b : List Nat) : cstr (a ++ 0 :: b) = cstr a := by
  unfold cstr
  induction a with
  | nil => simp
  | cons x a ih =>
    by_cases hx : x = 0
    · simp [List.takeWhile_cons, hx]
    · simp only [List.cons_append, List.takeWhile_cons, hx, ne_eq, not_false_eq_true,
        decide_True, if_true]
      rw [ih]

/-- The line terminated in `_wb` at index `_wctr` is the one stored so far. -/
theorem cstr_set_terminator (wb : List Nat) (k : Nat) (hk : k < wb.length) :
    cstr (wb.set k 0) = cstr (wb.take k) := by
  rw [List.set_eq_take_append_cons_drop, if_pos hk]
  exact cstr_append_cut _ _

theorem take_set_succ (wb : List Nat) (k v : Nat) (hk : k < wb.length) :
    (wb.set k v).take (k + 1) = wb.take k ++ [v] := by
  rw [List.set_eq_take_append_cons_drop, if_pos hk, List.take_append_eq_append_take]
  simp [List.length_take, Nat.min_eq_left (Nat.le_of_lt hk)]

theorem rxLoop_nil (fuel : Nat) (w : State) (h : w.rx = []) :
    rxLoop fuel w = .returned w ∧ rxLines fuel w = [] := by
  cases fuel with
  | zero => exact ⟨rfl, rfl⟩
  | succ fuel =>
    constructor
    · rw [rxLoop, h]
    · rw [rxLines, h]

theorem lineInvariant_index (w : State) (h : lineInvariant w) : w._wctr ≤ 254 := by
  have hk := h.2.1 [] List.nil_prefix (by simp)
  simpa [stored] using hk

theorem lineInvariant_cr (w : State) (rest : List Nat) (h : lineInvariant w)
    (hrx : w.rx = 13 :: rest) : lineInvariant { w with rx := rest } := by
  obtain ⟨hlen, hpre, hfit⟩ := h
  rw [hrx] at hpre hfit
  refine ⟨hlen, ?_, linesFit_tail 13 rest hfit⟩
  intro seg hseg hno
  have := hpre (13 :: seg) ((List.prefix_cons_inj 13).mpr hseg) (by simp [hno])
  rwa [stored_cons_cr] at this

theorem lineInvariant_store (w : State) (v : Nat) (rest : List Nat) (h : lineInvariant w)
    (hrx : w.rx = v :: rest) (h10 : v ≠ 10) (h13 : v ≠ 13) :
    w._wctr < 254 ∧
    lineInvariant { w with rx := rest, _wb := w._wb.set w._wctr v, _wctr := w._wctr + 1 } := by
  obtain ⟨hlen, hpre, hfit⟩ := h
  rw [hrx] at hpre hfit
  have hk1 := hpre [v] (by simp) (by simp; exact fun e => h10 e.symm)
  rw [stored_cons v [] h13] at hk1
  simp only [stored, List.filter_nil, List.length_nil] at hk1
  refine ⟨by omega, by simp [hlen], ?_, linesFit_tail v rest hfit⟩
  intro seg hseg hno
  have := hpre (v :: seg) ((List.prefix_cons_inj v).mpr hseg)
    (by simp [hno]; exact fun e => h10 e.symm)
  rw [stored_cons v seg h13] at this
  simp only
  omega

theorem lineInvariant_lf (w w1 : State) (rest : List Nat) (h : lineInvariant w)
    (hrx : w.rx = 10 :: rest) (hwb : w1._wb = w._wb.set w._wctr 0) (hk : w1._wctr = 0)
    (hr : w1.rx = rest ∨ w1.rx = []) : lineInvariant w1 := by
  obtain ⟨hlen, hpre, hfit⟩ := h
  rw [hrx] at hfit
  have hfit' : linesFit w1.rx := by
    rcases hr with h | h
    · rw [h]; exact linesFit_tail 10 rest hfit
    · rw [h]; exact linesFit_nil
  refine ⟨by rw [hwb]; simp [hlen], ?_, hfit'⟩
  intro seg hseg hno
  rw [hk, Nat.zero_add]
  exact hfit' seg hseg.isInfix hno

/-- The lines that the receive loop classifies are the first terminated lines
of the input, in order and once each; when the loop returns, no input is
left, and it has classified every terminated line unless the last
classification handed a payload to the registered data callback. -/
theorem rxLines_prefix (fuel : Nat) :
    ∀ w : State, lineInvariant w → w.rx.length ≤ fuel →
      rxLines fuel w <+: (linesOf (w._wb.take w._wctr) w.rx).map cstr ∧
      (∀ w1, rxLoop fuel w = .returned w1 →
        w1.rx = [] ∧
        (rxLines fuel w = (linesOf (w._wb.take w._wctr) w.rx).map cstr ∨
          (w._dcb = true ∧ ∃ p, w1.events.getLast? = some (Event.data p)))) := by
  induction fuel with
  | zero =>
    intro w _ hl
    have hrx : w.rx = [] := List.length_eq_zero.mp (Nat.le_zero.mp hl)
    refine ⟨by simp [rxLines], ?_⟩
    intro w1 h
    have : w = w1 := by simpa [rxLoop] using h
    subst this
    exact ⟨hrx, Or.inl (by simp [rxLines, hrx, linesOf])⟩
  | succ fuel ih =>
    intro w hinv hl
    have hk := lineInvariant_index w hinv
    have hlen : w._wb.length = BUFFER_SIZE := hinv.1
    cases hrx : w.rx with
    | nil =>
      obtain ⟨h1, h2⟩ := rxLoop_nil (fuel + 1) w hrx
      rw [h1, h2]
      refine ⟨by simp, ?_⟩
      intro w1 h
      have : w = w1 := Outcome.returned.inj h
      subst this
      exact ⟨hrx, Or.inl (by simp [linesOf])⟩
    | cons v rest =>
      have hl' : rest.length ≤ fuel := by
        rw [hrx] at hl
        simpa using hl
      by_cases h10 : v = 10
      · subst h10
        have hkb : w._wctr < BUFFER_SIZE := by unfold BUFFER_SIZE; omega
        have hline : cstr (w._wb.set w._wctr 0) = cstr (w._wb.take w._wctr) :=
          cstr_set_terminator w._wb w._wctr (by rw [hlen]; exact hkb)
        have hloop : rxLoop (fuel + 1) w =
            match processWifiMessage { w with rx := rest, _wb := w._wb.set w._wctr 0, _wctr := 0 } with
            | .returned w1 => rxLoop fuel w1
            | other => other := by
          rw [rxLoop, hrx]
          simp only [if_true, hkb]
        have hlines : rxLines (fuel + 1) w = cstr (w._wb.take w._wctr) ::
            (match processWifiMessage { w with rx := rest, _wb := w._wb.set w._wctr 0, _wctr := 0 } with
             | .returned w1 => rxLines fuel w1
             | _ => []) := by
          rw [rxLines, hrx]
          simp only [if_true, hkb]
          rw [hline]
        have hall : (linesOf (w._wb.take w._wctr) (10 :: rest)).map cstr
            = cstr (w._wb.take w._wctr) :: (linesOf [] rest).map cstr := by
          simp [linesOf]
        rw [hloop, hlines, hall]
        cases hp : processWifiMessage
            { w with rx := rest, _wb := w._wb.set w._wctr 0, _wctr := 0 } with
        | returned w1 =>
          obtain ⟨hwb1, hk1, hd1, hr1⟩ := processWifiMessage_returned _ _ hp
          dsimp only at hwb1 hk1 hd1 hr1 ⊢
          rcases hr1 with hkeep | ⟨hdcb, hdrop, p, hev⟩
          · have hinv1 : lineInvariant w1 :=
              lineInvariant_lf w w1 rest hinv hrx hwb1 hk1 (Or.inl hkeep)
            obtain ⟨i1, i2⟩ := ih w1 hinv1 (by rw [hkeep]; exact hl')
            rw [hk1, hkeep, List.take_zero] at i1 i2
            refine ⟨(List.prefix_cons_inj _).mpr i1, ?_⟩
            intro w2 h2
            obtain ⟨j1, j2⟩ := i2 w2 h2
            refine ⟨j1, ?_⟩
            rcases j2 with j | j
            · exact Or.inl (by rw [j])
            · exact Or.inr (by rw [← hd1]; exact j)
          · obtain ⟨e1, e2⟩ := rxLoop_nil fuel w1 hdrop
            rw [e1, e2]
            refine ⟨(List.prefix_cons_inj _).mpr List.nil_prefix, ?_⟩
            intro w2 h2
            have : w1 = w2 := Outcome.returned.inj h2
            subst this
            exact ⟨hdrop, Or.inr ⟨hdcb, p, by rw [hev]; simp⟩⟩
        | hung w1 =>
          exact ⟨(List.prefix_cons_inj _).mpr List.nil_prefix, fun w2 h2 => by simp at h2⟩
        | undefined f w1 =>
          exact ⟨(List.prefix_cons_inj _).mpr List.nil_prefix, fun w2 h2 => by simp at h2⟩
        | blocked w1 =>
          exact ⟨(List.prefix_cons_inj _).mpr List.nil_prefix, fun w2 h2 => by simp at h2⟩
      · by_cases h13 : v = 13
        · subst h13
          have hinv0 := lineInvariant_cr w rest hinv hrx
          obtain ⟨i1, i2⟩ := ih _ hinv0 hl'
          have hlines : rxLines (fuel + 1) w = rxLines fuel { w with rx := rest } := by
            rw [rxLines, hrx]
            simp
          have hall : linesOf (w._wb.take w._wctr) (13 :: rest)
              = linesOf (w._wb.take w._wctr) rest := by
            simp [linesOf]
          rw [rxLoop_cr fuel w rest hrx, hlines, hall]
          exact ⟨i1, i2⟩
        · obtain ⟨hk254, hinv0⟩ := lineInvariant_store w v rest hinv hrx h10 h13
          have hkb : w._wctr < BUFFER_SIZE := by unfold BUFFER_SIZE; omega
          obtain ⟨i1, i2⟩ := ih _ hinv0 hl'
          dsimp only at i1 i2
          rw [take_set_succ w._wb w._wctr v (by rw [hlen]; exact hkb)] at i1 i2
          have hlines : rxLines (fuel + 1) w = rxLines fuel
              { w with rx := rest, _wb := w._wb.set w._wctr v, _wctr := w._wctr + 1 } := by
            rw [rxLines, hrx]
            simp only [h10, h13, if_false, hkb, if_true]
          have hall : linesOf (w._wb.take w._wctr) (v :: rest)
              = linesOf (w._wb.take w._wctr ++ [v]) rest := by
            simp [linesOf, h10, h13]
          rw [rxLoop_store fuel w v rest hrx h10 h13 hkb, hlines, hall]
          exact ⟨i1, i2⟩

set_option maxRecDepth 8000 in
/-- C16, counterexample.  The specification says that every line waiting is
classified, so that a data line followed by `Link` produces both events.  With
both callbacks registered and the two lines `+IPD,0,1:x` and `Link` waiting,
`run` classifies the first line only: `processWifiMessage` calls
`clearResults()` before it hands `x` to the data callback, which drops the
line `Link`; no connection event follows and `_connected` stays `false`. -/
theorem C16_line_after_data_dropped :
    linesOf [] (bytes ("+IPD,0,1:x\nLink\n")) = [bytes ("+IPD,0,1:x"), bytes ("Link")] ∧
    elapsedU32 100 (construct 1 9600 0)._previousMillis < toU32 (construct 1 9600 0)._beaconInterval ∧
    runLines { construct 1 9600 0 with
        _dcb := true, _ccb := true, rx := bytes ("+IPD,0,1:x\nLink\n") } 100
      = [bytes ("+IPD,0,1:x")] ∧
    run { construct 1 9600 0 with
        _dcb := true, _ccb := true, rx := bytes ("+IPD,0,1:x\nLink\n") } 100 100 []
      = .returned { construct 1 9600 0 with
          _dcb := true, _ccb := true, rx := [],
          _wb := bytes ("+IPD,0,1:x") ++ List.replicate 245 0,
          events := [Event.data (bytes ("x"))], _connected := false } := by
  refine ⟨by rfl, by decide, by rfl, by rfl⟩
/-! ## C10: the line buffer over successive calls -/

theorem linesFit_sub (a b : List Nat) (hab : a <:+: b) (h : linesFit b) : linesFit a :=
  fun seg hseg hno => h seg (hseg.trans hab) hno

/-- The invariant speaks of the line buffer, its index and the waiting input
only. -/
theorem lineInvariant_of_fields (a b : State) (hwb : b._wb = a._wb) (hk : b._wctr = a._wctr)
    (hrx : b.rx = a.rx) (h : lineInvariant a) : lineInvariant b := by
  unfold lineInvariant at h ⊢
  rw [hwb, hk, hrx]
  exact h

/-- From an empty line in progress the invariant asks no more than that
every line of the input fits. -/
theorem lineInvariant_of_start (w : State) (h0 : w._wctr = 0)
    (hlen : w._wb.length = BUFFER_SIZE) (hfit : linesFit w.rx) : lineInvariant w := by
  refine ⟨hlen, ?_, hfit⟩
  intro seg hseg hno
  rw [h0, Nat.zero_add]
  exact hfit seg hseg.isInfix hno

/-- The invariant for the input waiting and the input still to come holds
for the input waiting alone. -/
theorem lineInvariant_now (w : State) (F : List Nat) (h : lineInvariant (arrive w F)) :
    lineInvariant w := by
  obtain ⟨hlen, hpre, hfit⟩ := h
  refine ⟨hlen, ?_, ?_⟩
  · intro seg hseg hno
    exact hpre seg (hseg.trans (List.prefix_append w.rx F)) hno
  · exact linesFit_sub w.rx (w.rx ++ F) (List.prefix_append w.rx F).isInfix hfit

/-- After a line feed the invariant holds again for any part of the input
behind it. -/
theorem lineInvariant_after_lf (w w1 : State) (rest : List Nat) (h : lineInvariant w)
    (hrx : w.rx = 10 :: rest) (hwb : w1._wb = w._wb.set w._wctr 0) (hk : w1._wctr = 0)
    (hr : w1.rx <:+: rest) : lineInvariant w1 := by
  obtain ⟨hlen, _, hfit⟩ := h
  rw [hrx] at hfit
  exact lineInvariant_of_start w1 hk (by rw [hwb]; simp [hlen])
    (linesFit_sub w1.rx rest hr (linesFit_tail 10 rest hfit))

/-- One pass of the receive loop on a line feed. -/
theorem rxLoop_lf (fuel : Nat) (w : State) (r : List Nat) (hrx : w.rx = 10 :: r)
    (hk : w._wctr < BUFFER_SIZE) :
    rxLoop (fuel + 1) w =
      match processWifiMessage { w with rx := r, _wb := w._wb.set w._wctr 0, _wctr := 0 } with
      | .returned w1 => rxLoop fuel w1
      | other => other := by
  rw [rxLoop, hrx]
  simp only [if_true, hk]
  try rfl

/-- When the receive loop returns, no input is left waiting, and the
invariant holds for the state it leaves together with the input still to
come. -/
theorem rxLoop_future (fuel : Nat) :
    ∀ (w : State) (F : List Nat), lineInvariant (arrive w F) → w.rx.length ≤ fuel →
      ∀ w1, rxLoop fuel w = .returned w1 → w1.rx = [] ∧ lineInvariant (arrive w1 F) := by
  induction fuel with
  | zero =>
    intro w F hinv hl w1 h
    have hrx : w.rx = [] := List.length_eq_zero.mp (Nat.le_zero.mp hl)
    have : w = w1 := by simpa [rxLoop] using h
    subst this
    exact ⟨hrx, hinv⟩
  | succ fuel ih =>
    intro w F hinv hl w1 h
    cases hrx : w.rx with
    | nil =>
      rw [(rxLoop_nil (fuel + 1) w hrx).1] at h
      have : w = w1 := Outcome.returned.inj h
      subst this
      exact ⟨hrx, hinv⟩
    | cons v rest =>
      have hl' : rest.length ≤ fuel := by
        rw [hrx] at hl
        simpa using hl
      have hk := lineInvariant_index w (lineInvariant_now w F hinv)
      have hkb : w._wctr < BUFFER_SIZE := by unfold BUFFER_SIZE; omega
      have hrxF : (arrive w F).rx = v :: (rest ++ F) := by
        simp [arrive, hrx]
      by_cases h10 : v = 10
      · subst h10
        have hloop : rxLoop (fuel + 1) w =
            match processWifiMessage { w with rx := rest, _wb := w._wb.set w._wctr 0, _wctr := 0 } with
            | .returned w1 => rxLoop fuel w1
            | other => other := by
          rw [rxLoop, hrx]
          simp only [if_true, hkb]
          try rfl
        rw [hloop] at h
        cases hp : processWifiMessage
            { w with rx := rest, _wb := w._wb.set w._wctr 0, _wctr := 0 } with
        | returned w2 =>
          rw [hp] at h
          dsimp only at h
          obtain ⟨hwb2, hk2, _, hr2⟩ := processWifiMessage_returned _ _ hp
          dsimp only at hwb2 hk2 hr2
          have hsuf : (arrive w2 F).rx <:+: rest ++ F := by
            rcases hr2 with hkeep | ⟨_, hdrop, _⟩
            · simp [arrive, hkeep]
            · simp only [arrive, hdrop, List.nil_append]
              exact (List.suffix_append rest F).isInfix
          have hinv2 : lineInvariant (arrive w2 F) :=
            lineInvariant_after_lf (arrive w F) (arrive w2 F) (rest ++ F) hinv hrxF
              (by simp [arrive, hwb2]) (by simp [arrive, hk2]) hsuf
          have hl2 : w2.rx.length ≤ fuel := by
            rcases hr2 with hkeep | ⟨_, hdrop, _⟩
            · rw [hkeep]; exact hl'
            · rw [hdrop]; simp
          exact ih w2 F hinv2 hl2 w1 h
        | hung w2 => rw [hp] at h; simp at h
        | undefined f w2 => rw [hp] at h; simp at h
        | blocked w2 => rw [hp] at h; simp at h
      · by_cases h13 : v = 13
        · subst h13
          rw [rxLoop_cr fuel w rest hrx] at h
          have hinv0 := lineInvariant_cr (arrive w F) (rest ++ F) hinv hrxF
          exact ih { w with rx := rest } F hinv0 hl' w1 h
        · rw [rxLoop_store fuel w v rest hrx h10 h13 hkb] at h
          have hinv0 := (lineInvariant_store (arrive w F) v (rest ++ F) hinv hrxF h10 h13).2
          exact ih { w with rx := rest, _wb := w._wb.set w._wctr v, _wctr := w._wctr + 1 } F
            hinv0 hl' w1 h

/-- The line in progress when the receive loop returns: the one that the
line assembly of the whole input leaves, unless a classification handed a
payload to the registered data callback, which empties the buffer index and
drops the input behind that line. -/
theorem rxLoop_progress (fuel : Nat) :
    ∀ w : State, lineInvariant w → w.rx.length ≤ fuel →
      ∀ w1, rxLoop fuel w = .returned w1 →
        w1._wb.take w1._wctr = lineInProgress (w._wb.take w._wctr) w.rx ∨
        (w._dcb = true ∧ w1._wctr = 0 ∧ ∃ p, w1.events.getLast? = some (Event.data p)) := by
  induction fuel with
  | zero =>
    intro w _ hl w1 h
    have hrx : w.rx = [] := List.length_eq_zero.mp (Nat.le_zero.mp hl)
    have : w = w1 := by simpa [rxLoop] using h
    subst this
    exact Or.inl (by rw [hrx]; rfl)
  | succ fuel ih =>
    intro w hinv hl w1 h
    have hk := lineInvariant_index w hinv
    have hlen : w._wb.length = BUFFER_SIZE := hinv.1
    have hkb : w._wctr < BUFFER_SIZE := by unfold BUFFER_SIZE; omega
    cases hrx : w.rx with
    | nil =>
      rw [(rxLoop_nil (fuel + 1) w hrx).1] at h
      have : w = w1 := Outcome.returned.inj h
      subst this
      exact Or.inl rfl
    | cons v rest =>
      have hl' : rest.length ≤ fuel := by
        rw [hrx] at hl
        simpa using hl
      by_cases h10 : v = 10
      · subst h10
        have hloop : rxLoop (fuel + 1) w =
            match processWifiMessage { w with rx := rest, _wb := w._wb.set w._wctr 0, _wctr := 0 } with
            | .returned w1 => rxLoop fuel w1
            | other => other := by
          rw [rxLoop, hrx]
          simp only [if_true, hkb]
          try rfl
        have hall : lineInProgress (w._wb.take w._wctr) (10 :: rest) = lineInProgress [] rest := by
          simp [lineInProgress]
        rw [hloop] at h
        rw [hall]
        cases hp : processWifiMessage
            { w with rx := rest, _wb := w._wb.set w._wctr 0, _wctr := 0 } with
        | returned w2 =>
          rw [hp] at h
          dsimp only at h
          obtain ⟨hwb2, hk2, hd2, hr2⟩ := processWifiMessage_returned _ _ hp
          dsimp only at hwb2 hk2 hd2 hr2
          rcases hr2 with hkeep | ⟨hdcb, hdrop, p, hev⟩
          · have hinv2 : lineInvariant w2 :=
              lineInvariant_lf w w2 rest hinv hrx hwb2 hk2 (Or.inl hkeep)
            have := ih w2 hinv2 (by rw [hkeep]; exact hl') w1 h
            rw [hk2, hkeep, List.take_zero, hd2] at this
            exact this
          · rw [(rxLoop_nil fuel w2 hdrop).1] at h
            have : w2 = w1 := Outcome.returned.inj h
            subst this
            exact Or.inr ⟨hdcb, hk2, p, by rw [hev]; simp⟩
        | hung w2 => rw [hp] at h; simp at h
        | undefined f w2 => rw [hp] at h; simp at h
        | blocked w2 => rw [hp] at h; simp at h
      · by_cases h13 : v = 13
        · subst h13
          rw [rxLoop_cr fuel w rest hrx] at h
          have hall : lineInProgress (w._wb.take w._wctr) (13 :: rest)
              = lineInProgress (w._wb.take w._wctr) rest := by
            simp [lineInProgress]
          rw [hall]
          exact ih { w with rx := rest } (lineInvariant_cr w rest hinv hrx) hl' w1 h
        · rw [rxLoop_store fuel w v rest hrx h10 h13 hkb] at h
          have hall : lineInProgress (w._wb.take w._wctr) (v :: rest)
              = lineInProgress (w._wb.take w._wctr ++ [v]) rest := by
            simp [lineInProgress, h10, h13]
          rw [hall]
          have := ih { w with rx := rest, _wb := w._wb.set w._wctr v, _wctr := w._wctr + 1 }
            (lineInvariant_store w v rest hinv hrx h10 h13).2 hl' w1 h
          dsimp only at this
          rw [take_set_succ w._wb w._wctr v (by rw [hlen]; exact hkb)] at this
          exact this

/-- A call of `run` that sends no beacon and returns: the invariant holds for
the state it leaves together with the input still to come, and the beacon
settings are as before. -/
theorem run_quiet_step (u w1 : State) (F : List Nat) (now sendStart : Int)
    (script : List (Int × Int)) (hinv : lineInvariant (arrive u F))
    (hq : u._beacon = false ∨ elapsedU32 now u._previousMillis < toU32 u._beaconInterval)
    (h : run u now sendStart script = .returned w1) :
    lineInvariant (arrive w1 F) ∧ w1._beacon = u._beacon ∧
      w1._previousMillis = u._previousMillis ∧ w1._beaconInterval = u._beaconInterval := by
  by_cases hwin : elapsedU32 now u._previousMillis < toU32 u._beaconInterval
  · unfold run at h
    rw [if_pos hwin] at h
    cases hr : rxLoop u.rx.length u with
    | returned w2 =>
      rw [hr] at h
      dsimp only at h
      obtain ⟨hrx2, hinv2⟩ := rxLoop_future u.rx.length u F hinv (Nat.le_refl _) w2 hr
      obtain ⟨conn, chan, rx, evs, wb, wctr, hst⟩ := rxLoop_state u.rx.length u
      rw [hr] at hst
      simp only [Outcome.state] at hst
      rcases watchdogCheck_cases w2 now with hw | ⟨n, hw⟩
      · rw [hw] at h
        simp at h
      · rw [hw] at h
        have h1 : w1 = { w2 with wdtResets := n } := (Outcome.returned.inj h).symm
        rw [h1]
        refine ⟨lineInvariant_of_fields (arrive w2 F) _ rfl rfl rfl hinv2, ?_, ?_, ?_⟩
        · rw [hst]
        · rw [hst]
        · rw [hst]
    | hung w2 => rw [hr] at h; simp at h
    | undefined f w2 => rw [hr] at h; simp at h
    | blocked w2 => rw [hr] at h; simp at h
  · have hb : u._beacon = false := by
      rcases hq with hb | hb
      · exact hb
      · exact absurd hb hwin
    unfold run at h
    rw [if_neg hwin, if_pos hb] at h
    have h1 : u = w1 := Outcome.returned.inj h
    rw [← h1]
    exact ⟨hinv, rfl, rfl, rfl⟩

/-- A sequence of calls of `run`, none of which sends a beacon, that returns:
the invariant holds for the state it leaves together with the input still to
come, and the beacon settings are as at the start. -/
theorem runs_quiet (ps : List Poll) :
    ∀ (w wk : State) (F : List Nat), lineInvariant (arrive w (arrivals ps ++ F)) →
      (w._beacon = false ∨
        ∀ q ∈ ps, elapsedU32 q.now w._previousMillis < toU32 w._beaconInterval) →
      runs w ps = .returned wk →
      lineInvariant (arrive wk F) ∧ wk._beacon = w._beacon ∧
        wk._previousMillis = w._previousMillis ∧ wk._beaconInterval = w._beaconInterval := by
  induction ps with
  | nil =>
    intro w wk F hinv _ h
    have h1 : w = wk := by simpa [runs] using h
    rw [← h1]
    exact ⟨by simpa [arrivals] using hinv, rfl, rfl, rfl⟩
  | cons q qs ih =>
    intro w wk F hinv hq h
    rw [runs] at h
    cases hr : run (arrive w q.arrived) q.now q.sendStart q.script with
    | returned w1 =>
      rw [hr] at h
      dsimp only at h
      have hinv1 : lineInvariant (arrive (arrive w q.arrived) (arrivals qs ++ F)) :=
        lineInvariant_of_fields (arrive w (arrivals (q :: qs) ++ F)) _ rfl rfl
          (by simp [arrive, arrivals, List.append_assoc]) hinv
      have hq1 : (arrive w q.arrived)._beacon = false ∨
          elapsedU32 q.now (arrive w q.arrived)._previousMillis
            < toU32 (arrive w q.arrived)._beaconInterval := by
        rcases hq with hb | hb
        · exact Or.inl hb
        · exact Or.inr (hb q (List.mem_cons_self q qs))
      obtain ⟨s1, s2, s3, s4⟩ := run_quiet_step (arrive w q.arrived) w1 (arrivals qs ++ F)
        q.now q.sendStart q.script hinv1 hq1 hr
      have s2' : w1._beacon = w._beacon := s2
      have s3' : w1._previousMillis = w._previousMillis := s3
      have s4' : w1._beaconInterval = w._beaconInterval := s4
      have hq2 : w1._beacon = false ∨
          ∀ r ∈ qs, elapsedU32 r.now w1._previousMillis < toU32 w1._beaconInterval := by
        rw [s2', s3', s4']
        rcases hq with hb | hb
        · exact Or.inl hb
        · exact Or.inr (fun r hr' => hb r (List.mem_cons_of_mem q hr'))
      obtain ⟨t1, t2, t3, t4⟩ := ih w1 wk F s1 hq2 h
      exact ⟨t1, t2.trans s2', t3.trans s3', t4.trans s4'⟩
    | hung w1 => rw [hr] at h; simp at h
    | undefined f w1 => rw [hr] at h; simp at h
    | blocked w1 => rw [hr] at h; simp at h

/-- A call of `run` entered with the invariant: no store outside `_wb`, the
buffer keeps its length and the index stays below it. -/
theorem run_bounded (u : State) (now sendStart : Int) (script : List (Int × Int))
    (hinv : lineInvariant u) :
    (∀ i w', run u now sendStart script ≠ .undefined (.wbOverflow i) w') ∧
    (run u now sendStart script).state._wb.length = BUFFER_SIZE ∧
    (run u now sendStart script).state._wctr < BUFFER_SIZE ∧
    (elapsedU32 now u._previousMillis < toU32 u._beaconInterval →
      u.rx.getLast? = some 10 → (run u now sendStart script).state._wctr = 0) := by
  have hk := lineInvariant_index u hinv
  by_cases hwin : elapsedU32 now u._previousMillis < toU32 u._beaconInterval
  · obtain ⟨i1, i2, i3, i4⟩ := rxLoop_invariant u.rx.length u hinv
    obtain ⟨n, hst⟩ := run_within_state u now sendStart script hwin
    have hrun : run u now sendStart script =
        match rxLoop u.rx.length u with
        | .returned w1 => watchdogCheck w1 now
        | other => other := by
      unfold run
      rw [if_pos hwin]
      try rfl
    refine ⟨?_, by rw [hst]; exact i2, by rw [hst]; exact Nat.lt_succ_of_le i3, ?_⟩
    · intro i w' h
      rw [hrun] at h
      cases hr : rxLoop u.rx.length u with
      | returned w1 =>
        rw [hr] at h
        dsimp only at h
        rcases watchdogCheck_cases w1 now with hw | ⟨m, hw⟩
        · rw [hw] at h; simp at h
        · rw [hw] at h; simp at h
      | hung w1 => rw [hr] at h; simp at h
      | blocked w1 => rw [hr] at h; simp at h
      | undefined f w1 =>
        rw [hr] at h i1
        exact i1 i w' h
    · intro _ hlast
      rw [hst]
      refine i4 (Nat.le_refl _) ?_ ?_
      · intro he
        rw [he] at hlast
        simp at hlast
      · intro x hx
        rw [hlast] at hx
        exact (Option.some.inj hx).symm
  · obtain ⟨e1, e2, e3⟩ := run_elapsed_buffer u now sendStart script hwin
    refine ⟨e1, by rw [e2]; exact hinv.1, by rw [e3]; unfold BUFFER_SIZE; omega, ?_⟩
    intro h
    exact absurd h hwin

/-- The receive loop keeps the invariant, however it ends, short of a store
outside `_wb`, which the invariant excludes. -/
theorem rxLoop_keeps (fuel : Nat) :
    ∀ w : State, lineInvariant w → lineInvariant (rxLoop fuel w).state := by
  induction fuel with
  | zero => intro w hinv; exact hinv
  | succ fuel ih =>
    intro w hinv
    have hk := lineInvariant_index w hinv
    have hkb : w._wctr < BUFFER_SIZE := by unfold BUFFER_SIZE; omega
    cases hrx : w.rx with
    | nil =>
      rw [(rxLoop_nil (fuel + 1) w hrx).1]
      exact hinv
    | cons v rest =>
      by_cases h10 : v = 10
      · subst h10
        rw [rxLoop_lf fuel w rest hrx hkb]
        obtain ⟨conn, chan, evs, rx', hrx', hcase⟩ := processWifiMessage_cases
          { w with rx := rest, _wb := w._wb.set w._wctr 0, _wctr := 0 }
        have hsub : rx' <:+: rest := by
          rcases hrx' with h | h
          · rw [h]
          · rw [h]; exact ( List.nil_prefix).isInfix
        have hinv1 : lineInvariant { w with
            rx := rx', _wb := w._wb.set w._wctr 0, _wctr := 0,
            _connected := conn, _replyChan := chan, events := evs } :=
          lineInvariant_after_lf w _ rest hinv hrx rfl rfl hsub
        rcases hcase with hc | hc | hc
        · rw [hc]
          exact ih _ hinv1
        · rw [hc]
          exact hinv1
        · rw [hc]
          exact hinv1
      · by_cases h13 : v = 13
        · subst h13
          rw [rxLoop_cr fuel w rest hrx]
          exact ih _ (lineInvariant_cr w rest hinv hrx)
        · rw [rxLoop_store fuel w v rest hrx h10 h13 hkb]
          exact ih _ (lineInvariant_store w v rest hinv hrx h10 h13).2

/-- The input that `sendData` leaves waiting: it is untouched when the guard
refuses the call, and dropped by `clearResults()` otherwise. -/
theorem sendData_rx (w w1 : State) (chan : Int) (data : List Nat) (start : Int)
    (script rest : List (Int × Int)) (b : Bool)
    (h : sendData w chan data start script = some (b, w1, rest)) :
    w1.rx = w.rx ∨ w1.rx = [] := by
  unfold sendData at h
  split at h
  · have hw : w = w1 := by
      have := Option.some.inj h
      exact (Prod.mk.inj (Prod.mk.inj this).2).1
    exact Or.inl (hw ▸ rfl)
  · dsimp only at h
    split at h
    · exact absurd h (by simp)
    · have := Option.some.inj h
      have hw := (Prod.mk.inj (Prod.mk.inj this).2).1
      rw [← hw]
      exact Or.inr rfl

/-- The input left waiting by the part of `run` taken once the interval has
elapsed: all of it, or none after a beacon send. -/
theorem run_elapsed_rx (u : State) (now sendStart : Int) (script : List (Int × Int))
    (hwin : ¬ elapsedU32 now u._previousMillis < toU32 u._beaconInterval) :
    (run u now sendStart script).state.rx = u.rx ∨
      (run u now sendStart script).state.rx = [] := by
  unfold run
  rw [if_neg hwin]
  split
  · exact Or.inl rfl
  · split
    · exact Or.inl rfl
    · rename_i data hdata
      dsimp only
      split
      · exact Or.inl rfl
      · rename_i w1 r hs
        have hrx := sendData_rx _ _ _ _ _ _ _ _ hs
        obtain ⟨n, hw⟩ := watchdogCheck_state { w1 with _previousMillis := toLong now } now
        rw [hw]
        exact hrx
      · rename_i w1 r hs
        have hrx := sendData_rx _ _ _ _ _ _ _ _ hs
        obtain ⟨n, hw⟩ := watchdogCheck_state w1 now
        rw [hw]
        exact hrx

/-- A call of `run` keeps the invariant, however it ends. -/
theorem run_keeps (u : State) (now sendStart : Int) (script : List (Int × Int))
    (hinv : lineInvariant u) :
    lineInvariant (run u now sendStart script).state := by
  by_cases hwin : elapsedU32 now u._previousMillis < toU32 u._beaconInterval
  · obtain ⟨n, hst⟩ := run_within_state u now sendStart script hwin
    rw [hst]
    exact lineInvariant_of_fields (rxLoop u.rx.length u).state _ rfl rfl rfl
      (rxLoop_keeps u.rx.length u hinv)
  · obtain ⟨_, e2, e3⟩ := run_elapsed_buffer u now sendStart script hwin
    rcases run_elapsed_rx u now sendStart script hwin with hrx | hrx
    · exact lineInvariant_of_fields u _ e2 e3 hrx hinv
    · refine ⟨by rw [e2]; exact hinv.1, ?_, by rw [hrx]; exact linesFit_nil⟩
      intro seg hseg _
      rw [hrx] at hseg
      have hs : seg = [] := List.eq_nil_of_prefix_nil hseg
      rw [hs, e3]
      have := lineInvariant_index u hinv
      simpa [stored] using this

/-- A stretch of `a ++ x :: b` that does not hold `x` lies in `a` or in `b`. -/
theorem infix_split (seg a b : List Nat) (x : Nat) (h : seg <:+: a ++ x :: b)
    (hx : x ∉ seg) : seg <:+: a ∨ seg <:+: b := by
  obtain ⟨s, t, hst⟩ := h
  rcases List.append_eq_append_iff.mp hst with ⟨a', ha, _⟩ | ⟨c, hc, hb⟩
  · exact Or.inl ⟨s, a', ha.symm⟩
  · cases c with
    | nil =>
      simp only [List.append_nil] at hc
      exact Or.inl ⟨s, [], by simp [hc]⟩
    | cons y c =>
      simp only [List.cons_append, List.cons.injEq] at hb
      obtain ⟨hy, hb⟩ := hb
      subst hy
      rcases List.append_eq_append_iff.mp hc with ⟨e, _, he⟩ | ⟨e, _, he⟩
      · exact absurd (by rw [he]; simp) hx
      · cases e with
        | nil =>
          simp only [List.nil_append] at he
          exact absurd (by rw [← he]; simp) hx
        | cons z e =>
          simp only [List.cons_append, List.cons.injEq] at he
          exact Or.inr ⟨e, t, by rw [hb, he.2]⟩

/-- Two lines of 200 and of 100 bytes fit the line buffer. -/
theorem linesFit_two_lines :
    linesFit (List.replicate 200 65 ++ 10 :: List.replicate 100 65) := by
  intro seg hseg hno
  have h1 : stored seg ≤ seg.length := List.length_filter_le _ _
  rcases infix_split seg _ _ 10 hseg hno with h | h
  · have := h.length_le
    simp only [List.length_replicate] at this
    omega
  · have := h.length_le
    simp only [List.length_replicate] at this
    omega

set_option maxRecDepth 100000 in
/-- C10, counterexample.  The specification says that every write to `_wb` lands
below index 255 whatever input `run` processes.  From `_wctr = 0`, 256 bytes
`A` without a line feed fill all 255 places of `_wb`, and the 256th byte is
stored at index 255, outside the array: the loop has no bounds check.

Lines that fit do not exclude it when a beacon is sent in between.  With the
beacon enabled, 200 bytes `A` arrive and a first call stores them; a line feed
arrives, but the second call falls behind the interval and sends the beacon,
and `sendData` begins with `clearResults()`, which drops the line feed while
the 200 bytes stay in the buffer; 100 more bytes `A` arrive, and the third
call stores the 56th of them at index 255.  No line of this input has more
than 200 bytes. -/
theorem C10_long_line_overflows :
    (({ construct 1 9600 0 with rx := List.replicate 256 65 } : State)._wctr = 0 ∧
    run { construct 1 9600 0 with rx := List.replicate 256 65 } 100 100 []
      = .undefined (.wbOverflow 255) { construct 1 9600 0 with
          _wb := List.replicate 255 65, _wctr := 255, rx := [] }) ∧
    (({ construct 1 9600 0 with _beacon := true } : State)._wctr = 0 ∧
    linesFit (arrivals [⟨List.replicate 200 65, 100, 100, []⟩,
        ⟨[10], 7000, 7000,
          [(83, 7001), (69, 7002), (78, 7003), (68, 7004), (32, 7005), (79, 7006), (75, 7007)]⟩,
        ⟨List.replicate 100 65, 7100, 7100, []⟩]) ∧
    runs { construct 1 9600 0 with _beacon := true }
        [⟨List.replicate 200 65, 100, 100, []⟩,
        ⟨[10], 7000, 7000,
          [(83, 7001), (69, 7002), (78, 7003), (68, 7004), (32, 7005), (79, 7006), (75, 7007)]⟩,
        ⟨List.replicate 100 65, 7100, 7100, []⟩]
      = .undefined (.wbOverflow 255) { construct 1 9600 0 with
          _beacon := true, _previousMillis := 7000,
          _wb := List.replicate 255 65, _wctr := 255, rx := List.replicate 44 65,
          tx := bytes ("AT+CIPSEND=2,59\r\n")
            ++ bytes ("\x7b\"event\": \"beacon\", \"ip\": \"\", \"port\": 8000, \"device\": \"\"\x7d\r\n")
            ++ bytes ("\r\n"),
          beaconSends := [(2, bytes
            ("\x7b\"event\": \"beacon\", \"ip\": \"\", \"port\": 8000, \"device\": \"\"\x7d\r\n"))] }) := by
  refine ⟨⟨rfl, by rfl⟩, rfl, ?_, by rfl⟩
  have hrx : arrivals [⟨List.replicate 200 65, 100, 100, []⟩,
        ⟨[10], 7000, 7000,
          [(83, 7001), (69, 7002), (78, 7003), (68, 7004), (32, 7005), (79, 7006), (75, 7007)]⟩,
        ⟨List.replicate 100 65, 7100, 7100, []⟩]
      = List.replicate 200 65 ++ 10 :: List.replicate 100 65 := by
    simp [arrivals]
  rw [hrx]
  exact linesFit_two_lines

/-- The line in progress when a call of `run` within the interval returns. -/
theorem run_progress (u w1 : State) (now sendStart : Int) (script : List (Int × Int))
    (hinv : lineInvariant u)
    (hwin : elapsedU32 now u._previousMillis < toU32 u._beaconInterval)
    (h : run u now sendStart script = .returned w1) :
    w1._wb.take w1._wctr = lineInProgress (u._wb.take u._wctr) u.rx ∨
    (u._dcb = true ∧ w1._wctr = 0 ∧ ∃ d, w1.events.getLast? = some (Event.data d)) := by
  unfold run at h
  rw [if_pos hwin] at h
  cases hr : rxLoop u.rx.length u with
  | returned w2 =>
    rw [hr] at h
    dsimp only at h
    rcases watchdogCheck_cases w2 now with hw | ⟨n, hw⟩
    · rw [hw] at h
      simp at h
    · rw [hw] at h
      have h1 : w1 = { w2 with wdtResets := n } := (Outcome.returned.inj h).symm
      rw [h1]
      exact rxLoop_progress u.rx.length u hinv (Nat.le_refl _) w2 hr
  | hung w2 => rw [hr] at h; simp at h
  | undefined f w2 => rw [hr] at h; simp at h
  | blocked w2 => rw [hr] at h; simp at h

theorem arrivals_append (ps qs : List Poll) :
    arrivals (ps ++ qs) = arrivals ps ++ arrivals qs := by
  induction ps with
  | nil => simp [arrivals]
  | cons q ps ih => simp [arrivals, ih, List.append_assoc]

/-- C10, amended.  Let `run` be called any number of times, bytes arriving
between the calls, and let the line in progress at the start together with all
the input hold no line of more than 254 bytes other than CR (from `_wctr = 0`:
no stretch of the input without a line feed has more).  Consider a call
reached after calls none of which has sent a beacon (the beacon is disabled,
or each of them fell within the beacon interval).  This call, also when it is
entered in the middle of a line, is entered with the invariant of the line
buffer and ends with it, and it makes no store outside `_wb`: every write, the
terminating NUL included, lands below `BUFFER_SIZE = 255`, `_wb` keeps its 255
places and `_wctr` stays below 255.  When the call is within the interval,
`_wctr` is 0 in the state in which it ends if the waiting input ends in a line
feed, and when it returns the bytes of `_wb` below `_wctr` are the line in
progress that the line assembly of the input leaves, unless a payload was
handed to the registered data callback, `_wctr` being 0 then.  A call past
the interval leaves `_wb` and `_wctr` as they are. -/
theorem C10_line_buffer_bounded (w wk : State) (ps : List Poll) (p : Poll)
    (hinv : lineInvariant (arrive w (arrivals (ps ++ [p]))))
    (hquiet : w._beacon = false ∨
      ∀ q ∈ ps, elapsedU32 q.now w._previousMillis < toU32 w._beaconInterval)
    (hk : runs w ps = .returned wk) :
    lineInvariant (arrive wk p.arrived) ∧
    lineInvariant (run (arrive wk p.arrived) p.now p.sendStart p.script).state ∧
    (∀ i w', run (arrive wk p.arrived) p.now p.sendStart p.script
        ≠ .undefined (.wbOverflow i) w') ∧
    (run (arrive wk p.arrived) p.now p.sendStart p.script).state._wb.length = BUFFER_SIZE ∧
    (run (arrive wk p.arrived) p.now p.sendStart p.script).state._wctr < BUFFER_SIZE ∧
    (elapsedU32 p.now wk._previousMillis < toU32 wk._beaconInterval →
      ((arrive wk p.arrived).rx.getLast? = some 10 →
        (run (arrive wk p.arrived) p.now p.sendStart p.script).state._wctr = 0) ∧
      ∀ w1, run (arrive wk p.arrived) p.now p.sendStart p.script = .returned w1 →
        w1._wb.take w1._wctr
            = lineInProgress (wk._wb.take wk._wctr) (arrive wk p.arrived).rx ∨
          (wk._dcb = true ∧ w1._wctr = 0 ∧
            ∃ d, w1.events.getLast? = some (Event.data d))) ∧
    (¬ elapsedU32 p.now wk._previousMillis < toU32 wk._beaconInterval →
      (run (arrive wk p.arrived) p.now p.sendStart p.script).state._wb = wk._wb ∧
      (run (arrive wk p.arrived) p.now p.sendStart p.script).state._wctr = wk._wctr) := by
  have harr : arrivals (ps ++ [p]) = arrivals ps ++ p.arrived := by
    rw [arrivals_append]
    simp [arrivals]
  rw [harr] at hinv
  obtain ⟨hinvk, _, _, _⟩ := runs_quiet ps w wk p.arrived hinv hquiet hk
  obtain ⟨b1, b2, b3, b4⟩ := run_bounded (arrive wk p.arrived) p.now p.sendStart p.script hinvk
  refine ⟨hinvk, run_keeps (arrive wk p.arrived) p.now p.sendStart p.script hinvk,
    b1, b2, b3, ?_, ?_⟩
  · intro hwin
    exact ⟨b4 hwin, fun w1 h1 =>
      run_progress (arrive wk p.arrived) w1 p.now p.sendStart p.script hinvk hwin h1⟩
  · intro hwin
    exact (run_elapsed_buffer (arrive wk p.arrived) p.now p.sendStart p.script hwin).2

set_option maxRecDepth 8000 in
/-- C10, an instance: the line `Link` arrives in two pieces, `Li` before the
first call and `nk` with the line feed before the second, which is entered
with `_wctr = 2`. -/
theorem C10_line_buffer_bounded_witness :
    lineInvariant (arrive { construct 1 9600 0 with
        _wb := [76, 105] ++ List.replicate 253 0, _wctr := 2 } [110, 107, 10]) ∧
    lineInvariant (run (arrive { construct 1 9600 0 with
        _wb := [76, 105] ++ List.replicate 253 0, _wctr := 2 } [110, 107, 10]) 200 200
        []).state ∧
    (∀ i w', run (arrive { construct 1 9600 0 with
        _wb := [76, 105] ++ List.replicate 253 0, _wctr := 2 } [110, 107, 10]) 200 200 []
        ≠ .undefined (.wbOverflow i) w') ∧
    (run (arrive { construct 1 9600 0 with
        _wb := [76, 105] ++ List.replicate 253 0, _wctr := 2 } [110, 107, 10]) 200 200
        []).state._wb.length = BUFFER_SIZE ∧
    (run (arrive { construct 1 9600 0 with
        _wb := [76, 105] ++ List.replicate 253 0, _wctr := 2 } [110, 107, 10]) 200 200
        []).state._wctr = 0 :=
  have h := C10_line_buffer_bounded (construct 1 9600 0)
    { construct 1 9600 0 with _wb := [76, 105] ++ List.replicate 253 0, _wctr := 2 }
    [⟨[76, 105], 100, 100, []⟩] ⟨[110, 107, 10], 200, 200, []⟩
    (lineInvariant_of_start _ rfl (by rfl) (linesFit_of_short _ (by decide)))
    (Or.inl rfl) (by rfl)
  ⟨h.1, h.2.1, h.2.2.1, h.2.2.2.1, (h.2.2.2.2.2.1 (by decide)).1 (by rfl)⟩

/-! ## C16: the receive loop, line by line -/

theorem firstLine_no_lf (rx : List Nat) : 10 ∉ firstLine rx := by
  intro h
  have := List.mem_takeWhile_imp h
  simp at this

/-- When a line feed is waiting, the input is the bytes in front of the first
one, the line feed and the input behind it. -/
theorem firstLine_split (rx : List Nat) (h : (firstLine rx).length < rx.length) :
    rx = firstLine rx ++ 10 :: rx.drop ((firstLine rx).length + 1) := by
  induction rx with
  | nil => simp at h
  | cons v r ih =>
    by_cases h10 : v = 10
    · subst h10
      simp [firstLine]
    · have hf : firstLine (v :: r) = v :: firstLine r := by
        simp [firstLine, List.takeWhile_cons, h10]
      rw [hf] at h ⊢
      simp only [List.length_cons, Nat.add_lt_add_iff_right] at h
      simp only [List.length_cons, List.cons_append, List.drop_succ_cons]
      rw [← ih h]

/-- When no line feed is waiting, the first line is all the input. -/
theorem firstLine_all (rx : List Nat) (h : ¬ (firstLine rx).length < rx.length) :
    firstLine rx = rx := by
  induction rx with
  | nil => rfl
  | cons v r ih =>
    by_cases h10 : v = 10
    · subst h10
      simp [firstLine] at h
    · have hf : firstLine (v :: r) = v :: firstLine r := by
        simp [firstLine, List.takeWhile_cons, h10]
      rw [hf] at h ⊢
      simp only [List.length_cons, Nat.add_lt_add_iff_right] at h
      rw [ih h]

/-- Writing the terminating NUL behind the bytes stored. -/
theorem storeAt_terminate (wb : List Nat) (k : Nat) (s : List Nat)
    (h : k + s.length < wb.length) :
    (wb.take k ++ s ++ wb.drop (k + s.length)).set (k + s.length) 0
      = storeAt wb k (s ++ [0]) := by
  have hk : k ≤ wb.length := by omega
  have hA : (wb.take k ++ s).length = k + s.length := by
    simp [List.length_take, Nat.min_eq_left hk]
  unfold storeAt
  rw [List.set_eq_take_append_cons_drop]
  have hlt : k + s.length < (wb.take k ++ s ++ wb.drop (k + s.length)).length := by
    simp only [List.length_append, List.length_take, List.length_drop, Nat.min_eq_left hk]
    omega
  rw [if_pos hlt]
  have h1 : (wb.take k ++ s ++ wb.drop (k + s.length)).take (k + s.length) = wb.take k ++ s := by
    rw [List.take_append_eq_append_take, hA]
    simp [hA]
  have h2 : (wb.take k ++ s ++ wb.drop (k + s.length)).drop (k + s.length + 1)
      = wb.drop (k + (s ++ [0]).length) := by
    rw [List.drop_append_eq_append_drop, hA]
    have : (wb.take k ++ s).drop (k + s.length + 1) = [] := by
      apply List.drop_eq_nil_of_le
      rw [hA]
      omega
    rw [this]
    simp [Nat.add_assoc]
  rw [h1, h2]
  simp [List.append_assoc]

theorem storeAt_length (wb : List Nat) (k : Nat) (s : List Nat) (h : k + s.length ≤ wb.length) :
    (storeAt wb k s).length = wb.length := by
  unfold storeAt
  simp only [List.length_append, List.length_take, List.length_drop]
  omega

theorem classifyByLine_nil (fuel : Nat) (w : State) (h : w.rx = []) :
    classifyByLine fuel w = .returned w := by
  cases fuel with
  | zero => rfl
  | succ fuel => rw [classifyByLine, h]

theorem classifyByLine_succ (fuel : Nat) (w : State) (h : w.rx ≠ []) :
    classifyByLine (fuel + 1) w =
      if (firstLine w.rx).length < w.rx.length then
        match processWifiMessage { w with
            rx := w.rx.drop ((firstLine w.rx).length + 1),
            _wb := storeAt w._wb w._wctr
              ((firstLine w.rx).filter (fun v => decide (v ≠ 13)) ++ [0]),
            _wctr := 0 } with
        | .returned w1 => classifyByLine fuel w1
        | other => other
      else .returned { w with
        rx := [],
        _wb := storeAt w._wb w._wctr ((firstLine w.rx).filter (fun v => decide (v ≠ 13))),
        _wctr := w._wctr + stored (firstLine w.rx) } := by
  rw [classifyByLine]
  split
  · rename_i he
    exact absurd he h
  · try rfl

/-- The receive loop does what the line-by-line reference does, whatever
fuel the two are given beyond the number of bytes waiting. -/
theorem rxLoop_byLine (n : Nat) :
    ∀ (w : State) (f1 f2 : Nat), w.rx.length ≤ n → lineInvariant w →
      w.rx.length ≤ f1 → w.rx.length ≤ f2 → rxLoop f1 w = classifyByLine f2 w := by
  induction n with
  | zero =>
    intro w f1 f2 hn _ _ _
    have hrx : w.rx = [] := List.length_eq_zero.mp (Nat.le_zero.mp hn)
    rw [(rxLoop_nil f1 w hrx).1, classifyByLine_nil f2 w hrx]
  | succ n ih =>
    intro w f1 f2 hn hinv h1 h2
    by_cases hnil : w.rx = []
    · rw [(rxLoop_nil f1 w hnil).1, classifyByLine_nil f2 w hnil]
    · have hpos : 0 < w.rx.length := List.length_pos.mpr hnil
      obtain ⟨g, hg⟩ : ∃ g, f2 = g + 1 := ⟨f2 - 1, by omega⟩
      subst hg
      rw [classifyByLine_succ g w hnil]
      have hlen : w._wb.length = BUFFER_SIZE := hinv.1
      have hno := firstLine_no_lf w.rx
      have hfitk : w._wctr + stored (firstLine w.rx) ≤ 254 :=
        hinv.2.1 (firstLine w.rx) ( List.takeWhile_prefix _) hno
      have hfitk' : w._wctr + ((firstLine w.rx).filter (fun v => decide (v ≠ 13))).length ≤ 254 :=
        hfitk
      by_cases hlt : (firstLine w.rx).length < w.rx.length
      · rw [if_pos hlt]
        have hsplit := firstLine_split w.rx hlt
        have hlenrx : w.rx.length
            = (firstLine w.rx).length + 1 + (w.rx.drop ((firstLine w.rx).length + 1)).length := by
          conv_lhs => rw [hsplit]
          simp only [List.length_append, List.length_cons]
          omega
        obtain ⟨m, hm⟩ : ∃ m, f1 = (firstLine w.rx).length + (m + 1) :=
          ⟨f1 - (firstLine w.rx).length - 1, by omega⟩
        rw [hm, rxLoop_stretch (firstLine w.rx) (10 :: w.rx.drop ((firstLine w.rx).length + 1))
          (m + 1) w hno hsplit hlen (by unfold BUFFER_SIZE; omega)]
        rw [rxLoop_lf m _ (w.rx.drop ((firstLine w.rx).length + 1)) rfl
          (by unfold BUFFER_SIZE; simp only; omega)]
        dsimp only
        rw [storeAt_terminate w._wb w._wctr _ (by rw [hlen]; unfold BUFFER_SIZE; omega)]
        cases hp : processWifiMessage { w with
            rx := w.rx.drop ((firstLine w.rx).length + 1),
            _wb := storeAt w._wb w._wctr
              ((firstLine w.rx).filter (fun v => decide (v ≠ 13)) ++ [0]),
            _wctr := 0 } with
        | returned w1 =>
          dsimp only
          obtain ⟨hwb1, hk1, _, hr1⟩ := processWifiMessage_returned _ _ hp
          dsimp only at hwb1 hk1 hr1
          have hsuf : w1.rx <:+: w.rx := by
            rcases hr1 with hkeep | ⟨_, hdrop, _⟩
            · rw [hkeep]
              exact (List.drop_suffix _ _).isInfix
            · rw [hdrop]
              exact ( List.nil_prefix).isInfix
          have hl1 : w1.rx.length ≤ (w.rx.drop ((firstLine w.rx).length + 1)).length := by
            rcases hr1 with hkeep | ⟨_, hdrop, _⟩
            · rw [hkeep]
            · rw [hdrop]; simp
          have hinv1 : lineInvariant w1 := by
            refine lineInvariant_of_start w1 hk1 ?_ (linesFit_sub w1.rx w.rx hsuf hinv.2.2)
            rw [hwb1, storeAt_length _ _ _ (by
              rw [hlen]; unfold BUFFER_SIZE; simp only [List.length_append, List.length_singleton]
              omega)]
            exact hlen
          exact ih w1 m g (by omega) hinv1 (by omega) (by omega)
        | hung w1 => rfl
        | undefined f w1 => rfl
        | blocked w1 => rfl
      · rw [if_neg hlt]
        have hall := firstLine_all w.rx hlt
        obtain ⟨m, hm⟩ : ∃ m, f1 = w.rx.length + m := ⟨f1 - w.rx.length, by omega⟩
        rw [hall] at hno hfitk'
        rw [hall, hm, rxLoop_stretch w.rx [] m w hno (by simp) hlen (by unfold BUFFER_SIZE; omega)]
        rw [(rxLoop_nil m _ rfl).1]
        rfl

/-- Input that fits the room left in the line buffer as a whole satisfies the
invariant. -/
theorem lineInvariant_of_short (w : State) (hlen : w._wb.length = BUFFER_SIZE)
    (h : w._wctr + w.rx.length ≤ 254) : lineInvariant w := by
  refine ⟨hlen, ?_, linesFit_of_short w.rx (by omega)⟩
  intro seg hseg _
  have h1 : stored seg ≤ seg.length := List.length_filter_le _ _
  have h2 := hseg.length_le
  omega

/-- A classification that returns leaves the waiting input alone and hands no
payload to the data callback, or it hands a payload to the registered data
callback and leaves no input waiting. -/
theorem processWifiMessage_input (u u1 : State) (h : processWifiMessage u = .returned u1) :
    (u1.rx = u.rx ∧ ∀ d, u1.events ≠ u.events ++ [Event.data d]) ∨
    (u._dcb = true ∧ u1.rx = [] ∧ ∃ d, u1.events = u.events ++ [Event.data d]) := by
  unfold processWifiMessage at h
  split at h
  · dsimp only at h
    split at h
    · rw [← Outcome.returned.inj h]
      exact Or.inl ⟨rfl, by intro d; simp⟩
    · rw [← Outcome.returned.inj h]
      exact Or.inl ⟨rfl, by intro d; simp⟩
  · split at h
    · split at h
      · simp at h
      · split at h
        · simp at h
        · split at h
          · dsimp only at h
            split at h
            · simp at h
            · split at h
              · rename_i hd
                rw [← Outcome.returned.inj h]
                exact Or.inr ⟨hd, rfl, _, rfl⟩
              · rw [← Outcome.returned.inj h]
                exact Or.inl ⟨rfl, by intro d; simp⟩
          · rw [← Outcome.returned.inj h]
            exact Or.inl ⟨rfl, by intro d; simp⟩
    · rw [← Outcome.returned.inj h]
      exact Or.inl ⟨rfl, by intro d; simp⟩

/-- C16, amended.  A call of `run` within the interval, entered in any state
of the line buffer in which the line in progress and the waiting input fit
it (a call entered in the middle of a line included), handles the waiting
input one line at a time, in arrival order: the bytes in front of the next
line feed, CR left out, are stored behind the line in progress, the line is
terminated and classified exactly once by `processWifiMessage`, and the input
behind the line feed is handled next; the bytes behind the last line feed are
stored as the new line in progress.  When `run` returns no input is left
waiting.  A classification leaves the input behind its line waiting, except
when it hands a payload to the registered data callback: the input behind that
line has then been dropped by `clearResults` and no later line is
classified. -/
theorem C16_lines_classified (w : State) (now sendStart : Int) (script : List (Int × Int))
    (fuel : Nat) (hinv : lineInvariant w)
    (hwin : elapsedU32 now w._previousMillis < toU32 w._beaconInterval)
    (hfuel : w.rx.length ≤ fuel) :
    run w now sendStart script =
      (match classifyByLine fuel w with
       | .returned w1 => watchdogCheck w1 now
       | other => other) ∧
    (∀ w1, run w now sendStart script = .returned w1 → w1.rx = []) ∧
    (∀ u u1, processWifiMessage u = .returned u1 →
      (u1.rx = u.rx ∧ ∀ d, u1.events ≠ u.events ++ [Event.data d]) ∨
      (u._dcb = true ∧ u1.rx = [] ∧ ∃ d, u1.events = u.events ++ [Event.data d])) := by
  have hrun : run w now sendStart script =
      match rxLoop w.rx.length w with
      | .returned w1 => watchdogCheck w1 now
      | other => other := by
    unfold run
    rw [if_pos hwin]
    try rfl
  refine ⟨?_, ?_, processWifiMessage_input⟩
  · rw [hrun, rxLoop_byLine w.rx.length w w.rx.length fuel (Nat.le_refl _) hinv
      (Nat.le_refl _) hfuel]
  · intro w1 h
    rw [hrun] at h
    cases hr : rxLoop w.rx.length w with
    | returned w2 =>
      rw [hr] at h
      dsimp only at h
      have hrx2 := (( rxLines_prefix w.rx.length w hinv (Nat.le_refl _)).2 w2 hr).1
      rcases watchdogCheck_cases w2 now with hw | ⟨n, hw⟩
      · rw [hw] at h
        simp at h
      · rw [hw] at h
        rw [← Outcome.returned.inj h]
        exact hrx2
    | hung w2 => rw [hr] at h; simp at h
    | undefined f w2 => rw [hr] at h; simp at h
    | blocked w2 => rw [hr] at h; simp at h

set_option maxRecDepth 8000 in
/-- C16, an instance: a call entered in the middle of the line `Link`, of
which `Li` is in the buffer; `nk`, CR, LF and `ab` are waiting.  The line is
classified once and `ab` becomes the line in progress. -/
theorem C16_lines_classified_witness :
    run { construct 1 9600 0 with
        _ccb := true, _wb := [76, 105] ++ List.replicate 253 0, _wctr := 2,
        rx := [110, 107, 13, 10, 97, 98] } 200 200 []
      = .returned { construct 1 9600 0 with
          _ccb := true, _connected := true, events := [Event.connected],
          _wb := [97, 98, 110, 107] ++ List.replicate 251 0, _wctr := 2, rx := [] } :=
  (C16_lines_classified { construct 1 9600 0 with
      _ccb := true, _wb := [76, 105] ++ List.replicate 253 0, _wctr := 2,
      rx := [110, 107, 13, 10, 97, 98] } 200 200 [] 6
    (lineInvariant_of_short _ (by rfl) (by decide)) (by decide) (by decide)).1.trans (by rfl)

end ESP8266
